import Mathlib

/-! logic-exp: the expression utilities and the expression service

A shallow embedding of `pkg/utils/logical_expression.go` and
`pkg/services/expression_service.go`, together with the parts of the Go
runtime and of the `govaluate` library these two files call.

Go strings are `String`; the workers run over the character list `String.data`.
-/

namespace LogicExp

/-! ## `regexp`: the pattern `(?m)[a-z]+` -/

/-- The character class `[a-z]` of `pattern`. -/
def isLowerAZ (c : Char) : Bool :=
  decide (97 ≤ c.toNat) && decide (c.toNat ≤ 122)

/-- Leftmost, greedy, non-overlapping matches of `[a-z]+`: `cur` is the match
being extended, the second argument the text still to be read. -/
def findAllFrom : List Char → List Char → List (List Char)
  | cur, [] => if cur.isEmpty then [] else [cur]
  | cur, c :: cs =>
    if isLowerAZ c then findAllFrom (cur ++ [c]) cs
    else if cur.isEmpty then findAllFrom [] cs
    else cur :: findAllFrom [] cs

/-- `regex.FindAllString(s, -1)` for `regex = regexp.MustCompile(pattern)`. -/
def FindAllString (s : String) : List String :=
  (findAllFrom [] s.data).map String.mk

/-! ## `pkg/utils`: parameters of an expression -/

/-- `LogicalExpressionParametersSet` is `map[string]struct{}`: a set of keys,
kept here as a duplicate-free list. The order of the list is not observable in
Go except through `range`, whose order is unspecified. -/
abbrev LogicalExpressionParametersSet := List String

/-- `parametersSet[param] = struct{}{}`. -/
def setInsert (set : LogicalExpressionParametersSet) (param : String) :
    LogicalExpressionParametersSet :=
  if param ∈ set then set else set ++ [param]

/-- `GetLogicalExpressionParameters` returns the operands of a logical
expression as a set. -/
def GetLogicalExpressionParameters (logicalExpression : String) :
    LogicalExpressionParametersSet :=
  (FindAllString logicalExpression).foldl setInsert []

/-! ## `strings.ReplaceAll` -/

/-- `strings.ReplaceAll(s, old, new)` for a non-empty `old`: the non-overlapping
occurrences of `old` are replaced from the left. `skip` counts the characters
of a matched occurrence that are still to be passed over. -/
def replaceAllFrom (old new : List Char) : Nat → List Char → List Char
  | _, [] => []
  | skip + 1, _ :: cs => replaceAllFrom old new skip cs
  | 0, c :: cs =>
    if old.isPrefixOf (c :: cs) then new ++ replaceAllFrom old new (old.length - 1) cs
    else c :: replaceAllFrom old new 0 cs

/-- `strings.ReplaceAll`. -/
def ReplaceAll (s old new : String) : String :=
  String.mk (replaceAllFrom old.data new.data 0 s.data)

/-! ## `govaluate`: tokens

The expression library `github.com/Knetic/govaluate` (v3.0.0) is a dependency
of `pkg/utils`. Its functions are embedded below under their own names, for
the part of its input language that `pkg/utils` can reach without string
literals, escapes, separators, radix points, hexadecimal and long numerals,
arithmetic on numbers and non-ASCII letters; on such input the embedding
answers `GvError.outsideModel`. -/

/-- An error returned by the library (`message`), or the marks of the embedding:
`outsideModel` for input the embedding does not cover, `outOfFuel` when a
bounded recursion was given too little fuel, `panicked` where the library
would index a slice out of range. -/
inductive GvError
  | message (s : String)
  | outsideModel
  | outOfFuel
  | panicked
  deriving DecidableEq, Repr

/-- `TokenKind`. -/
inductive TokenKind
  | UNKNOWN | PREFIX | NUMERIC | BOOLEAN | STRING | PATTERN | TIME | VARIABLE
  | FUNCTION | SEPARATOR | ACCESSOR | COMPARATOR | LOGICALOP | MODIFIER
  | CLAUSE | CLAUSE_CLOSE | TERNARY
  deriving DecidableEq, Repr

/-- `TokenKind.String`. -/
def TokenKind.String : TokenKind → String
  | .UNKNOWN => "UNKNOWN" | .PREFIX => "PREFIX" | .NUMERIC => "NUMERIC"
  | .BOOLEAN => "BOOLEAN" | .STRING => "STRING" | .PATTERN => "PATTERN"
  | .TIME => "TIME" | .VARIABLE => "VARIABLE" | .FUNCTION => "FUNCTION"
  | .SEPARATOR => "SEPARATOR" | .ACCESSOR => "ACCESSOR" | .COMPARATOR => "COMPARATOR"
  | .LOGICALOP => "LOGICALOP" | .MODIFIER => "MODIFIER" | .CLAUSE => "CLAUSE"
  | .CLAUSE_CLOSE => "CLAUSE_CLOSE" | .TERNARY => "TERNARY"

/-- A Go `interface{}` as the library produces it on the covered input: `nil`,
a `bool`, a `float64` holding a natural number below 10^6, a `string`, or the
`rune` stored in a parenthesis token. -/
inductive Value
  | nil
  | bool (b : Bool)
  | number (n : Nat)
  | str (s : String)
  | rune (c : Char)
  deriving DecidableEq, Repr

/-- The verb `%v` on a `Value`. -/
def Value.format : Value → String
  | .nil => "<nil>"
  | .bool true => "true"
  | .bool false => "false"
  | .number n => toString n
  | .str s => s
  | .rune c => toString c.toNat

/-- `ExpressionToken`. -/
structure ExpressionToken where
  Kind : TokenKind
  Value : Value
  deriving DecidableEq, Repr

/-- `unicode.IsSpace`. -/
def isSpace (c : Char) : Bool :=
  let n := c.toNat
  decide (9 ≤ n ∧ n ≤ 13) || n == 32 || n == 0x85 || n == 0xA0 || n == 0x1680
    || decide (0x2000 ≤ n ∧ n ≤ 0x200A) || n == 0x2028 || n == 0x2029
    || n == 0x202F || n == 0x205F || n == 0x3000

/-- `unicode.IsLetter` on ASCII. -/
def isAsciiLetter (c : Char) : Bool :=
  decide (65 ≤ c.toNat ∧ c.toNat ≤ 90) || decide (97 ≤ c.toNat ∧ c.toNat ≤ 122)

/-- `unicode.IsDigit` on ASCII. -/
def isAsciiDigit (c : Char) : Bool :=
  decide (48 ≤ c.toNat ∧ c.toNat ≤ 57)

/-- A character whose class the embedding does not know: a non-ASCII character
that is not a space. -/
def isForeign (c : Char) : Bool :=
  decide (128 ≤ c.toNat) && !isSpace c

/-- `isVariableName`: a letter, a digit or an underscore. -/
def isVariableName (c : Char) : Bool :=
  isAsciiLetter c || isAsciiDigit c || c == '_'

/-- `isNotQuote`. -/
def isNotQuote (c : Char) : Bool :=
  c != (Char.ofNat 39) && c != '"'

/-- `isNotAlphanumeric`, as in v3.0.0 of the library: a bracket is no exception,
so a run of symbols runs over `[` and `]`. -/
def isNotAlphanumeric (c : Char) : Bool :=
  !(isAsciiDigit c || isAsciiLetter c || c == '(' || c == ')' || !isNotQuote c)

/-! ## `govaluate`: lexer states -/

open TokenKind in
/-- The `validNextKinds` of the entry of `validLexerStates` for a kind. -/
def validNextKinds : TokenKind → List TokenKind
  | UNKNOWN => [PREFIX, NUMERIC, BOOLEAN, VARIABLE, PATTERN, FUNCTION, ACCESSOR, STRING, TIME,
      CLAUSE]
  | CLAUSE => [PREFIX, NUMERIC, BOOLEAN, VARIABLE, PATTERN, FUNCTION, ACCESSOR, STRING, TIME,
      CLAUSE, CLAUSE_CLOSE]
  | CLAUSE_CLOSE => [COMPARATOR, MODIFIER, NUMERIC, BOOLEAN, VARIABLE, STRING, PATTERN, TIME,
      CLAUSE, CLAUSE_CLOSE, LOGICALOP, TERNARY, SEPARATOR]
  | NUMERIC => [ MODIFIER, COMPARATOR, LOGICALOP, CLAUSE_CLOSE, TERNARY, SEPARATOR]
  | BOOLEAN => [ MODIFIER, COMPARATOR, LOGICALOP, CLAUSE_CLOSE, TERNARY, SEPARATOR]
  | STRING => [ MODIFIER, COMPARATOR, LOGICALOP, CLAUSE_CLOSE, TERNARY, SEPARATOR]
  | TIME => [ MODIFIER, COMPARATOR, LOGICALOP, CLAUSE_CLOSE, SEPARATOR]
  | PATTERN => [ MODIFIER, COMPARATOR, LOGICALOP, CLAUSE_CLOSE, SEPARATOR]
  | VARIABLE => [ MODIFIER, COMPARATOR, LOGICALOP, CLAUSE_CLOSE, TERNARY, SEPARATOR]
  | MODIFIER => [PREFIX, NUMERIC, VARIABLE, FUNCTION, ACCESSOR, STRING, BOOLEAN, CLAUSE,
      CLAUSE_CLOSE]
  | COMPARATOR => [PREFIX, NUMERIC, BOOLEAN, VARIABLE, FUNCTION, ACCESSOR, STRING, TIME, CLAUSE,
      CLAUSE_CLOSE, PATTERN]
  | LOGICALOP => [PREFIX, NUMERIC, BOOLEAN, VARIABLE, FUNCTION, ACCESSOR, STRING, TIME, CLAUSE,
      CLAUSE_CLOSE]
  | PREFIX => [NUMERIC, BOOLEAN, VARIABLE, FUNCTION, ACCESSOR, CLAUSE, CLAUSE_CLOSE]
  | TERNARY => [PREFIX, NUMERIC, BOOLEAN, STRING, TIME, VARIABLE, FUNCTION, ACCESSOR, CLAUSE,
      SEPARATOR]
  | FUNCTION => [CLAUSE]
  | ACCESSOR => [CLAUSE, MODIFIER, COMPARATOR, LOGICALOP, CLAUSE_CLOSE, TERNARY, SEPARATOR]
  | SEPARATOR => [PREFIX, NUMERIC, BOOLEAN, STRING, TIME, VARIABLE, FUNCTION, ACCESSOR, CLAUSE]

open TokenKind in
/-- The `isEOF` flag of the lexer state of a kind. -/
def isEOF : TokenKind → Bool
  | CLAUSE_CLOSE | NUMERIC | BOOLEAN | STRING | TIME | PATTERN | VARIABLE | ACCESSOR => true
  | _ => false

/-- `lexerState.canTransitionTo`. -/
def canTransitionTo (state kind : TokenKind) : Bool :=
  (validNextKinds state).contains kind

/-! ## `govaluate`: `parsing.go` -/

/-- `readUntilFalse(stream, false, true, true, condition)`: characters are
appended to `buf` while `condition` holds; a space ends a non-empty token and is
consumed. `none` stands for input outside the embedding: an escape, a
character of unknown class, or one for which `unknown` holds. -/
def readUntilFalse (condition unknown : Char → Bool) :
    List Char → List Char → Option (List Char × List Char)
  | buf, [] => some (buf, [])
  | buf, c :: cs =>
    if c == '\\' || isForeign c || unknown c then none
    else if isSpace c then
      if buf.isEmpty then readUntilFalse condition unknown buf cs else some (buf, cs)
    else if condition c then readUntilFalse condition unknown (buf ++ [c]) cs
    else some (buf, c :: cs)

/-- `readUntilFalse(stream, true, false, true, isNotClosingBracket)` and the
step over the closing bracket, for a bracketed name: every character up to the
first `]` is appended to `buf`, whitespace included; the stream behind the `]`
is handed back. A stream that ends before a `]` is the error "Unclosed
parameter bracket"; an escape is outside the embedding. -/
def readUntilBracket : List Char → List Char → Except GvError (List Char × List Char)
  | _, [] => .error (.message "Unclosed parameter bracket")
  | buf, c :: cs =>
    if c == '\\' then .error .outsideModel
    else if c == ']' then .ok (buf, cs)
    else readUntilBracket (buf ++ [c]) cs

/-- The symbol tables of `parsing.go`, in the order `readToken` consults them. -/
def symbolKind (state : TokenKind) (tokenString : String) : Option TokenKind :=
  if canTransitionTo state .PREFIX && ["-", "!", "~"].contains tokenString then some .PREFIX
  else if ["+", "-", "*", "/", "%", "**", "&", "|", "^", ">>", "<<"].contains tokenString then
    some .MODIFIER
  else if ["&&", "||"].contains tokenString then some .LOGICALOP
  else if ["==", "!=", ">", ">=", "<", "<=", "=~", "!~", "in"].contains tokenString then
    some .COMPARATOR
  else if ["?", ":", "??"].contains tokenString then some .TERNARY
  else none

/-- The value of a run of decimal digits. -/
def digitsValue (ds : List Char) : Nat :=
  ds.foldl (fun n d => 10 * n + (d.toNat - 48)) 0

/-- What `readToken` hands back: a token and the rest of the stream, the end
of the stream (`found` false), or an error. -/
inductive ReadResult
  | token (t : ExpressionToken) (rest : List Char)
  | notFound
  | error (e : GvError)
  deriving Repr

/-- `readToken`. -/
def readToken (state : TokenKind) : List Char → ReadResult
  | [] => .notFound
  | c :: cs =>
    if isSpace c then readToken state cs
    else if isForeign c || c == '\\' then .error .outsideModel
    else if isAsciiDigit c then
      if c == '0' && cs.head? == some 'x' then .error .outsideModel
      else match readUntilFalse isAsciiDigit (· == '.') [] (c :: cs) with
        | none => .error .outsideModel
        | some (ds, rest) =>
          if ds.length > 6 then .error .outsideModel
          else .token ⟨.NUMERIC, .number (digitsValue ds)⟩ rest
    else if c == '.' || c == ',' then .error .outsideModel
    else if c == '[' then
      match readUntilBracket [] cs with
      | .error e => .error e
      | .ok (name, rest) => .token ⟨.VARIABLE, .str (String.mk name)⟩ rest
    else if isAsciiLetter c then
      match readUntilFalse isVariableName (· == '.') [] (c :: cs) with
      | none => .error .outsideModel
      | some (name, rest) =>
        let tokenString := String.mk name
        if tokenString == "true" then .token ⟨.BOOLEAN, .bool true⟩ rest
        else if tokenString == "false" then .token ⟨.BOOLEAN, .bool false⟩ rest
        else if tokenString == "in" || tokenString == "IN" then
          .token ⟨.COMPARATOR, .str "in"⟩ rest
        else .token ⟨.VARIABLE, .str tokenString⟩ rest
    else if !isNotQuote c then .error .outsideModel
    else if c == '(' then .token ⟨.CLAUSE, .rune '('⟩ cs
    else if c == ')' then .token ⟨.CLAUSE_CLOSE, .rune ')'⟩ cs
    else
      match readUntilFalse isNotAlphanumeric (fun _ => false) [] (c :: cs) with
      | none => .error .outsideModel
      | some (sym, rest) =>
        let tokenString := String.mk sym
        match symbolKind state tokenString with
        | some kind => .token ⟨kind, .str tokenString⟩ rest
        | none => .error (.message ("Invalid token: \'" ++ tokenString ++ "\'"))

/-- `checkBalance`: the count of `CLAUSE` minus the count of `CLAUSE_CLOSE`. -/
def parenBalance : List ExpressionToken → Int
  | [] => 0
  | t :: ts =>
    (if t.Kind = .CLAUSE then 1 else if t.Kind = .CLAUSE_CLOSE then -1 else 0) + parenBalance ts

/-- `checkBalance`. -/
def checkBalance (tokens : List ExpressionToken) : Except GvError Unit :=
  if parenBalance tokens ≠ 0 then .error (.message "Unbalanced parenthesis") else .ok ()

/-- The loop of `parseTokens`; each turn consumes at least one character, so
one unit of fuel per character (and one more) is enough. -/
def parseTokensLoop : Nat → TokenKind → List Char → Except GvError (List ExpressionToken)
  | 0, _, _ => .error .outOfFuel
  | fuel + 1, state, stream =>
    if stream.isEmpty then .ok []
    else match readToken state stream with
      | .error e => .error e
      | .notFound => .ok []
      | .token t rest =>
        match parseTokensLoop fuel t.Kind rest with
        | .error e => .error e
        | .ok ts => .ok (t :: ts)

/-- `parseTokens`. -/
def parseTokens (expression : String) : Except GvError (List ExpressionToken) :=
  match parseTokensLoop (expression.data.length + 1) .UNKNOWN expression.data with
  | .error e => .error e
  | .ok ret =>
    match checkBalance ret with
    | .error e => .error e
    | .ok _ => .ok ret

/-- The `isNullable` flag of the lexer state of a kind. -/
def isNullable : TokenKind → Bool
  | .UNKNOWN | .CLAUSE | .CLAUSE_CLOSE | .SEPARATOR => true
  | _ => false

/-- The loop of `checkExpressionSyntax`. -/
def checkExpressionSyntaxLoop (state : TokenKind) (lastToken : ExpressionToken) :
    List ExpressionToken → Except GvError Unit
  | [] =>
    if !isEOF state then .error (.message "Unexpected end of expression") else .ok ()
  | token :: rest =>
    if !canTransitionTo state token.Kind then
      if lastToken.Kind = .VARIABLE ∧ token.Kind = .CLAUSE then
        .error (.message ("Undefined function " ++ lastToken.Value.format))
      else
        .error (.message ("Cannot transition token types from "
          ++ state.String ++ " [" ++ lastToken.Value.format ++ "] to "
          ++ token.Kind.String ++ " [" ++ token.Value.format ++ "]"))
    else if !isNullable token.Kind && token.Value == .nil then
      .error (.message ("Token kind \'" ++ token.Kind.String ++ "\' cannot have a nil value"))
    else checkExpressionSyntaxLoop token.Kind token rest

/-- `checkExpressionSyntax`. -/
def checkExpressionSyntax (tokens : List ExpressionToken) : Except GvError Unit :=
  checkExpressionSyntaxLoop .UNKNOWN ⟨.UNKNOWN, .nil⟩ tokens

/-- `optimizeTokens` compiles the constant pattern of `=~` and `!~`, that is a
comparator token followed by a `STRING` token; no other token is changed. -/
def optimizeTokens (tokens : List ExpressionToken) : Except GvError (List ExpressionToken) :=
  if tokens.any (fun t => t.Kind = .STRING) then .error .outsideModel else .ok tokens

/-! ## `govaluate`: `stagePlanner.go` -/

/-- `OperatorSymbol`. -/
inductive OperatorSymbol
  | VALUE | LITERAL | NOOP | EQ | NEQ | GT | LT | GTE | LTE | REQ | NREQ | IN
  | AND | OR | PLUS | MINUS | BITWISE_AND | BITWISE_OR | BITWISE_XOR
  | BITWISE_LSHIFT | BITWISE_RSHIFT | MULTIPLY | DIVIDE | MODULUS | EXPONENT
  | NEGATE | INVERT | BITWISE_NOT | TERNARY_TRUE | TERNARY_FALSE | COALESCE
  | FUNCTIONAL | ACCESS | SEPARATE
  deriving DecidableEq, Repr

/-- An `*evaluationStage`: `nil`, or a stage with its symbol and its two
sub-stages. The operator, the type checks and the error format of a stage are
those its symbol selects (`stageSymbolMap`, `findTypeChecks`, the planner
level), except for a parameter stage and a literal stage, whose operator
closes over `operand`: the parameter name, or the literal value. -/
inductive evaluationStage
  | nil
  | stage (symbol : OperatorSymbol) (leftStage rightStage : evaluationStage) (operand : Value)
  deriving DecidableEq, Repr

/-- The planner functions: the precedence levels built by
`makePrecedentFromPlanner`, then `planFunction` and `planValue`. -/
inductive Precedent
  | planSeparator | planTernary | planLogicalOr | planLogicalAnd | planComparator
  | planBitwise | planShift | planAdditive | planMultiplicative | planExponential
  | planPrefix | planFunction | planValue
  deriving DecidableEq, Repr

open Precedent OperatorSymbol in
/-- The `validSymbols` of a precedence level. -/
def validSymbols : Precedent → String → Option OperatorSymbol
  | planSeparator, s => if s = "," then some SEPARATE else none
  | planTernary, s =>
    if s = "?" then some TERNARY_TRUE else if s = ":" then some TERNARY_FALSE
    else if s = "??" then some COALESCE else none
  | planLogicalOr, s => if s = "||" then some OR else none
  | planLogicalAnd, s => if s = "&&" then some AND else none
  | planComparator, s =>
    if s = "==" then some EQ else if s = "!=" then some NEQ else if s = ">" then some GT
    else if s = ">=" then some GTE else if s = "<" then some LT else if s = "<=" then some LTE
    else if s = "=~" then some REQ else if s = "!~" then some NREQ
    else if s = "in" then some IN else none
  | planBitwise, s =>
    if s = "^" then some BITWISE_XOR else if s = "&" then some BITWISE_AND
    else if s = "|" then some BITWISE_OR else none
  | planShift, s =>
    if s = ">>" then some BITWISE_RSHIFT else if s = "<<" then some BITWISE_LSHIFT else none
  | planAdditive, s => if s = "+" then some PLUS else if s = "-" then some MINUS else none
  | planMultiplicative, s =>
    if s = "*" then some MULTIPLY else if s = "/" then some DIVIDE
    else if s = "%" then some MODULUS else none
  | planExponential, s => if s = "**" then some EXPONENT else none
  | planPrefix, s =>
    if s = "-" then some NEGATE else if s = "!" then some INVERT
    else if s = "~" then some BITWISE_NOT else none
  | _, _ => none

open Precedent in
/-- The single entry of `validKinds` of a precedence level. -/
def validKind : Precedent → TokenKind
  | planSeparator => .SEPARATOR
  | planTernary => .TERNARY
  | planLogicalOr | planLogicalAnd => .LOGICALOP
  | planComparator => .COMPARATOR
  | planPrefix => .PREFIX
  | _ => .MODIFIER

open Precedent in
/-- The `next` of a precedence level, used for the left operand. -/
def leftPrecedent : Precedent → Option Precedent
  | planSeparator => some planTernary
  | planTernary => some planLogicalOr
  | planLogicalOr => some planLogicalAnd
  | planLogicalAnd => some planComparator
  | planComparator => some planBitwise
  | planBitwise => some planShift
  | planShift => some planAdditive
  | planAdditive => some planMultiplicative
  | planMultiplicative => some planExponential
  | planExponential => some planFunction
  | _ => none

/-- The `nextRight` of a precedence level: the level itself, except for the
prefix level. -/
def rightPrecedent : Precedent → Precedent
  | .planPrefix => .planFunction
  | p => p

/-- The planner over the token stream `tokens` read from position `index`; the
result is the planned stage and the position of the stream afterwards.
`stream.rewind` is never called at position 0, so the position is a natural
number. The fuel bounds the depth of the recursion. -/
def plan : Nat → Precedent → List ExpressionToken → Nat →
    Except GvError (evaluationStage × Nat)
  | 0, _, _, _ => .error .outOfFuel
  | fuel + 1, .planValue, tokens, index =>
    match tokens.get? index with
    | none => .ok (.nil, index)
    | some token =>
      match token.Kind with
      | .CLAUSE =>
        -- planTokens
        let inner : Except GvError (evaluationStage × Nat) :=
          if index + 1 < tokens.length then plan fuel .planSeparator tokens (index + 1)
          else .ok (.nil, index + 1)
        match inner with
        | .error e => .error e
        | .ok (ret, index1) =>
          if index1 < tokens.length then .ok (.stage .NOOP .nil ret .nil, index1 + 1)
          else .error .panicked
      | .CLAUSE_CLOSE => .ok (.nil, index)
      | .VARIABLE => .ok (.stage .VALUE .nil .nil token.Value, index + 1)
      | .NUMERIC | .STRING | .PATTERN | .BOOLEAN =>
        .ok (.stage .LITERAL .nil .nil token.Value, index + 1)
      | .TIME => .error .outsideModel
      | .PREFIX => plan fuel .planPrefix tokens index
      | kind =>
        .error (.message ("Unable to plan token kind: \'" ++ kind.String ++ "\', value: \'"
          ++ token.Value.format ++ "\'"))
  | fuel + 1, .planFunction, tokens, index =>
    match tokens.get? index with
    | none => .error .panicked
    | some token =>
      if token.Kind = .FUNCTION ∨ token.Kind = .ACCESSOR then .error .outsideModel
      else plan fuel .planValue tokens index
  | fuel + 1, level, tokens, index =>
    -- planPrecedenceLevel
    let left : Except GvError (evaluationStage × Nat) :=
      match leftPrecedent level with
      | none => .ok (.nil, index)
      | some next => plan fuel next tokens index
    match left with
    | .error e => .error e
    | .ok (leftStage, index1) =>
      match tokens.get? index1 with
      | none => .ok (leftStage, index1 - 1)
      | some token =>
        if token.Kind ≠ validKind level then .ok (leftStage, index1)
        else match token.Value with
          | .str s =>
            match validSymbols level s with
            | none => .ok (leftStage, index1)
            | some symbol =>
              match plan fuel (rightPrecedent level) tokens (index1 + 1) with
              | .error e => .error e
              | .ok (rightStage, index2) => .ok (.stage symbol leftStage rightStage .nil, index2)
          | _ => .ok (leftStage, index1)

/-- `planTokens` on a fresh stream. -/
def planTokens (tokens : List ExpressionToken) : Except GvError evaluationStage :=
  if tokens.isEmpty then .ok .nil
  else match plan (14 * (tokens.length + 1)) .planSeparator tokens 0 with
    | .error e => .error e
    | .ok (stage, _) => .ok stage

/-- `operatorPrecedence`. -/
inductive operatorPrecedence
  | noopPrecedence | valuePrecedence | functionalPrecedence | prefixPrecedence
  | exponentialPrecedence | additivePrecedence | bitwisePrecedence
  | bitwiseShiftPrecedence | multiplicativePrecedence | comparatorPrecedence
  | ternaryPrecedence | logicalAndPrecedence | logicalOrPrecedence | separatePrecedence
  deriving DecidableEq, Repr

open operatorPrecedence in
/-- `findOperatorPrecedenceForSymbol`. -/
def findOperatorPrecedenceForSymbol : OperatorSymbol → operatorPrecedence
  | .NOOP => noopPrecedence
  | .VALUE => valuePrecedence
  | .EQ | .NEQ | .GT | .LT | .GTE | .LTE | .REQ | .NREQ | .IN => comparatorPrecedence
  | .AND => logicalAndPrecedence
  | .OR => logicalOrPrecedence
  | .BITWISE_AND | .BITWISE_OR | .BITWISE_XOR => bitwisePrecedence
  | .BITWISE_LSHIFT | .BITWISE_RSHIFT => bitwiseShiftPrecedence
  | .PLUS | .MINUS => additivePrecedence
  | .MULTIPLY | .DIVIDE | .MODULUS => multiplicativePrecedence
  | .EXPONENT => exponentialPrecedence
  | .BITWISE_NOT | .NEGATE | .INVERT => prefixPrecedence
  | .COALESCE | .TERNARY_TRUE | .TERNARY_FALSE => ternaryPrecedence
  | .ACCESS | .FUNCTIONAL => functionalPrecedence
  | .SEPARATE => separatePrecedence
  | .LITERAL => valuePrecedence

/-- The walk of `reorderStages` down the right spine of a planned stage. Every
run of stages of one precedence is handed to `mirrorStageSubtree`, which turns
the right-leaning run into the left-leaning one; the left sub-stages are
reordered on the way. `run` is `none` at the root; inside a run it holds the
mirrored part of the run, and the symbol and operand of the stage met last. -/
def reorderWalk : Option (evaluationStage × OperatorSymbol × Value) → evaluationStage →
    evaluationStage
  | none, .nil => .nil
  | some (acc, symbol, operand), .nil => .stage symbol acc .nil operand
  | none, .stage symbol2 leftStage rightStage operand2 =>
    reorderWalk (some (reorderWalk none leftStage, symbol2, operand2)) rightStage
  | some (acc, symbol, operand), .stage symbol2 leftStage rightStage operand2 =>
    if findOperatorPrecedenceForSymbol symbol2 = findOperatorPrecedenceForSymbol symbol then
      reorderWalk (some (.stage symbol acc (reorderWalk none leftStage) operand, symbol2, operand2))
        rightStage
    else
      .stage symbol acc
        (reorderWalk (some (reorderWalk none leftStage, symbol2, operand2)) rightStage) operand

/-- `reorderStages`. -/
def reorderStages (rootStage : evaluationStage) : evaluationStage :=
  reorderWalk none rootStage

/-! ## `govaluate`: operators and type checks -/

/-- `OperatorSymbol.String`, for the symbols a type error can name. -/
def OperatorSymbol.String : OperatorSymbol → String
  | .NOOP => "NOOP" | .VALUE => "VALUE" | .EQ => "=" | .NEQ => "!=" | .GT => ">"
  | .LT => "<" | .GTE => ">=" | .LTE => "<=" | .REQ => "=~" | .NREQ => "!~"
  | .AND => "&&" | .OR => "||" | .IN => "in" | .BITWISE_AND => "&"
  | .BITWISE_OR => "|" | .BITWISE_XOR => "^" | .BITWISE_LSHIFT => "<<"
  | .BITWISE_RSHIFT => ">>" | .PLUS => "+" | .MINUS => "-" | .MULTIPLY => "*"
  | .DIVIDE => "/" | .MODULUS => "%" | .EXPONENT => "**" | .NEGATE => "-"
  | .INVERT => "!" | .BITWISE_NOT => "~" | .TERNARY_TRUE => "?"
  | .TERNARY_FALSE => ":" | .COALESCE => "??" | _ => ""

/-- The `typeErrorFormat` of the planner level that creates stages of a symbol,
filled in with the value and the symbol. -/
def typeErrorMessage (symbol : OperatorSymbol) (value : Value) : String :=
  let head := "Value \'" ++ value.format ++ "\' cannot be used with the "
  match findOperatorPrecedenceForSymbol symbol with
  | .prefixPrecedence => head ++ "prefix \'" ++ symbol.String ++ "\'"
  | .comparatorPrecedence =>
    head ++ "comparator \'" ++ symbol.String ++ "\', it is not a number"
  | .logicalAndPrecedence | .logicalOrPrecedence =>
    head ++ "logical operator \'" ++ symbol.String ++ "\', it is not a bool"
  | .ternaryPrecedence =>
    head ++ "ternary operator \'" ++ symbol.String ++ "\', it is not a bool"
  | _ => head ++ "modifier \'" ++ symbol.String ++ "\', it is not a number"

/-- `isBool`. -/
def isBool : Value → Bool
  | .bool _ => true
  | _ => false

/-- `isFloat64`. -/
def isFloat64 : Value → Bool
  | .number _ => true
  | _ => false

/-- `isString`. -/
def isString : Value → Bool
  | .str _ => true
  | _ => false

/-- The type checks of `findTypeChecks`, run as `evaluateStage` runs them: the
left check, then the right check, or the combined check, whose failure is
reported on the left value. The result is the value a failed check reports. -/
def typeCheckFailure (symbol : OperatorSymbol) (left right : Value) : Option Value :=
  match symbol with
  | .GT | .LT | .GTE | .LTE =>
    if (isFloat64 left && isFloat64 right) || (isString left && isString right) then none
    else some left
  | .REQ | .NREQ =>
    if !isString left then some left else if !isString right then some right else none
  | .AND | .OR =>
    if !isBool left then some left else if !isBool right then some right else none
  | .IN => some right
  | .BITWISE_LSHIFT | .BITWISE_RSHIFT | .BITWISE_OR | .BITWISE_AND | .BITWISE_XOR
  | .MINUS | .MULTIPLY | .DIVIDE | .MODULUS | .EXPONENT =>
    if !isFloat64 left then some left else if !isFloat64 right then some right else none
  | .PLUS =>
    if isFloat64 left && isFloat64 right then none
    else if !isString left && !isString right then some left
    else none
  | .NEGATE | .BITWISE_NOT => if !isFloat64 right then some right else none
  | .INVERT => if !isBool right then some right else none
  | .TERNARY_TRUE => if !isBool left then some left else none
  | _ => none

/-- The operators of `stageSymbolMap` (and `noopStageRight`) on values that
passed the type checks. Arithmetic on numbers, and every operation on strings,
are outside the embedding. -/
def applyOperator (symbol : OperatorSymbol) (left right : Value) : Except GvError Value :=
  match symbol, left, right with
  | .NOOP, _, r => .ok r
  | .EQ, l, r => .ok (.bool (l == r))
  | .NEQ, l, r => .ok (.bool (l != r))
  | .GT, .number a, .number b => .ok (.bool (decide (a > b)))
  | .LT, .number a, .number b => .ok (.bool (decide (a < b)))
  | .GTE, .number a, .number b => .ok (.bool (decide (a ≥ b)))
  | .LTE, .number a, .number b => .ok (.bool (decide (a ≤ b)))
  | .AND, .bool a, .bool b => .ok (.bool (a && b))
  | .OR, .bool a, .bool b => .ok (.bool (a || b))
  | .INVERT, _, .bool b => .ok (.bool (!b))
  | .TERNARY_TRUE, .bool true, r => .ok r
  | .TERNARY_TRUE, .bool false, _ => .ok .nil
  | .TERNARY_FALSE, .nil, r => .ok r
  | .TERNARY_FALSE, l, _ => .ok l
  | .COALESCE, .nil, r => .ok r
  | .COALESCE, l, _ => .ok l
  | _, _, _ => .error .outsideModel

/-- `elideStage`: a stage whose two sub-stages are literals is computed at
planning time; when the type checks or the operator fail the stage is kept. -/
def elideStage (root : evaluationStage) : Except GvError evaluationStage :=
  match root with
  | .stage symbol (.stage .LITERAL _ _ leftValue) (.stage .LITERAL _ _ rightValue) _ =>
    if symbol = .SEPARATE ∨ symbol = .IN then .ok root
    else if (typeCheckFailure symbol leftValue rightValue).isSome then .ok root
    else match applyOperator symbol leftValue rightValue with
      | .ok result => .ok (.stage .LITERAL .nil .nil result)
      | .error e => .error e
  | _ => .ok root

/-- `elideLiterals`. -/
def elideLiterals : evaluationStage → Except GvError evaluationStage
  | .nil => .ok .nil
  | .stage symbol leftStage rightStage operand =>
    match elideLiterals leftStage with
    | .error e => .error e
    | .ok left =>
      match elideLiterals rightStage with
      | .error e => .error e
      | .ok right => elideStage (.stage symbol left right operand)

/-- `planStages`. -/
def planStages (tokens : List ExpressionToken) : Except GvError evaluationStage :=
  match planTokens tokens with
  | .error e => .error e
  | .ok .nil => .error .panicked
  | .ok stage => elideLiterals (reorderStages stage)

/-! ## `govaluate`: `EvaluableExpression.go` -/

/-- `EvaluableExpression`. -/
structure EvaluableExpression where
  tokens : List ExpressionToken
  evaluationStages : evaluationStage
  inputExpression : String
  deriving DecidableEq, Repr

/-- `EvaluableExpression.String`: the text the expression was built from. -/
def EvaluableExpression.String (exp : EvaluableExpression) : String :=
  exp.inputExpression

/-- `NewEvaluableExpression`, that is `NewEvaluableExpressionWithFunctions` with
no function. -/
def NewEvaluableExpression (expression : String) : Except GvError EvaluableExpression :=
  match parseTokens expression with
  | .error e => .error e
  | .ok tokens =>
    match checkBalance tokens with
    | .error e => .error e
    | .ok _ =>
      match checkExpressionSyntax tokens with
      | .error e => .error e
      | .ok _ =>
        match optimizeTokens tokens with
        | .error e => .error e
        | .ok tokens =>
          match planStages tokens with
          | .error e => .error e
          | .ok stage => .ok ⟨tokens, stage, expression⟩

/-- `MapParameters`, as `pkg/utils` fills it: every value is a `bool`. -/
abbrev MapParameters := String → Option Bool

/-- `evaluateStage`, with `ChecksTypes` set. The left sub-stage is evaluated
first; `&&`, `||`, `??` and the two ternary symbols may then skip the right one
(where the library puts `shortCircuitHolder` in its place, the operator does
not read it, and it is `nil` here). -/
def evaluateStage (parameters : MapParameters) : evaluationStage → Except GvError Value
  | .nil => .ok .nil
  | .stage symbol leftStage rightStage operand =>
    match evaluateStage parameters leftStage with
    | .error e => .error e
    | .ok left =>
      if symbol = .AND ∧ left = .bool false then .ok (.bool false)
      else if symbol = .OR ∧ left = .bool true then .ok (.bool true)
      else if symbol = .COALESCE ∧ left ≠ .nil then .ok left
      else
        let rightResult : Except GvError Value :=
          if (symbol = .TERNARY_TRUE ∧ left = .bool false)
              ∨ (symbol = .TERNARY_FALSE ∧ left ≠ .nil) then .ok .nil
          else evaluateStage parameters rightStage
        match rightResult with
        | .error e => .error e
        | .ok right =>
          match typeCheckFailure symbol left right with
          | some value => .error (.message (typeErrorMessage symbol value))
          | none =>
            match symbol, operand with
            | .VALUE, .str parameterName =>
              match parameters parameterName with
              | none => .error (.message ("No parameter \'" ++ parameterName ++ "\' found."))
              | some value => .ok (.bool value)
            | .LITERAL, value => .ok value
            | symbol, _ => applyOperator symbol left right

/-- `EvaluableExpression.Evaluate`. -/
def EvaluableExpression.Evaluate (exp : EvaluableExpression) (parameters : MapParameters) :
    Except GvError Value :=
  match exp.evaluationStages with
  | .nil => .ok .nil
  | stage => evaluateStage parameters stage

/-! ## `pkg/utils`: evaluation -/

/-- What a Go call does: it returns, or it panics. -/
inductive Outcome (α : Type)
  | returned (a : α)
  | panicked
  deriving DecidableEq, Repr

/-- The errors `EvaluateLogicalExpression` builds with `fmt.Errorf`, each
wrapping the library error `err`:
`creating` is "error creating evaluable expression: %w",
`evaluating` is "error evaluating expression %q with parameters %v: %w". -/
inductive EvalError
  | creating (err : GvError)
  | evaluating (exp : EvaluableExpression) (parameters : List (String × Int)) (err : GvError)
  deriving DecidableEq, Repr

/-- A Go `map[string]int`: the list of its entries, keys distinct. -/
abbrev Parameters := List (String × Int)

/-- `parameters[key]`, with the `ok` of the comma-ok form. -/
def Parameters.get? (parameters : Parameters) (key : String) : Option Int :=
  (parameters.find? (fun kv => kv.1 == key)).map (·.2)

/-- `paramsToEvaluate`: `paramsToEvaluate[key] = value > 0` for every entry. -/
def paramsToEvaluate (parameters : Parameters) : MapParameters :=
  fun key => (parameters.get? key).map (fun value => decide (value > 0))

/-- `EvaluateLogicalExpression` replaces the operands in a logical expression
with the parameters passed on it and evaluates the result of the expression.
The last step is the type assertion `result.(bool)`, which panics on a result
that is not a `bool`. -/
def EvaluateLogicalExpression (logicalExpression : String) (parameters : Parameters) :
    Outcome (Bool × Option EvalError) :=
  let logicalExpression := ReplaceAll logicalExpression "AND" "&&"
  let logicalExpression := ReplaceAll logicalExpression "OR" "||"
  match NewEvaluableExpression logicalExpression with
  | .error err => .returned (false, some (.creating err))
  | .ok exp =>
    match exp.Evaluate (paramsToEvaluate parameters) with
    | .error err => .returned (false, some (.evaluating exp parameters err))
    | .ok (.bool result) => .returned (result, none)
    | .ok _ => .panicked

/-- `IsLogicalExpressionValid` validates whether a logical expression is valid
or not. Only boolean expressions are accepted. -/
def IsLogicalExpressionValid (logicalExpression : String) : Outcome Bool :=
  let parametersSet := GetLogicalExpressionParameters logicalExpression
  let parameters : Parameters := parametersSet.map (fun key => (key, 0))
  match EvaluateLogicalExpression logicalExpression parameters with
  | .panicked => .panicked
  | .returned (_, err) => .returned err.isNone

/-! ## `pkg/repositories` and `pkg/services` -/

/-- `repositories.Expression`. -/
structure Expression where
  ID : Int
  Value : String
  deriving DecidableEq, Repr

/-- An error returned by a repository: one of the two sentinels of
`pkg/repositories`, or any other error, kept by its message. -/
inductive RepoError
  | ErrExpressionNotFound
  | ErrNoRowsAffected
  | other (msg : String)
  deriving DecidableEq, Repr

/-- `repositories.ExpressionRepository`: an implementation over a store `σ`;
every method returns its Go result and the store it leaves. -/
structure ExpressionRepository (σ : Type) where
  GetAllExpressions : σ → Except RepoError (List Expression) × σ
  GetExpressionByID : σ → Int → Except RepoError Expression × σ
  UpdateExpression : σ → Expression → Except RepoError Expression × σ
  CreateExpression : σ → Expression → Except RepoError Expression × σ

/-- The errors of `pkg/services`:
`valueEmpty` is "value can't be empty", `ErrInvalidExpression` the sentinel
"invalid expression", `invalidID` "invalid expression ID provided",
`repo` a repository error passed on as it is,
`creating` "error creating expression: %w",
`gettingAll` "error getting all expressions: %w",
`updating` "error updating expression ID %d: %w",
`getting` "error getting expression ID %d: %w",
`missingParameter` "missing parameter %q for the logical expression %q",
`evaluating` "error evaluating expression %q: %w". -/
inductive ServiceError
  | valueEmpty
  | ErrInvalidExpression
  | invalidID
  | repo (err : RepoError)
  | creating (err : RepoError)
  | gettingAll (err : RepoError)
  | updating (ID : Int) (err : RepoError)
  | getting (ID : Int) (err : RepoError)
  | missingParameter (key : String) (expression : String)
  | evaluating (expression : String) (err : EvalError)
  deriving DecidableEq, Repr

/-- `validateExpression`. -/
def validateExpression (expression : String) : Outcome (Option ServiceError) :=
  if expression = "" then .returned (some .valueEmpty)
  else match IsLogicalExpressionValid expression with
    | .panicked => .panicked
    | .returned isValid =>
      if !isValid then .returned (some .ErrInvalidExpression) else .returned none

/-- `expressionService.CreateExpression`. -/
def CreateExpression {σ : Type} (expressionRepository : ExpressionRepository σ) (store : σ)
    (exp : Expression) : Outcome ((Option Expression × Option ServiceError) × σ) :=
  match validateExpression exp.Value with
  | .panicked => .panicked
  | .returned (some err) => .returned ((none, some err), store)
  | .returned none =>
    match expressionRepository.CreateExpression store exp with
    | (.error err, store1) => .returned ((none, some (.creating err)), store1)
    | (.ok exp, store1) => .returned ((some exp, none), store1)

/-- `expressionService.UpdateExpression`. -/
def UpdateExpression {σ : Type} (expressionRepository : ExpressionRepository σ) (store : σ)
    (exp : Expression) : Outcome ((Option Expression × Option ServiceError) × σ) :=
  if exp.ID = 0 then .returned ((none, some .invalidID), store)
  else match validateExpression exp.Value with
    | .panicked => .panicked
    | .returned (some err) => .returned ((none, some err), store)
    | .returned none =>
      match expressionRepository.UpdateExpression store exp with
      | (.error .ErrNoRowsAffected, store1) =>
        .returned ((none, some (.repo .ErrNoRowsAffected)), store1)
      | (.error err, store1) => .returned ((none, some (.updating exp.ID err)), store1)
      | (.ok updatedExp, store1) => .returned ((some updatedExp, none), store1)

/-- The order in which `range` visits the keys of a map: Go leaves it
unspecified, each key is visited once. -/
structure RangeOrder where
  order : List String → List String
  perm : ∀ keys, (order keys).Perm keys

/-- The loop of `EvaluateExpression` over the expected parameters: the first
key visited that `parameters` does not hold. -/
def firstMissing (parameters : Parameters) : List String → Option String
  | [] => none
  | key :: keys =>
    if (parameters.get? key).isNone then some key else firstMissing parameters keys

/-- `expressionService.EvaluateExpression`. -/
def EvaluateExpression {σ : Type} (expressionRepository : ExpressionRepository σ) (store : σ)
    (range : RangeOrder) (ID : Int) (parameters : Parameters) :
    Outcome ((Bool × Option ServiceError) × σ) :=
  match expressionRepository.GetExpressionByID store ID with
  | (.error .ErrExpressionNotFound, store1) =>
    .returned ((false, some (.repo .ErrExpressionNotFound)), store1)
  | (.error err, store1) => .returned ((false, some (.getting ID err)), store1)
  | (.ok exp, store1) =>
    let expExpectedParameters := GetLogicalExpressionParameters exp.Value
    match firstMissing parameters (range.order expExpectedParameters) with
    | some key => .returned ((false, some (.missingParameter key exp.Value)), store1)
    | none =>
      match EvaluateLogicalExpression exp.Value parameters with
      | .panicked => .panicked
      | .returned (_, some err) => .returned ((false, some (.evaluating exp.Value err)), store1)
      | .returned (res, none) => .returned ((res, none), store1)


/-! ## The texts of the errors

`err.Error()` for the errors of `pkg/repositories`, `pkg/utils` and
`pkg/services`, with the verbs `%d`, `%q` and `%v` of package `fmt`. -/

/-- The verb `%d` on an integer. -/
def formatInt : Int → String
  | .ofNat n => toString n
  | .negSucc n => "-" ++ toString (n + 1)

/-- `strconv.IsPrint`. Up to U+00FF the answer is computed as Go does; above,
Go reads the tables of the Unicode standard, which are the parameter
`printable`. -/
def IsPrint (printable : Char → Bool) (r : Char) : Bool :=
  if r.toNat ≤ 0xFF then
    if 0x20 ≤ r.toNat ∧ r.toNat ≤ 0x7E then true
    else if 0xA1 ≤ r.toNat ∧ r.toNat ≤ 0xFF then r.toNat ≠ 0xAD
    else false
  else printable r

/-- The digits of `lowerhex` for the `width` lowest hexadecimal places of `n`. -/
def hexDigits : Nat → Nat → List Char
  | 0, _ => []
  | width + 1, n => hexDigits width (n / 16) ++ [Nat.digitChar (n % 16)]

/-- `appendEscapedRune` of package `strconv`, with the quote `"`. -/
def appendEscapedRune (printable : Char → Bool) (r : Char) : List Char :=
  if r = '"' ∨ r = '\\' then ['\\', r]
  else if IsPrint printable r then [r]
  else if r.toNat = 7 then ['\\', 'a']
  else if r.toNat = 8 then ['\\', 'b']
  else if r.toNat = 12 then ['\\', 'f']
  else if r = '\n' then ['\\', 'n']
  else if r = '\r' then ['\\', 'r']
  else if r = '\t' then ['\\', 't']
  else if r.toNat = 11 then ['\\', 'v']
  else if r.toNat < 0x20 ∨ r.toNat = 0x7F then '\\' :: 'x' :: hexDigits 2 r.toNat
  else if r.toNat < 0x10000 then '\\' :: 'u' :: hexDigits 4 r.toNat
  else '\\' :: 'U' :: hexDigits 8 r.toNat

/-- `strconv.Quote`, the verb `%q` on a string. -/
def Quote (printable : Char → Bool) (s : String) : String :=
  String.mk ('"' :: (s.data.flatMap (appendEscapedRune printable) ++ ['"']))

/-- The place of an entry among entries sorted by key. -/
def insertEntry (kv : String × Int) : List (String × Int) → List (String × Int)
  | [] => [kv]
  | x :: xs => if kv.1.data < x.1.data then kv :: x :: xs else x :: insertEntry kv xs

/-- The verb `%v` on a `map[string]int`: the entries in the order of their
keys. -/
def formatMap (parameters : Parameters) : String :=
  "map[" ++ " ".intercalate
    ((parameters.foldr insertEntry []).map (fun kv => kv.1 ++ ":" ++ formatInt kv.2)) ++ "]"

/-- The text of a library error; the marks of the embedding have none. -/
def GvError.Error : GvError → String
  | .message text => text
  | _ => ""

/-- The text of an error of `EvaluateLogicalExpression`. -/
def EvalError.Error (printable : Char → Bool) : EvalError → String
  | .creating err => "error creating evaluable expression: " ++ err.Error
  | .evaluating exp parameters err =>
    "error evaluating expression " ++ Quote printable exp.String ++ " with parameters "
      ++ formatMap parameters ++ ": " ++ err.Error

/-- The text of an error of a repository. -/
def RepoError.Error : RepoError → String
  | .ErrExpressionNotFound => "expression not found"
  | .ErrNoRowsAffected => "no rows affected"
  | .other msg => msg

/-- The text of an error of `pkg/services`. -/
def ServiceError.Error (printable : Char → Bool) : ServiceError → String
  | .valueEmpty => "value can\'t be empty"
  | .ErrInvalidExpression => "invalid expression"
  | .invalidID => "invalid expression ID provided"
  | .repo err => err.Error
  | .creating err => "error creating expression: " ++ err.Error
  | .gettingAll err => "error getting all expressions: " ++ err.Error
  | .updating ID err => "error updating expression ID " ++ formatInt ID ++ ": " ++ err.Error
  | .getting ID err => "error getting expression ID " ++ formatInt ID ++ ": " ++ err.Error
  | .missingParameter key expression =>
    "missing parameter " ++ Quote printable key ++ " for the logical expression "
      ++ Quote printable expression
  | .evaluating expression err =>
    "error evaluating expression " ++ Quote printable expression ++ ": " ++ err.Error printable

/-- The sentinel errors the handlers look for with `errors.Is`. -/
inductive Sentinel
  | ErrInvalidExpression
  | ErrExpressionNotFound
  | ErrNoRowsAffected
  deriving DecidableEq, Repr

/-- `errors.Is` on an error of a repository; an error that is none of the two
sentinels wraps none of them. -/
def RepoError.Is : RepoError → Sentinel → Bool
  | .ErrExpressionNotFound, .ErrExpressionNotFound => true
  | .ErrNoRowsAffected, .ErrNoRowsAffected => true
  | _, _ => false

/-- `errors.Is` on an error of `pkg/services`: the error is the sentinel, or
wraps it with `%w`. -/
def ServiceError.Is : ServiceError → Sentinel → Bool
  | .ErrInvalidExpression, target => decide (target = .ErrInvalidExpression)
  | .repo err, target => err.Is target
  | .creating err, target => err.Is target
  | .gettingAll err, target => err.Is target
  | .updating _ err, target => err.Is target
  | .getting _ err, target => err.Is target
  | _, _ => false

/-- The loop of `strings.Contains` over the places of the text. -/
def containsFrom (substr : List Char) : List Char → Bool
  | [] => substr.isPrefixOf []
  | c :: cs => substr.isPrefixOf (c :: cs) || containsFrom substr cs

/-- `strings.Contains`. -/
def Contains (s substr : String) : Bool :=
  containsFrom substr.data s.data

/-! ## `pkg/handlers` -/

/-- The JSON body of an answer: `gin.H{"error": ...}`, an `ExpressionResponse`,
or `gin.H{"result": ...}`. -/
inductive Body
  | error (message : String)
  | expression (ID : Int) (Expression : String)
  | result (res : Bool)
  deriving DecidableEq, Repr

/-- An answer of a handler: the HTTP status and the body. -/
structure Response where
  status : Nat
  body : Body
  deriving DecidableEq, Repr

/-- `ExpressionHandler.CreateExpression`, from the call of the service on: the
request body has been bound, `expression` is `reqBody.Expression`. On a nil
error the handler reads `exp.ID`, which panics on a nil expression. -/
def ExpressionHandler.CreateExpression {σ : Type}
    (expressionRepository : ExpressionRepository σ) (store : σ) (expression : String) :
    Outcome (Response × σ) :=
  match LogicExp.CreateExpression expressionRepository store ⟨0, expression⟩ with
  | .panicked => .panicked
  | .returned ((_, some err), store1) =>
    if err.Is .ErrInvalidExpression then
      .returned (⟨400, .error "Invalid expression provided"⟩, store1)
    else .returned (⟨500, .error "An Internal Server error occurred"⟩, store1)
  | .returned ((none, none), _) => .panicked
  | .returned ((some exp, none), store1) => .returned (⟨201, .expression exp.ID exp.Value⟩, store1)

/-- `ExpressionHandler.UpdateExpression`, from the call of the service on:
`expID` is the ID read from the path, `expression` is `reqBody.Expression`. -/
def ExpressionHandler.UpdateExpression {σ : Type}
    (expressionRepository : ExpressionRepository σ) (store : σ) (expID : Int)
    (expression : String) : Outcome (Response × σ) :=
  match LogicExp.UpdateExpression expressionRepository store ⟨expID, expression⟩ with
  | .panicked => .panicked
  | .returned ((_, some err), store1) =>
    if err.Is .ErrNoRowsAffected then
      .returned (⟨404, .error "Expression not found"⟩, store1)
    else if err.Is .ErrInvalidExpression then
      .returned (⟨400, .error "Invalid expression provided"⟩, store1)
    else .returned (⟨500, .error "An Internal Server error occurred"⟩, store1)
  | .returned ((none, none), _) => .panicked
  | .returned ((some exp, none), store1) => .returned (⟨200, .expression exp.ID exp.Value⟩, store1)

/-- `ExpressionHandler.EvaluateExpression`, from the call of the service on:
`expID` is the ID read from the path, `paramsToEvaluate` the map read from the
query. -/
def ExpressionHandler.EvaluateExpression {σ : Type} (printable : Char → Bool)
    (expressionRepository : ExpressionRepository σ) (store : σ) (range : RangeOrder)
    (expID : Int) (paramsToEvaluate : Parameters) : Outcome (Response × σ) :=
  match LogicExp.EvaluateExpression expressionRepository store range expID paramsToEvaluate with
  | .panicked => .panicked
  | .returned ((_, some err), store1) =>
    if err.Is .ErrExpressionNotFound then
      .returned (⟨404, .error "Expression not found"⟩, store1)
    else if Contains (err.Error printable) "missing parameter" then
      .returned (⟨400, .error (err.Error printable)⟩, store1)
    else .returned (⟨500, .error "An Internal Server error occurred"⟩, store1)
  | .returned ((res, none), store1) => .returned (⟨200, .result res⟩, store1)
/-! ## Specification notions -/

/-- A maximal run of lowercase letters of `s`: the word `w` is non-empty, all of
its characters are in `a`-`z`, it occurs in `s` as `pre ++ w ++ post`, and it can
be extended on neither side (the character before it and the character after
it, when there is one, are not in `a`-`z`). -/
def MaximalLowerRun (s w : List Char) : Prop :=
  w ≠ [] ∧ (∀ c ∈ w, isLowerAZ c = true) ∧
    ∃ pre post, s = pre ++ w ++ post ∧
      (∀ pre1 d, pre = pre1 ++ [d] → isLowerAZ d = false) ∧
      (∀ d post1, post = d :: post1 → isLowerAZ d = false)

/-- The repository of the witnesses: it holds one expression, whatever the ID. -/
def singleRepository (value : String) : ExpressionRepository Unit where
  GetAllExpressions := fun _ => (.ok [⟨1, value⟩], ())
  GetExpressionByID := fun _ ID => (.ok ⟨ID, value⟩, ())
  UpdateExpression := fun _ exp => (.ok exp, ())
  CreateExpression := fun _ exp => (.ok exp, ())

/-- The range order that visits the keys in the order of the list. -/
def listOrder : RangeOrder where
  order := fun keys => keys
  perm := fun keys => List.Perm.refl keys

/-! ## The grammar of the specification

`expression := term (OR term)*`, `term := factor (AND factor)*`,
`factor := identifier | '(' expression ')'`. -/

/-- The tokens of the grammar. -/
inductive Tok
  | ident (name : List Char)
  | AND
  | OR
  | lparen
  | rparen
  deriving DecidableEq, Repr

/-- The text of a token in an expression. -/
def Tok.text : Tok → List Char
  | .ident name => name
  | .AND => ['A', 'N', 'D']
  | .OR => ['O', 'R']
  | .lparen => ['(']
  | .rparen => [')']

/-- The text of a token once "AND" is replaced by "&&". -/
def Tok.textAnd : Tok → List Char
  | .AND => ['&', '&']
  | t => t.text

/-- The text of a token once "AND" is replaced by "&&" and "OR" by "||". -/
def Tok.textLib : Tok → List Char
  | .AND => ['&', '&']
  | .OR => ['|', '|']
  | t => t.text

/-- A token is a keyword. -/
def Tok.isKeyword : Tok → Bool
  | .AND | .OR => true
  | _ => false

/-- A token is an identifier. -/
def Tok.isIdent : Tok → Bool
  | .ident _ => true
  | _ => false

/-- Two tokens that may be written with nothing between them: not two
identifiers (they would read as one), and not two keywords. -/
def Tok.mayTouch (a b : Tok) : Bool :=
  !(a.isIdent && b.isIdent) && !(a.isKeyword && b.isKeyword)

/-- A written expression after its leading white space: each token with the
white space that follows it. -/
abbrev Written := List (Tok × List Char)

/-- The text of a written expression, `text` giving the text of a token. -/
def render (text : Tok → List Char) : Written → List Char
  | [] => []
  | (t, gap) :: rest => text t ++ gap ++ render text rest

/-- An identifier of the grammar: one or more of the letters `a`-`z`. -/
def IsIdentifier (name : List Char) : Prop :=
  name ≠ [] ∧ ∀ c ∈ name, isLowerAZ c = true

instance (name : List Char) : Decidable (IsIdentifier name) :=
  inferInstanceAs (Decidable (name ≠ [] ∧ ∀ c ∈ name, isLowerAZ c = true))

/-- A token whose identifier, if it is one, is an identifier of the grammar. -/
def Tok.WellFormed : Tok → Prop
  | .ident name => IsIdentifier name
  | _ => True

instance (t : Tok) : Decidable t.WellFormed :=
  match t with
  | .ident name => inferInstanceAs (Decidable (IsIdentifier name))
  | .AND => isTrue trivial
  | .OR => isTrue trivial
  | .lparen => isTrue trivial
  | .rparen => isTrue trivial

/-- White space: every character is a space for `unicode.IsSpace`. -/
def IsWhite (gap : List Char) : Prop :=
  ∀ c ∈ gap, isSpace c = true

instance (gap : List Char) : Decidable (IsWhite gap) :=
  inferInstanceAs (Decidable (∀ c ∈ gap, isSpace c = true))

/-- A well written expression: well-formed tokens, white space between them,
and at least one space between two tokens that may not touch. -/
def WellWritten : Written → Prop
  | [] => True
  | [(t, gap)] => t.WellFormed ∧ IsWhite gap
  | (t, gap) :: (t2, gap2) :: rest =>
    t.WellFormed ∧ IsWhite gap ∧ (gap ≠ [] ∨ t.mayTouch t2 = true)
      ∧ WellWritten ((t2, gap2) :: rest)

/-- Being well written can be checked. -/
def decidableWellWritten : (w : Written) → Decidable (WellWritten w)
  | [] => isTrue trivial
  | [(t, gap)] => inferInstanceAs (Decidable (t.WellFormed ∧ IsWhite gap))
  | (t, gap) :: (t2, gap2) :: rest =>
    have := decidableWellWritten ((t2, gap2) :: rest)
    inferInstanceAs (Decidable (t.WellFormed ∧ IsWhite gap
      ∧ (gap ≠ [] ∨ t.mayTouch t2 = true) ∧ WellWritten ((t2, gap2) :: rest)))

instance (w : Written) : Decidable (WellWritten w) := decidableWellWritten w

/-- The token the library reads for a token of the grammar. -/
def Tok.toToken : Tok → ExpressionToken
  | .ident name =>
    if String.mk name = "true" then ⟨.BOOLEAN, .bool true⟩
    else if String.mk name = "false" then ⟨.BOOLEAN, .bool false⟩
    else if String.mk name = "in" then ⟨.COMPARATOR, .str "in"⟩
    else ⟨.VARIABLE, .str (String.mk name)⟩
  | .AND => ⟨.LOGICALOP, .str "&&"⟩
  | .OR => ⟨.LOGICALOP, .str "||"⟩
  | .lparen => ⟨.CLAUSE, .rune '('⟩
  | .rparen => ⟨.CLAUSE_CLOSE, .rune ')'⟩

/-- The three levels of the grammar. -/
inductive Level
  | factor
  | term
  | expression
  deriving DecidableEq, Repr

/-- The parse trees of the grammar, by level; a repetition `x (OP x)*` is the
list `x`, or `x OP` followed by such a list. -/
inductive Sentence : Level → Type
  | ident (name : List Char) : Sentence .factor
  | paren (e : Sentence .expression) : Sentence .factor
  | factor (f : Sentence .factor) : Sentence .term
  | and (f : Sentence .factor) (t : Sentence .term) : Sentence .term
  | term (t : Sentence .term) : Sentence .expression
  | or (t : Sentence .term) (e : Sentence .expression) : Sentence .expression

/-- The tokens of a parse tree, in order. -/
def Sentence.toks : {l : Level} → Sentence l → List Tok
  | _, .ident name => [.ident name]
  | _, .paren e => .lparen :: (e.toks ++ [.rparen])
  | _, .factor f => f.toks
  | _, .and f t => f.toks ++ .AND :: t.toks
  | _, .term t => t.toks
  | _, .or t e => t.toks ++ .OR :: e.toks

/-- The identifiers of a parse tree. -/
def Sentence.idents : {l : Level} → Sentence l → List (List Char)
  | _, .ident name => [name]
  | _, .paren e => e.idents
  | _, .factor f => f.idents
  | _, .and f t => f.idents ++ t.idents
  | _, .term t => t.idents
  | _, .or t e => t.idents ++ e.idents

/-- The Boolean value of a parse tree: `env` gives the value of an identifier,
AND is conjunction, OR is disjunction. -/
def Sentence.value (env : List Char → Bool) : {l : Level} → Sentence l → Bool
  | _, .ident name => env name
  | _, .paren e => e.value env
  | _, .factor f => f.value env
  | _, .and f t => f.value env && t.value env
  | _, .term t => t.value env
  | _, .or t e => t.value env || e.value env

/-- The string `s` is the expression `e` written out: white space, then the
tokens of `e` in order, each followed by white space (possibly none). -/
def IsWrittenAs (s : String) (e : Sentence .expression) : Prop :=
  ∃ (lead : List Char) (w : Written), IsWhite lead ∧ (∀ tg ∈ w, IsWhite tg.2)
    ∧ w.map Prod.fst = e.toks ∧ s.data = lead ++ render Tok.text w

/-- Identifiers the library reserves: the two constants and the comparator. -/
def reservedWords : List (List Char) :=
  [['t', 'r', 'u', 'e'], ['f', 'a', 'l', 's', 'e'], ['i', 'n']]

/-- The reading of an identifier under a parameters map: `m[x] > 0`. -/
def reading (parameters : Parameters) (name : List Char) : Bool :=
  match parameters.get? (String.mk name) with
  | some value => decide (value > 0)
  | none => false

/-! ## Auxiliary notions for the lexer lemmas -/

/-- A character that `readUntilFalse` appends to the token. -/
def RunChar (condition unknown : Char → Bool) (c : Char) : Prop :=
  (c == '\\' || isForeign c || unknown c) = false ∧ isSpace c = false ∧ condition c = true

/-- The text after a token ends the token: it is empty, or starts with a space
or with a character that `condition` refuses. -/
def Stops (condition unknown : Char → Bool) : List Char → Prop
  | [] => True
  | c :: _ => (c == '\\' || isForeign c || unknown c) = false
      ∧ (isSpace c = true ∨ condition c = false)

/-- The stream after a token read by `readUntilFalse`: a space that ended the
token is consumed. -/
def dropSpace : List Char → List Char
  | [] => []
  | c :: cs => if isSpace c then cs else c :: cs

/-! ## Auxiliary notions for the parser lemmas -/

/-- The last token of a parse tree. -/
def Sentence.lastTok : {l : Level} → Sentence l → Tok
  | _, .ident name => .ident name
  | _, .paren _ => .rparen
  | _, .factor f => f.lastTok
  | _, .and _ t => t.lastTok
  | _, .term t => t.lastTok
  | _, .or _ e => e.lastTok

/-- The stage `planStages` plans for a parse tree before `reorderStages`: the
repetitions lean to the right. -/
def Sentence.stage : {l : Level} → Sentence l → evaluationStage
  | _, .ident name =>
    if (Tok.ident name).toToken.Kind = .VARIABLE then
      .stage .VALUE .nil .nil (Tok.ident name).toToken.Value
    else .stage .LITERAL .nil .nil (Tok.ident name).toToken.Value
  | _, .paren e => .stage .NOOP .nil e.stage .nil
  | _, .factor f => f.stage
  | _, .and f t => .stage .AND f.stage t.stage .nil
  | _, .term t => t.stage
  | _, .or t e => .stage .OR t.stage e.stage .nil

/-- The depth of the recursion of `plan` on a parse tree, entered at the
planner of its level (`planComparator` for a factor, `planLogicalAnd` for a
term, `planLogicalOr` for an expression). -/
def Sentence.depth : {l : Level} → Sentence l → Nat
  | _, .ident _ => 8
  | _, .paren e => 10 + e.depth
  | _, .factor f => 1 + f.depth
  | _, .and f t => 1 + max f.depth t.depth
  | _, .term t => 1 + t.depth
  | _, .or t e => 1 + max t.depth e.depth

/-- A token that can start an operand: an identifier or an opening
parenthesis. -/
def Tok.opens : Tok → Bool
  | .ident _ | .lparen => true
  | _ => false

/-- A token that can end an operand: an identifier or a closing parenthesis. -/
def Tok.closes : Tok → Bool
  | .ident _ | .rparen => true
  | _ => false

/-- The position of the stream after a precedence level that found no operator
at position `j`: `stream.rewind` after `stream.next`, or after the end of the
stream. -/
def settle (tokens : List ExpressionToken) (j : Nat) : Nat :=
  if j < tokens.length then j else j - 1

/-- The position `j` of a stream of `n` tokens after planning `len` tokens from
position `i`: behind them, or on the last token when they end the stream. -/
def Lands (n i len j : Nat) : Prop :=
  j = i + len ∨ (i + len = n ∧ j + 1 = n)

/-- The planner function that plans a parse tree of a level. -/
def entry : Level → Precedent
  | .factor => .planComparator
  | .term => .planLogicalAnd
  | .expression => .planLogicalOr

/-- What may follow a parse tree of a level in the token stream. -/
def Follows : Level → List ExpressionToken → Prop
  | .factor, post => ∀ t, post.head? = some t → t.Kind = .LOGICALOP ∨ t.Kind = .CLAUSE_CLOSE
  | .term, post => ∀ t, post.head? = some t → t = Tok.OR.toToken ∨ t.Kind = .CLAUSE_CLOSE
  | .expression, post => ∀ t, post.head? = some t → t.Kind = .CLAUSE_CLOSE

/-- The kinds of the tokens of the grammar, `in` apart. -/
def PlainKind (kind : TokenKind) : Prop :=
  kind = .VARIABLE ∨ kind = .BOOLEAN ∨ kind = .CLAUSE ∨ kind = .CLAUSE_CLOSE ∨ kind = .LOGICALOP

/-- No operator of the precedence level `p` stands at position `j`. -/
def NoOperator (p : Precedent) (tokens : List ExpressionToken) (j : Nat) : Prop :=
  ∀ token, tokens.get? j = some token →
    token.Kind ≠ validKind p ∨ ∀ s, token.Value = .str s → validSymbols p s = none

/-! ## Auxiliary notions for the evaluation lemmas -/

/-- A stage that evaluates to `nil` without reading a parameter: `nil`, or a
`NOOP` stage over two such stages. `mirrorStageSubtree` leaves such a stage on
the left of a run of parentheses. -/
inductive Inert : evaluationStage → Prop
  | nil : Inert .nil
  | noop {l r : evaluationStage} : Inert l → Inert r → Inert (.stage .NOOP l r .nil)

/-- A stage over parameters, constants, `&&`, `||` and parentheses, with the
boolean it stands for under the parameters `m`. -/
inductive Evals (m : MapParameters) : evaluationStage → Bool → Prop
  | value {name : String} {b : Bool} : m name = some b →
      Evals m (.stage .VALUE .nil .nil (.str name)) b
  | literal {b : Bool} : Evals m (.stage .LITERAL .nil .nil (.bool b)) b
  | noop {l r : evaluationStage} {b : Bool} : Inert l → Evals m r b →
      Evals m (.stage .NOOP l r .nil) b
  | and {l r : evaluationStage} {a b : Bool} : Evals m l a → Evals m r b →
      Evals m (.stage .AND l r .nil) (a && b)
  | or {l r : evaluationStage} {a b : Bool} : Evals m l a → Evals m r b →
      Evals m (.stage .OR l r .nil) (a || b)

/-- The reading of an identifier by the library: `true` and `false` are the
constants, every other identifier `x` is `m[x] > 0`. -/
def libReading (parameters : Parameters) (name : List Char) : Bool :=
  if name = ['t', 'r', 'u', 'e'] then true
  else if name = ['f', 'a', 'l', 's', 'e'] then false
  else reading parameters name

/-! ## Parse trees and maps used as examples -/

/-- The parse tree of the one-identifier expression `name`. -/
def Sentence.single (name : List Char) : Sentence .expression :=
  .term (.factor (.ident name))

/-- The parse tree of `a OR b AND c`. -/
def Sentence.orAnd (a b c : List Char) : Sentence .expression :=
  .or (.factor (.ident a)) (.term (.and (.ident b) (.factor (.ident c))))

/-- The parse tree of `a AND b OR c`. -/
def Sentence.andOr (a b c : List Char) : Sentence .expression :=
  .or (.and (.ident a) (.factor (.ident b))) (.term (.factor (.ident c)))

/-- The parse tree of `(a OR b) AND c`. -/
def Sentence.parenOrAnd (a b c : List Char) : Sentence .expression :=
  .term (.and (.paren (.or (.factor (.ident a)) (.term (.factor (.ident b)))))
    (.factor (.ident c)))

/-! ## Rejection of an expression text -/

/-- The text `value` is rejected as an expression: `EvaluateLogicalExpression`
returns an error for every parameters map, `IsLogicalExpressionValid` returns
false, `validateExpression` returns `ErrInvalidExpression`, and
`CreateExpression`, and `UpdateExpression` with a non-zero ID, fail with
`ErrInvalidExpression` and leave the store as it is. -/
def Rejected (value : String) : Prop :=
  (∀ parameters, ∃ err, EvaluateLogicalExpression value parameters = .returned (false, some err))
  ∧ IsLogicalExpressionValid value = .returned false
  ∧ validateExpression value = .returned (some .ErrInvalidExpression)
  ∧ (∀ (σ : Type) (repo : ExpressionRepository σ) (store : σ) (ID : Int),
      CreateExpression repo store ⟨ID, value⟩
        = .returned ((none, some .ErrInvalidExpression), store))
  ∧ (∀ (σ : Type) (repo : ExpressionRepository σ) (store : σ) (ID : Int), ID ≠ 0 →
      UpdateExpression repo store ⟨ID, value⟩
        = .returned ((none, some .ErrInvalidExpression), store))

/-- The arithmetic operators of the library. -/
def arithmeticOperators : List (List Char) :=
  [['+'], ['-'], ['*'], ['/'], ['%'], ['*', '*']]

/-- The symbol of the stage the planner builds for an arithmetic operator. -/
def arithmeticSymbol (op : List Char) : OperatorSymbol :=
  if op = ['+'] then .PLUS else if op = ['-'] then .MINUS else if op = ['*'] then .MULTIPLY
  else if op = ['/'] then .DIVIDE else if op = ['%'] then .MODULUS else .EXPONENT


/-! ## Repositories and range orders used as examples -/

/-- A repository whose every method fails with `err` and leaves the store. -/
def failingRepository (err : RepoError) : ExpressionRepository Unit where
  GetAllExpressions := fun _ => (.error err, ())
  GetExpressionByID := fun _ _ => (.error err, ())
  UpdateExpression := fun _ _ => (.error err, ())
  CreateExpression := fun _ _ => (.error err, ())

/-- A repository that counts the calls of its methods in the store. -/
def countingRepository : ExpressionRepository Nat where
  GetAllExpressions := fun n => (.ok [], n + 1)
  GetExpressionByID := fun n ID => (.ok ⟨ID, ""⟩, n + 1)
  UpdateExpression := fun n exp => (.ok exp, n + 1)
  CreateExpression := fun n exp => (.ok exp, n + 1)

/-- The range order that visits the keys from the last to the first. -/
def reverseOrder : RangeOrder where
  order := fun keys => keys.reverse
  perm := fun keys => List.reverse_perm keys

/-- The range order that visits `key` first when it is among the keys. -/
def frontOrder (key : String) : RangeOrder where
  order := fun keys => if key ∈ keys then key :: keys.erase key else keys
  perm := fun keys => by
    by_cases h : key ∈ keys
    · simp only [h, if_true]
      exact (List.perm_cons_erase h).symm
    · simp only [h, if_false]
      exact List.Perm.refl keys

/-! ## Evaluation from left to right -/

/-- The outcome of evaluating an operand: its boolean, or the name of the
parameter that was not found. -/
abbrev Reading := Except String Bool

/-- The conjunction of the library: the right operand is read only when the left
one is true. -/
def shortAnd : Reading → Reading → Reading
  | .error name, _ => .error name
  | .ok false, _ => .ok false
  | .ok true, right => right

/-- The disjunction of the library: the right operand is read only when the left
one is false. -/
def shortOr : Reading → Reading → Reading
  | .error name, _ => .error name
  | .ok true, _ => .ok true
  | .ok false, right => right

/-- The outcome of a parse tree read from left to right: `env` gives the outcome
of an identifier. -/
def Sentence.run (env : List Char → Reading) : {l : Level} → Sentence l → Reading
  | _, .ident name => env name
  | _, .paren e => e.run env
  | _, .factor f => f.run env
  | _, .and f t => shortAnd (f.run env) (t.run env)
  | _, .term t => t.run env
  | _, .or t e => shortOr (t.run env) (e.run env)

/-- The outcome of an identifier under a parameters map: `true` and `false` are
the constants, a key `x` of the map is `m[x] > 0`, any other name is not
found. -/
def lookup (parameters : Parameters) (name : List Char) : Reading :=
  if name = ['t', 'r', 'u', 'e'] then .ok true
  else if name = ['f', 'a', 'l', 's', 'e'] then .ok false
  else match parameters.get? (String.mk name) with
    | some value => .ok (decide (value > 0))
    | none => .error (String.mk name)

/-- A stage over parameters, constants, `&&`, `||` and parentheses, with its
outcome under the parameters `m`. -/
inductive Runs (m : MapParameters) : evaluationStage → Reading → Prop
  | bound {name : String} {b : Bool} : m name = some b →
      Runs m (.stage .VALUE .nil .nil (.str name)) (.ok b)
  | unbound {name : String} : m name = none →
      Runs m (.stage .VALUE .nil .nil (.str name)) (.error name)
  | literal {b : Bool} : Runs m (.stage .LITERAL .nil .nil (.bool b)) (.ok b)
  | noop {l r : evaluationStage} {x : Reading} : Inert l → Runs m r x →
      Runs m (.stage .NOOP l r .nil) x
  | and {l r : evaluationStage} {x y : Reading} : Runs m l x → Runs m r y →
      Runs m (.stage .AND l r .nil) (shortAnd x y)
  | or {l r : evaluationStage} {x y : Reading} : Runs m l x → Runs m r y →
      Runs m (.stage .OR l r .nil) (shortOr x y)

/-- What the library returns for an outcome: the boolean, or its error "No
parameter ... found." -/
def Reading.result : Reading → Except GvError Value
  | .ok b => .ok (.bool b)
  | .error name => .error (.message ("No parameter \'" ++ name ++ "\' found."))

/-- What `EvaluateLogicalExpression` returns for the outcome of the expression
`exp` under `parameters`. -/
def Reading.returned (exp : EvaluableExpression) (parameters : Parameters) :
    Reading → Outcome (Bool × Option EvalError)
  | .ok b => .returned (b, none)
  | .error name =>
    .returned (false, some (.evaluating exp parameters
      (.message ("No parameter \'" ++ name ++ "\' found."))))

/-- The success and the boolean of a call of `EvaluateLogicalExpression`;
`none` when the call panics. -/
def verdict : Outcome (Bool × Option EvalError) → Option (Bool × Bool)
  | .panicked => none
  | .returned (result, err) => some (err.isNone, result)

/-- The parse tree of `a AND b`. -/
def Sentence.conj (a b : List Char) : Sentence .expression :=
  .term (.and (.ident a) (.factor (.ident b)))

/-- What the caller of `EvaluateLogicalExpression` observes: the boolean and the
text of the error; `none` when the call panics. -/
def observed (printable : Char → Bool) :
    Outcome (Bool × Option EvalError) → Option (Bool × Option String)
  | .panicked => none
  | .returned (result, err) => some (result, err.map (EvalError.Error printable))

/-- What the caller of the service's `EvaluateExpression` observes: the boolean,
the text of the error, and the store the repository is left with; `none` when
the call panics. -/
def serviceObserved {σ : Type} (printable : Char → Bool) :
    Outcome ((Bool × Option ServiceError) × σ) → Option ((Bool × Option String) × σ)
  | .panicked => none
  | .returned ((result, err), store) =>
    some ((result, err.map (ServiceError.Error printable)), store)

/-- An entry of a map comes before another when its key does. -/
def keyBefore (a b : String × Int) : Prop :=
  a.1.data < b.1.data

/-! ## Whitespace -/

theorem maximalLowerRun_step (cur cs w : List Char) (c : Char)
    (hcur : ∀ d ∈ cur, isLowerAZ d = true) (hc : isLowerAZ c = false) :
    MaximalLowerRun (cur ++ c :: cs) w ↔ (w = cur ∧ cur ≠ []) ∨ MaximalLowerRun cs w := by
  constructor
  · rintro ⟨hw, hlow, pre, post, heq, hpre, hpost⟩
    have heq2 : cur ++ c :: cs = pre ++ (w ++ post) := by simpa using heq
    rcases List.append_eq_append_iff.mp heq2 with ⟨a, ha1, ha2⟩ | ⟨b, hb1, hb2⟩
    · -- pre = cur ++ a
      cases a with
      | nil =>
        exfalso
        cases w with
        | nil => exact hw rfl
        | cons x xs =>
          simp at ha2
          have := hlow x (by simp)
          rw [← ha2.1] at this
          simp [hc] at this
      | cons x a2 =>
        simp at ha2
        right
        refine ⟨hw, hlow, a2, post, by simp [ha2.2], ?_, hpost⟩
        intro pre1 d hd
        apply hpre (cur ++ x :: pre1) d
        simp [ha1, hd]
    · -- cur = pre ++ b
      have hpre_nil : pre = [] := by
        rcases List.eq_nil_or_concat pre with h | ⟨p1, d, h⟩
        · exact h
        · exfalso
          have h1 := hpre p1 d (by simpa using h)
          have h2 := hcur d (by simp [hb1, h])
          simp [h1] at h2
      subst hpre_nil
      simp at hb1
      subst hb1
      rcases List.append_eq_append_iff.mp hb2 with ⟨a, ha1, ha2⟩ | ⟨b2, hb3, hb4⟩
      · -- cur = w ++ a, post = a ++ c :: cs
        cases a with
        | nil =>
          left
          simp at ha1
          exact ⟨ha1.symm, ha1 ▸ hw⟩
        | cons x a2 =>
          exfalso
          have h1 := hpost x (a2 ++ c :: cs) (by simpa using ha2)
          have h2 := hcur x (by simp [ha1])
          simp [h1] at h2
      · -- w = cur ++ b2, c :: cs = b2 ++ post
        cases b2 with
        | nil =>
          left
          simp at hb3
          exact ⟨hb3, hb3 ▸ hw⟩
        | cons x b3 =>
          exfalso
          simp at hb4
          have h1 := hlow x (by simp [hb3])
          rw [← hb4.1] at h1
          simp [hc] at h1
  · rintro (⟨rfl, hne⟩ | ⟨hw, hlow, pre, post, heq, hpre, hpost⟩)
    · refine ⟨hne, hcur, [], c :: cs, by simp, ?_, ?_⟩
      · intro pre1 d h
        simp at h
      · intro d post1 h
        simp at h
        rw [← h.1]
        exact hc
    · refine ⟨hw, hlow, cur ++ c :: pre, post, by simp [heq], ?_, hpost⟩
      intro pre1 d h
      rcases List.eq_nil_or_concat pre with h0 | ⟨p1, d1, h1⟩
      · subst h0
        have h2 : (cur ++ [c]) = pre1 ++ [d] := by simpa using h
        have := List.append_inj_right' h2 rfl
        simp at this
        rw [← this]
        exact hc
      · subst h1
        have h2 : (cur ++ c :: p1) ++ [d1] = pre1 ++ [d] := by simpa using h
        have := List.append_inj_right' h2 rfl
        simp at this
        rw [← this]
        exact hpre p1 d1 (by simp)

theorem maximalLowerRun_all (cur w : List Char) (hcur : ∀ d ∈ cur, isLowerAZ d = true) :
    MaximalLowerRun cur w ↔ (w = cur ∧ cur ≠ []) := by
  constructor
  · rintro ⟨hw, hlow, pre, post, heq, hpre, hpost⟩
    have hpre_nil : pre = [] := by
      rcases List.eq_nil_or_concat pre with h | ⟨p1, d, h⟩
      · exact h
      · exfalso
        have h1 := hpre p1 d (by simpa using h)
        have h2 := hcur d (by simp [heq, h])
        simp [h1] at h2
    have hpost_nil : post = [] := by
      cases post with
      | nil => rfl
      | cons d p1 =>
        exfalso
        have h1 := hpost d p1 rfl
        have h2 := hcur d (by simp [heq])
        simp [h1] at h2
    subst hpre_nil hpost_nil
    simp at heq
    exact ⟨heq.symm, heq ▸ hw⟩
  · rintro ⟨rfl, hne⟩
    refine ⟨hne, hcur, [], [], by simp, ?_, ?_⟩
    · intro pre1 d h
      simp at h
    · intro d post1 h
      simp at h

theorem mem_findAllFrom (s : List Char) : ∀ (cur w : List Char),
    (∀ d ∈ cur, isLowerAZ d = true) →
    (w ∈ findAllFrom cur s ↔ MaximalLowerRun (cur ++ s) w) := by
  induction s with
  | nil =>
    intro cur w hcur
    rw [List.append_nil, maximalLowerRun_all cur w hcur]
    cases cur with
    | nil => simp [findAllFrom]
    | cons x xs => simp [findAllFrom]
  | cons c cs ih =>
    intro cur w hcur
    by_cases hc : isLowerAZ c = true
    · have h1 : findAllFrom cur (c :: cs) = findAllFrom (cur ++ [c]) cs := by
        simp [findAllFrom, hc]
      rw [h1, ih (cur ++ [c]) w]
      · simp
      · intro d hd
        simp at hd
        rcases hd with hd | hd
        · exact hcur d hd
        · exact hd ▸ hc
    · have hc2 : isLowerAZ c = false := by simpa using hc
      rw [maximalLowerRun_step cur cs w c hcur hc2]
      have ih0 := ih [] w (by simp)
      simp only [List.nil_append] at ih0
      cases cur with
      | nil => simp [findAllFrom, hc2, ih0]
      | cons x xs => simp [findAllFrom, hc2, ih0]

theorem mem_foldl_setInsert (l : List String) : ∀ (acc : List String) (w : String),
    w ∈ l.foldl setInsert acc ↔ w ∈ acc ∨ w ∈ l := by
  induction l with
  | nil => intro acc w; simp
  | cons x xs ih =>
    intro acc w
    rw [List.foldl_cons, ih]
    unfold setInsert
    split
    · rename_i h
      constructor
      · rintro (h1 | h1)
        · exact Or.inl h1
        · exact Or.inr (List.mem_cons_of_mem _ h1)
      · rintro (h1 | h1)
        · exact Or.inl h1
        · rcases List.mem_cons.mp h1 with h2 | h2
          · exact Or.inl (h2 ▸ h)
          · exact Or.inr h2
    · simp only [List.mem_append, List.mem_singleton, List.mem_cons]
      tauto

theorem nodup_foldl_setInsert (l : List String) : ∀ (acc : List String),
    acc.Nodup → (l.foldl setInsert acc).Nodup := by
  induction l with
  | nil => intro acc h; simpa using h
  | cons x xs ih =>
    intro acc h
    rw [List.foldl_cons]
    apply ih
    unfold setInsert
    split
    · exact h
    · rename_i hx
      rw [List.nodup_append]
      refine ⟨h, by simp, ?_⟩
      intro a ha hb
      simp at hb
      exact hx (hb ▸ ha)

theorem mem_GetLogicalExpressionParameters (s w : String) :
    w ∈ GetLogicalExpressionParameters s ↔ MaximalLowerRun s.data w.data := by
  unfold GetLogicalExpressionParameters FindAllString
  rw [mem_foldl_setInsert]
  simp only [List.not_mem_nil, false_or, List.mem_map]
  rw [← List.nil_append s.data, ← mem_findAllFrom s.data [] w.data (by simp)]
  constructor
  · rintro ⟨a, ha, rfl⟩
    exact ha
  · intro h
    exact ⟨w.data, h, rfl⟩

theorem nodup_GetLogicalExpressionParameters (s : String) :
    (GetLogicalExpressionParameters s).Nodup :=
  nodup_foldl_setInsert _ [] List.nodup_nil

/-! ## C1 -/

/-- C1: for every string `s`, valid expression or not, the names of
`GetLogicalExpressionParameters s` are exactly the maximal runs of the letters
`a`-`z` occurring in `s`, and each name is present once; the three examples of
the tests give the sets xyz, z, y, x; x; and the empty set. -/
theorem C1_parameters_are_the_maximal_lowercase_runs (s : String) :
    (∀ w : String, w ∈ GetLogicalExpressionParameters s ↔ MaximalLowerRun s.data w.data)
    ∧ (GetLogicalExpressionParameters s).Nodup
    ∧ (∀ w : String, w ∈ GetLogicalExpressionParameters "xyz AND z OR y AND x"
        ↔ w ∈ ["xyz", "x", "y", "z"])
    ∧ GetLogicalExpressionParameters "x AND" = ["x"]
    ∧ GetLogicalExpressionParameters "AND OR" = [] := by
  refine ⟨fun w => mem_GetLogicalExpressionParameters s w,
    nodup_GetLogicalExpressionParameters s, ?_, by decide, by decide⟩
  intro w
  have h : GetLogicalExpressionParameters "xyz AND z OR y AND x" = ["xyz", "z", "y", "x"] := by
    decide
  rw [h]
  simp only [List.mem_cons, List.mem_singleton, List.not_mem_nil, or_false]
  tauto

/-! ## Lemmas on the service -/

theorem firstMissing_some {parameters : Parameters} {keys : List String} {key : String}
    (h : firstMissing parameters keys = some key) :
    key ∈ keys ∧ parameters.get? key = none := by
  induction keys with
  | nil => simp [firstMissing] at h
  | cons k ks ih =>
    unfold firstMissing at h
    split at h
    · rename_i hk
      injection h with h
      subst h
      exact ⟨List.mem_cons_self _ _, by simpa using hk⟩
    · exact ⟨List.mem_cons_of_mem _ (ih h).1, (ih h).2⟩

theorem firstMissing_none {parameters : Parameters} {keys : List String}
    (h : firstMissing parameters keys = none) :
    ∀ key ∈ keys, parameters.get? key ≠ none := by
  induction keys with
  | nil => simp
  | cons k ks ih =>
    unfold firstMissing at h
    split at h
    · simp at h
    · rename_i hk
      intro key hkey
      rcases List.mem_cons.mp hkey with rfl | h1
      · intro h2
        exact hk (by simp [h2])
      · exact ih h key h1

theorem firstMissing_eq_none_iff (parameters : Parameters) (keys : List String) :
    firstMissing parameters keys = none ↔ ∀ key ∈ keys, parameters.get? key ≠ none := by
  constructor
  · exact firstMissing_none
  · intro h
    cases hf : firstMissing parameters keys with
    | none => rfl
    | some key => exact absurd (firstMissing_some hf).2 (h key (firstMissing_some hf).1)

/-! ## C3 -/

/-- C3: when the repository returns the expression text `exp.Value`, the service's
`EvaluateExpression` fails with the missing-parameter error if and only if some
name of `GetLogicalExpressionParameters exp.Value` is not a key of the
parameters map; the key the error names is one of those absent names, the
error carries the original expression text, and the boolean returned is
false. -/
theorem C3_missing_parameter_iff_a_collected_name_is_absent {σ : Type}
    (expressionRepository : ExpressionRepository σ) (store store1 : σ) (range : RangeOrder)
    (ID : Int) (exp : Expression) (parameters : Parameters)
    (hrepo : expressionRepository.GetExpressionByID store ID = (.ok exp, store1)) :
    ((∃ key b st, EvaluateExpression expressionRepository store range ID parameters
          = .returned ((b, some (.missingParameter key exp.Value)), st))
        ↔ ∃ key ∈ GetLogicalExpressionParameters exp.Value, parameters.get? key = none)
    ∧ (∀ key text b st, EvaluateExpression expressionRepository store range ID parameters
          = .returned ((b, some (.missingParameter key text)), st) →
        b = false ∧ text = exp.Value ∧ key ∈ GetLogicalExpressionParameters exp.Value
          ∧ parameters.get? key = none) := by
  have hmain : ∀ key text b st, EvaluateExpression expressionRepository store range ID parameters
        = .returned ((b, some (.missingParameter key text)), st) →
      b = false ∧ text = exp.Value ∧ key ∈ GetLogicalExpressionParameters exp.Value
        ∧ parameters.get? key = none := by
    intro key text b st h
    unfold EvaluateExpression at h
    rw [hrepo] at h
    simp only at h
    cases hf : firstMissing parameters
        (range.order (GetLogicalExpressionParameters exp.Value)) with
    | some k =>
      rw [hf] at h
      simp only [Outcome.returned.injEq, Prod.mk.injEq, Option.some.injEq,
        ServiceError.missingParameter.injEq] at h
      obtain ⟨⟨hb, hk, ht⟩, _⟩ := h
      have := firstMissing_some hf
      refine ⟨hb.symm, ht.symm, ?_, hk ▸ this.2⟩
      exact hk ▸ (range.perm _).mem_iff.mp this.1
    | none =>
      rw [hf] at h
      simp only at h
      split at h <;> simp at h
  refine ⟨⟨?_, ?_⟩, hmain⟩
  · rintro ⟨key, b, st, h⟩
    exact ⟨key, (hmain key _ b st h).2.2.1, (hmain key _ b st h).2.2.2⟩
  · rintro ⟨key, hkey, hnone⟩
    cases hf : firstMissing parameters
        (range.order (GetLogicalExpressionParameters exp.Value)) with
    | some k =>
      refine ⟨k, false, store1, ?_⟩
      unfold EvaluateExpression
      rw [hrepo]
      simp only [hf]
    | none =>
      exfalso
      exact firstMissing_none hf key ((range.perm _).mem_iff.mpr hkey) hnone

/-- C3 at the expression "x AND z" with the map x = 1: the error names z. -/
theorem C3_witness :
    (singleRepository "x AND z").GetExpressionByID () 1 = (.ok ⟨1, "x AND z"⟩, ())
    ∧ EvaluateExpression (singleRepository "x AND z") () listOrder 1 [("x", 1)]
        = .returned ((false, some (.missingParameter "z" "x AND z")), ())
    ∧ ((∃ key b st, EvaluateExpression (singleRepository "x AND z") () listOrder 1 [("x", 1)]
          = .returned ((b, some (.missingParameter key "x AND z")), st))
        ↔ ∃ key ∈ GetLogicalExpressionParameters "x AND z",
            Parameters.get? [("x", 1)] key = none) :=
  ⟨rfl, by decide,
    (C3_missing_parameter_iff_a_collected_name_is_absent (singleRepository "x AND z") () ()
      listOrder 1 ⟨1, "x AND z"⟩ [("x", 1)] rfl).1⟩

/-! ## Lemmas on the two substitutions -/

theorem replaceAllFrom_pass (a : Char) (old new : List Char) (l rest : List Char)
    (h : ∀ c ∈ l, c ≠ a) :
    replaceAllFrom (a :: old) new 0 (l ++ rest) = l ++ replaceAllFrom (a :: old) new 0 rest := by
  induction l with
  | nil => rfl
  | cons c cs ih =>
    have hc : c ≠ a := h c (List.mem_cons_self _ _)
    have hca : (a == c) = false := by simpa using fun h1 => hc h1.symm
    rw [List.cons_append, replaceAllFrom]
    simp only [List.isPrefixOf, hca, Bool.false_and]
    rw [ih (fun d hd => h d (List.mem_cons_of_mem _ hd))]
    rfl

theorem replaceAllFrom_AND (rest : List Char) :
    replaceAllFrom ['A', 'N', 'D'] ['&', '&'] 0 ('A' :: 'N' :: 'D' :: rest)
      = '&' :: '&' :: replaceAllFrom ['A', 'N', 'D'] ['&', '&'] 0 rest := by
  simp [replaceAllFrom, List.isPrefixOf]

theorem replaceAllFrom_OR (rest : List Char) :
    replaceAllFrom ['O', 'R'] ['|', '|'] 0 ('O' :: 'R' :: rest)
      = '|' :: '|' :: replaceAllFrom ['O', 'R'] ['|', '|'] 0 rest := by
  simp [replaceAllFrom, List.isPrefixOf]

theorem isSpace_ne_upper {c : Char} (h : isSpace c = true) : c ≠ 'A' ∧ c ≠ 'O' := by
  constructor <;> (rintro rfl; revert h; decide)

theorem isLowerAZ_ne_upper {c : Char} (h : isLowerAZ c = true) : c ≠ 'A' ∧ c ≠ 'O' := by
  constructor <;> (rintro rfl; revert h; decide)

theorem white_ne_upper {gap : List Char} (h : IsWhite gap) :
    (∀ c ∈ gap, c ≠ 'A') ∧ (∀ c ∈ gap, c ≠ 'O') :=
  ⟨fun c hc => (isSpace_ne_upper (h c hc)).1, fun c hc => (isSpace_ne_upper (h c hc)).2⟩

theorem replace_and_render (w : Written) (hwf : ∀ tg ∈ w, tg.1.WellFormed)
    (hgap : ∀ tg ∈ w, IsWhite tg.2) :
    replaceAllFrom ['A', 'N', 'D'] ['&', '&'] 0 (render Tok.text w) = render Tok.textAnd w := by
  induction w with
  | nil => rfl
  | cons tg rest ih =>
    obtain ⟨t, gap⟩ := tg
    have ih2 := ih (fun x hx => hwf x (List.mem_cons_of_mem _ hx))
      (fun x hx => hgap x (List.mem_cons_of_mem _ hx))
    have hg := (white_ne_upper (hgap (t, gap) (List.mem_cons_self _ _))).1
    have ht := hwf (t, gap) (List.mem_cons_self _ _)
    simp only [render]
    cases t with
    | ident name =>
      have hn : ∀ c ∈ name, c ≠ 'A' := fun c hc => (isLowerAZ_ne_upper (ht.2 c hc)).1
      simp only [Tok.text, Tok.textAnd, List.append_assoc]
      rw [replaceAllFrom_pass _ _ _ _ _ hn, replaceAllFrom_pass _ _ _ _ _ hg, ih2]
    | AND =>
      simp only [Tok.text, Tok.textAnd, List.append_assoc, List.cons_append, List.nil_append]
      rw [replaceAllFrom_AND, replaceAllFrom_pass _ _ _ _ _ hg, ih2]
    | OR =>
      simp only [Tok.text, Tok.textAnd, List.append_assoc]
      rw [replaceAllFrom_pass _ _ _ _ _ (by decide), replaceAllFrom_pass _ _ _ _ _ hg, ih2]
    | lparen =>
      simp only [Tok.text, Tok.textAnd, List.append_assoc]
      rw [replaceAllFrom_pass _ _ _ _ _ (by decide), replaceAllFrom_pass _ _ _ _ _ hg, ih2]
    | rparen =>
      simp only [Tok.text, Tok.textAnd, List.append_assoc]
      rw [replaceAllFrom_pass _ _ _ _ _ (by decide), replaceAllFrom_pass _ _ _ _ _ hg, ih2]

theorem replace_or_render (w : Written) (hwf : ∀ tg ∈ w, tg.1.WellFormed)
    (hgap : ∀ tg ∈ w, IsWhite tg.2) :
    replaceAllFrom ['O', 'R'] ['|', '|'] 0 (render Tok.textAnd w) = render Tok.textLib w := by
  induction w with
  | nil => rfl
  | cons tg rest ih =>
    obtain ⟨t, gap⟩ := tg
    have ih2 := ih (fun x hx => hwf x (List.mem_cons_of_mem _ hx))
      (fun x hx => hgap x (List.mem_cons_of_mem _ hx))
    have hg := (white_ne_upper (hgap (t, gap) (List.mem_cons_self _ _))).2
    have ht := hwf (t, gap) (List.mem_cons_self _ _)
    simp only [render]
    cases t with
    | ident name =>
      have hn : ∀ c ∈ name, c ≠ 'O' := fun c hc => (isLowerAZ_ne_upper (ht.2 c hc)).2
      simp only [Tok.text, Tok.textAnd, Tok.textLib, List.append_assoc]
      rw [replaceAllFrom_pass _ _ _ _ _ hn, replaceAllFrom_pass _ _ _ _ _ hg, ih2]
    | AND =>
      simp only [Tok.text, Tok.textAnd, Tok.textLib, List.append_assoc]
      rw [replaceAllFrom_pass _ _ _ _ _ (by decide), replaceAllFrom_pass _ _ _ _ _ hg, ih2]
    | OR =>
      simp only [Tok.text, Tok.textAnd, Tok.textLib, List.append_assoc, List.cons_append,
        List.nil_append]
      rw [replaceAllFrom_OR, replaceAllFrom_pass _ _ _ _ _ hg, ih2]
    | lparen =>
      simp only [Tok.text, Tok.textAnd, Tok.textLib, List.append_assoc]
      rw [replaceAllFrom_pass _ _ _ _ _ (by decide), replaceAllFrom_pass _ _ _ _ _ hg, ih2]
    | rparen =>
      simp only [Tok.text, Tok.textAnd, Tok.textLib, List.append_assoc]
      rw [replaceAllFrom_pass _ _ _ _ _ (by decide), replaceAllFrom_pass _ _ _ _ _ hg, ih2]

/-- The text handed to the library for a well written expression. -/
theorem ReplaceAll_render (lead : List Char) (w : Written) (hlead : IsWhite lead)
    (hwf : ∀ tg ∈ w, tg.1.WellFormed) (hgap : ∀ tg ∈ w, IsWhite tg.2) :
    ReplaceAll (ReplaceAll (String.mk (lead ++ render Tok.text w)) "AND" "&&") "OR" "||"
      = String.mk (lead ++ render Tok.textLib w) := by
  have h1 : ("AND" : String).data = ['A', 'N', 'D'] := rfl
  have h2 : ("&&" : String).data = ['&', '&'] := rfl
  have h3 : ("OR" : String).data = ['O', 'R'] := rfl
  have h4 : ("||" : String).data = ['|', '|'] := rfl
  unfold ReplaceAll
  simp only [h1, h2, h3, h4]
  rw [replaceAllFrom_pass _ _ _ _ _ (white_ne_upper hlead).1, replace_and_render w hwf hgap,
    replaceAllFrom_pass _ _ _ _ _ (white_ne_upper hlead).2, replace_or_render w hwf hgap]

/-! ## Lemmas on the lexer -/

theorem readUntilFalse_run (condition unknown : Char → Bool) (l : List Char) :
    ∀ (buf after : List Char), (∀ c ∈ l, RunChar condition unknown c) →
      Stops condition unknown after → buf ++ l ≠ [] →
      readUntilFalse condition unknown buf (l ++ after) = some (buf ++ l, dropSpace after) := by
  induction l with
  | nil =>
    intro buf after _ hstop hne
    simp only [List.append_nil, List.nil_append] at hne ⊢
    cases after with
    | nil => simp [readUntilFalse, dropSpace]
    | cons c cs =>
      obtain ⟨h1, h2⟩ := hstop
      have hb : buf.isEmpty = false := by
        cases buf with
        | nil => exact absurd rfl hne
        | cons _ _ => rfl
      rcases h2 with h2 | h2
      · simp [readUntilFalse, dropSpace, h1, h2, hb]
      · by_cases h3 : isSpace c = true
        · simp [readUntilFalse, dropSpace, h1, h3, hb]
        · simp [readUntilFalse, dropSpace, h1, h2, h3]
  | cons c cs ih =>
    intro buf after hl hstop _
    obtain ⟨h1, h2, h3⟩ := hl c (List.mem_cons_self _ _)
    rw [List.cons_append, readUntilFalse]
    simp only [h1, h2, h3, Bool.false_eq_true, if_false, if_true]
    rw [ih (buf ++ [c]) after (fun d hd => hl d (List.mem_cons_of_mem _ hd)) hstop (by simp)]
    simp

theorem readToken_white (state : TokenKind) (lead rest : List Char) (h : IsWhite lead) :
    readToken state (lead ++ rest) = readToken state rest := by
  induction lead with
  | nil => rfl
  | cons c cs ih =>
    have hc := h c (List.mem_cons_self _ _)
    rw [List.cons_append, readToken]
    simp only [hc, if_true]
    exact ih (fun d hd => h d (List.mem_cons_of_mem _ hd))

theorem readToken_white_only (state : TokenKind) (lead : List Char) (h : IsWhite lead) :
    readToken state lead = .notFound := by
  have := readToken_white state lead [] h
  rw [List.append_nil] at this
  rw [this]
  rfl

theorem isLowerAZ_range {c : Char} (h : isLowerAZ c = true) : 97 ≤ c.toNat ∧ c.toNat ≤ 122 := by
  simpa [isLowerAZ] using h

theorem isLowerAZ_not_space {c : Char} (h : isLowerAZ c = true) : isSpace c = false := by
  have hr := isLowerAZ_range h
  simp only [isSpace, Bool.or_eq_false_iff, decide_eq_false_iff_not, beq_eq_false_iff_ne]
  omega

theorem isLowerAZ_not_foreign {c : Char} (h : isLowerAZ c = true) : isForeign c = false := by
  have hr := isLowerAZ_range h
  simp only [isForeign, Bool.and_eq_false_iff, decide_eq_false_iff_not]
  left
  omega

theorem isLowerAZ_letter {c : Char} (h : isLowerAZ c = true) : isAsciiLetter c = true := by
  have hr := isLowerAZ_range h
  simp only [isAsciiLetter, Bool.or_eq_true, decide_eq_true_eq]
  right
  omega

theorem isLowerAZ_not_digit {c : Char} (h : isLowerAZ c = true) : isAsciiDigit c = false := by
  have hr := isLowerAZ_range h
  simp only [isAsciiDigit, decide_eq_false_iff_not]
  omega

theorem isLowerAZ_ne {c : Char} (h : isLowerAZ c = true) (k : Char)
    (hk : isLowerAZ k = false) : (c == k) = false := by
  simp only [beq_eq_false_iff_ne]
  rintro rfl
  simp [h] at hk

theorem isLowerAZ_runChar {c : Char} (h : isLowerAZ c = true) :
    RunChar isVariableName (fun c => c == '.') c := by
  refine ⟨?_, isLowerAZ_not_space h, ?_⟩
  · simp only [Bool.or_eq_false_iff]
    exact ⟨⟨isLowerAZ_ne h _ (by decide), isLowerAZ_not_foreign h⟩, isLowerAZ_ne h _ (by decide)⟩
  · simp [isVariableName, isLowerAZ_letter h]

theorem isSpace_not_foreign {c : Char} (h : isSpace c = true) : isForeign c = false := by
  simp [isForeign, h]

theorem isSpace_ne {c : Char} (h : isSpace c = true) (k : Char) (hk : isSpace k = false) :
    (c == k) = false := by
  simp only [beq_eq_false_iff_ne]
  rintro rfl
  simp [h] at hk

theorem stops_white (condition unknown : Char → Bool) (c : Char) (rest : List Char)
    (h : isSpace c = true) (hu : unknown c = false) : Stops condition unknown (c :: rest) := by
  refine ⟨?_, Or.inl h⟩
  simp [isSpace_ne h '\\' (by decide), isSpace_not_foreign h, hu]
theorem ident_ne_IN {name : List Char} (h : ∀ c ∈ name, isLowerAZ c = true) :
    String.mk name ≠ "IN" := by
  intro h1
  have h2 : name = ['I', 'N'] := by
    have := congrArg String.data h1
    simpa using this
  have := h 'I' (by simp [h2])
  revert this
  decide

theorem readToken_ident (state : TokenKind) (name after : List Char) (hn : IsIdentifier name)
    (hstop : Stops isVariableName (fun c => c == '.') after) :
    readToken state (name ++ after) = .token (Tok.ident name).toToken (dropSpace after) := by
  obtain ⟨hne, hlow⟩ := hn
  cases name with
  | nil => exact absurd rfl hne
  | cons c cs =>
    have hc := hlow c (List.mem_cons_self _ _)
    have hrun := readUntilFalse_run isVariableName (fun c => c == '.') (c :: cs) [] after
      (fun d hd => isLowerAZ_runChar (hlow d hd)) hstop (by simp)
    rw [List.cons_append] at hrun ⊢
    rw [readToken]
    simp only [isLowerAZ_not_space hc, isLowerAZ_not_foreign hc, isLowerAZ_ne hc '\\' (by decide),
      isLowerAZ_not_digit hc, isLowerAZ_ne hc '.' (by decide), isLowerAZ_ne hc ',' (by decide),
      isLowerAZ_ne hc '[' (by decide), isLowerAZ_ne hc ']' (by decide), isLowerAZ_letter hc,
      Bool.or_false, Bool.false_eq_true, if_false, if_true, hrun, List.nil_append]
    have hq : isNotQuote c = true := by
      have q1 := isLowerAZ_ne hc (Char.ofNat 39) (by decide)
      have q2 := isLowerAZ_ne hc '"' (by decide)
      simp only [beq_eq_false_iff_ne] at q1 q2
      simp [isNotQuote, q1, q2]
    have hIN := ident_ne_IN hlow
    simp only [hq, Bool.not_true, Bool.false_eq_true, if_false, Tok.toToken, beq_iff_eq,
      Bool.or_eq_true, hIN, or_false]
    split <;> rename_i h1
    · rfl
    · split <;> rename_i h2
      · rfl
      · split <;> rfl
theorem symbolKind_and (state : TokenKind) : symbolKind state "&&" = some .LOGICALOP := by
  have h1 : (["-", "!", "~"] : List String).contains "&&" = false := by decide
  have h2 : (["+", "-", "*", "/", "%", "**", "&", "|", "^", ">>", "<<"] : List String).contains
      "&&" = false := by decide
  have h3 : (["&&", "||"] : List String).contains "&&" = true := by decide
  simp only [symbolKind, h1, h2, h3, Bool.and_false, Bool.false_eq_true, if_false, if_true]

theorem symbolKind_or (state : TokenKind) : symbolKind state "||" = some .LOGICALOP := by
  have h1 : (["-", "!", "~"] : List String).contains "||" = false := by decide
  have h2 : (["+", "-", "*", "/", "%", "**", "&", "|", "^", ">>", "<<"] : List String).contains
      "||" = false := by decide
  have h3 : (["&&", "||"] : List String).contains "||" = true := by decide
  simp only [symbolKind, h1, h2, h3, Bool.and_false, Bool.false_eq_true, if_false, if_true]

theorem readToken_AND (state : TokenKind) (after : List Char)
    (hstop : Stops isNotAlphanumeric (fun _ => false) after) :
    readToken state (Tok.AND.textLib ++ after) = .token Tok.AND.toToken (dropSpace after) := by
  have hrun := readUntilFalse_run isNotAlphanumeric (fun _ => false) ['&', '&'] [] after
    (by
      intro c hc
      simp only [List.mem_cons, List.mem_singleton, List.not_mem_nil, or_false, or_self] at hc
      subst hc
      exact ⟨by decide, by decide, by decide⟩) hstop (by simp)
  simp only [List.cons_append, List.nil_append] at hrun
  simp only [Tok.textLib, List.cons_append, List.nil_append]
  rw [readToken]
  have e1 : isSpace '&' = false := by decide
  have e2 : (isForeign '&' || '&' == '\\') = false := by decide
  have e3 : isAsciiDigit '&' = false := by decide
  have e4 : ('&' == '.' || '&' == ',') = false := by decide
  have e4b : ('&' == '[') = false := by decide
  have e4c : (!isNotQuote '&') = false := by decide
  have e5 : isAsciiLetter '&' = false := by decide
  have e6 : ('&' == '(') = false := by decide
  have e7 : ('&' == ')') = false := by decide
  have e8 : String.mk ['&', '&'] = "&&" := rfl
  simp only [e1, e2, e3, e4, e4b, e4c, e5, e6, e7, Bool.false_eq_true, if_false, hrun, e8,
    symbolKind_and]
  rfl

theorem readToken_OR (state : TokenKind) (after : List Char)
    (hstop : Stops isNotAlphanumeric (fun _ => false) after) :
    readToken state (Tok.OR.textLib ++ after) = .token Tok.OR.toToken (dropSpace after) := by
  have hrun := readUntilFalse_run isNotAlphanumeric (fun _ => false) ['|', '|'] [] after
    (by
      intro c hc
      simp only [List.mem_cons, List.mem_singleton, List.not_mem_nil, or_false, or_self] at hc
      subst hc
      exact ⟨by decide, by decide, by decide⟩) hstop (by simp)
  simp only [List.cons_append, List.nil_append] at hrun
  simp only [Tok.textLib, List.cons_append, List.nil_append]
  rw [readToken]
  have e1 : isSpace '|' = false := by decide
  have e2 : (isForeign '|' || '|' == '\\') = false := by decide
  have e3 : isAsciiDigit '|' = false := by decide
  have e4 : ('|' == '.' || '|' == ',') = false := by decide
  have e4b : ('|' == '[') = false := by decide
  have e4c : (!isNotQuote '|') = false := by decide
  have e5 : isAsciiLetter '|' = false := by decide
  have e6 : ('|' == '(') = false := by decide
  have e7 : ('|' == ')') = false := by decide
  have e8 : String.mk ['|', '|'] = "||" := rfl
  simp only [e1, e2, e3, e4, e4b, e4c, e5, e6, e7, Bool.false_eq_true, if_false, hrun, e8,
    symbolKind_or]
  rfl

theorem readToken_lparen (state : TokenKind) (after : List Char) :
    readToken state (Tok.lparen.textLib ++ after) = .token Tok.lparen.toToken after := by
  simp only [Tok.textLib, Tok.text, List.cons_append, List.nil_append]
  rw [readToken]
  have e1 : isSpace '(' = false := by decide
  have e2 : (isForeign '(' || '(' == '\\') = false := by decide
  have e3 : isAsciiDigit '(' = false := by decide
  have e4 : ('(' == '.' || '(' == ',') = false := by decide
  have e4b : ('(' == '[') = false := by decide
  have e4c : (!isNotQuote '(') = false := by decide
  have e5 : isAsciiLetter '(' = false := by decide
  have e6 : ('(' == '(') = true := by decide
  simp only [e1, e2, e3, e4, e4b, e4c, e5, e6, Bool.false_eq_true, if_false, if_true]
  rfl

theorem readToken_rparen (state : TokenKind) (after : List Char) :
    readToken state (Tok.rparen.textLib ++ after) = .token Tok.rparen.toToken after := by
  simp only [Tok.textLib, Tok.text, List.cons_append, List.nil_append]
  rw [readToken]
  have e1 : isSpace ')' = false := by decide
  have e2 : (isForeign ')' || ')' == '\\') = false := by decide
  have e3 : isAsciiDigit ')' = false := by decide
  have e4 : (')' == '.' || ')' == ',') = false := by decide
  have e4b : (')' == '[') = false := by decide
  have e4c : (!isNotQuote ')') = false := by decide
  have e5 : isAsciiLetter ')' = false := by decide
  have e6 : (')' == '(') = false := by decide
  have e7 : (')' == ')') = true := by decide
  simp only [e1, e2, e3, e4, e4b, e4c, e5, e6, e7, Bool.false_eq_true, if_false, if_true]
  rfl
theorem WellWritten.head {t : Tok} {gap : List Char} {rest : Written}
    (h : WellWritten ((t, gap) :: rest)) : t.WellFormed ∧ IsWhite gap := by
  cases rest with
  | nil => exact h
  | cons tg r => exact ⟨h.1, h.2.1⟩

theorem WellWritten.tail {t : Tok} {gap : List Char} {rest : Written}
    (h : WellWritten ((t, gap) :: rest)) : WellWritten rest := by
  cases rest with
  | nil => trivial
  | cons tg r => exact h.2.2.2

theorem WellWritten.touch {t t2 : Tok} {gap gap2 : List Char} {rest : Written}
    (h : WellWritten ((t, gap) :: (t2, gap2) :: rest)) : gap ≠ [] ∨ t.mayTouch t2 = true :=
  h.2.2.1

theorem dropSpace_white (c : Char) (rest : List Char) (h : isSpace c = true) :
    dropSpace (c :: rest) = rest := by
  simp [dropSpace, h]

theorem dropSpace_other (c : Char) (rest : List Char) (h : isSpace c = false) :
    dropSpace (c :: rest) = c :: rest := by
  simp [dropSpace, h]

/-- Reading the first token of a well written expression leaves the rest of the
expression, behind white space. -/
theorem readToken_written (state : TokenKind) (t : Tok) (gap : List Char) (rest : Written)
    (h : WellWritten ((t, gap) :: rest)) :
    ∃ gap2, IsWhite gap2 ∧ gap2.length ≤ gap.length ∧
      readToken state (t.textLib ++ (gap ++ render Tok.textLib rest))
        = .token t.toToken (gap2 ++ render Tok.textLib rest) := by
  obtain ⟨hwf, hgap⟩ := h.head
  cases gap with
  | cons c g =>
    have hc := hgap c (List.mem_cons_self _ _)
    have hg : IsWhite g := fun d hd => hgap d (List.mem_cons_of_mem _ hd)
    cases t with
    | ident name =>
      refine ⟨g, hg, by simp, ?_⟩
      have := readToken_ident state name (c :: g ++ render Tok.textLib rest) hwf
        (stops_white _ _ c _ hc (isSpace_ne hc '.' (by decide)))
      rw [List.cons_append, dropSpace_white _ _ hc] at this
      exact this
    | AND =>
      refine ⟨g, hg, by simp, ?_⟩
      have := readToken_AND state (c :: g ++ render Tok.textLib rest)
        (stops_white _ _ c _ hc rfl)
      rw [List.cons_append, dropSpace_white _ _ hc] at this
      exact this
    | OR =>
      refine ⟨g, hg, by simp, ?_⟩
      have := readToken_OR state (c :: g ++ render Tok.textLib rest)
        (stops_white _ _ c _ hc rfl)
      rw [List.cons_append, dropSpace_white _ _ hc] at this
      exact this
    | lparen => exact ⟨c :: g, hgap, le_refl _, readToken_lparen state _⟩
    | rparen => exact ⟨c :: g, hgap, le_refl _, readToken_rparen state _⟩
  | nil =>
    refine ⟨[], hgap, le_refl _, ?_⟩
    simp only [List.nil_append]
    cases t with
    | lparen => exact readToken_lparen state _
    | rparen => exact readToken_rparen state _
    | ident name =>
      cases rest with
      | nil =>
        have := readToken_ident state name [] hwf trivial
        simpa [render, dropSpace] using this
      | cons tg r =>
        obtain ⟨t2, gap2⟩ := tg
        have htouch := h.touch
        simp only [ne_eq, not_true_eq_false, false_or] at htouch
        have e : (Tok.ident name).textLib = name := rfl
        rw [e]
        cases t2 with
        | ident n2 => simp [Tok.mayTouch, Tok.isIdent] at htouch
        | AND =>
          have := readToken_ident state name (render Tok.textLib ((Tok.AND, gap2) :: r)) hwf
            (by simp only [render, Tok.textLib, List.cons_append]; exact ⟨by decide, by decide⟩)
          rw [this]
          simp only [render, Tok.textLib, List.cons_append]
          rw [dropSpace_other _ _ (by decide)]
        | OR =>
          have := readToken_ident state name (render Tok.textLib ((Tok.OR, gap2) :: r)) hwf
            (by simp only [render, Tok.textLib, List.cons_append]; exact ⟨by decide, by decide⟩)
          rw [this]
          simp only [render, Tok.textLib, List.cons_append]
          rw [dropSpace_other _ _ (by decide)]
        | lparen =>
          have := readToken_ident state name (render Tok.textLib ((Tok.lparen, gap2) :: r)) hwf
            (by
              simp only [render, Tok.textLib, Tok.text, List.cons_append]
              exact ⟨by decide, by decide⟩)
          rw [this]
          simp only [render, Tok.textLib, Tok.text, List.cons_append]
          rw [dropSpace_other _ _ (by decide)]
        | rparen =>
          have := readToken_ident state name (render Tok.textLib ((Tok.rparen, gap2) :: r)) hwf
            (by
              simp only [render, Tok.textLib, Tok.text, List.cons_append]
              exact ⟨by decide, by decide⟩)
          rw [this]
          simp only [render, Tok.textLib, Tok.text, List.cons_append]
          rw [dropSpace_other _ _ (by decide)]
    | AND =>
      cases rest with
      | nil =>
        have := readToken_AND state [] trivial
        simpa [render, dropSpace] using this
      | cons tg r =>
        obtain ⟨t2, gap2⟩ := tg
        have htouch := h.touch
        simp only [ne_eq, not_true_eq_false, false_or] at htouch
        have hwf2 := h.tail.head.1
        cases t2 with
        | AND => simp [Tok.mayTouch, Tok.isKeyword] at htouch
        | OR => simp [Tok.mayTouch, Tok.isKeyword] at htouch
        | ident n2 =>
          obtain ⟨hne2, hlow2⟩ := hwf2
          cases n2 with
          | nil => exact absurd rfl hne2
          | cons x xs =>
            have hx := hlow2 x (List.mem_cons_self _ _)
            have := readToken_AND state (render Tok.textLib ((Tok.ident (x :: xs), gap2) :: r))
              (by
                simp only [render, Tok.textLib, Tok.text, List.cons_append]
                refine ⟨?_, Or.inr ?_⟩
                · simp [isLowerAZ_ne hx '\\' (by decide), isLowerAZ_not_foreign hx]
                · simp [isNotAlphanumeric, isLowerAZ_letter hx])
            rw [this]
            simp only [render, Tok.textLib, Tok.text, List.cons_append]
            rw [dropSpace_other _ _ (isLowerAZ_not_space hx)]
        | lparen =>
          have := readToken_AND state (render Tok.textLib ((Tok.lparen, gap2) :: r))
            (by
              simp only [render, Tok.textLib, Tok.text, List.cons_append]
              exact ⟨by decide, by decide⟩)
          rw [this]
          simp only [render, Tok.textLib, Tok.text, List.cons_append]
          rw [dropSpace_other _ _ (by decide)]
        | rparen =>
          have := readToken_AND state (render Tok.textLib ((Tok.rparen, gap2) :: r))
            (by
              simp only [render, Tok.textLib, Tok.text, List.cons_append]
              exact ⟨by decide, by decide⟩)
          rw [this]
          simp only [render, Tok.textLib, Tok.text, List.cons_append]
          rw [dropSpace_other _ _ (by decide)]
    | OR =>
      cases rest with
      | nil =>
        have := readToken_OR state [] trivial
        simpa [render, dropSpace] using this
      | cons tg r =>
        obtain ⟨t2, gap2⟩ := tg
        have htouch := h.touch
        simp only [ne_eq, not_true_eq_false, false_or] at htouch
        have hwf2 := h.tail.head.1
        cases t2 with
        | AND => simp [Tok.mayTouch, Tok.isKeyword] at htouch
        | OR => simp [Tok.mayTouch, Tok.isKeyword] at htouch
        | ident n2 =>
          obtain ⟨hne2, hlow2⟩ := hwf2
          cases n2 with
          | nil => exact absurd rfl hne2
          | cons x xs =>
            have hx := hlow2 x (List.mem_cons_self _ _)
            have := readToken_OR state (render Tok.textLib ((Tok.ident (x :: xs), gap2) :: r))
              (by
                simp only [render, Tok.textLib, Tok.text, List.cons_append]
                refine ⟨?_, Or.inr ?_⟩
                · simp [isLowerAZ_ne hx '\\' (by decide), isLowerAZ_not_foreign hx]
                · simp [isNotAlphanumeric, isLowerAZ_letter hx])
            rw [this]
            simp only [render, Tok.textLib, Tok.text, List.cons_append]
            rw [dropSpace_other _ _ (isLowerAZ_not_space hx)]
        | lparen =>
          have := readToken_OR state (render Tok.textLib ((Tok.lparen, gap2) :: r))
            (by
              simp only [render, Tok.textLib, Tok.text, List.cons_append]
              exact ⟨by decide, by decide⟩)
          rw [this]
          simp only [render, Tok.textLib, Tok.text, List.cons_append]
          rw [dropSpace_other _ _ (by decide)]
        | rparen =>
          have := readToken_OR state (render Tok.textLib ((Tok.rparen, gap2) :: r))
            (by
              simp only [render, Tok.textLib, Tok.text, List.cons_append]
              exact ⟨by decide, by decide⟩)
          rw [this]
          simp only [render, Tok.textLib, Tok.text, List.cons_append]
          rw [dropSpace_other _ _ (by decide)]
theorem Tok.textLib_ne_nil {t : Tok} (h : t.WellFormed) : t.textLib ≠ [] := by
  cases t with
  | ident name => exact h.1
  | AND => simp [Tok.textLib]
  | OR => simp [Tok.textLib]
  | lparen => simp [Tok.textLib, Tok.text]
  | rparen => simp [Tok.textLib, Tok.text]

/-- The lexer reads a well written expression as the tokens it is written
with, given one unit of fuel per character and one more. -/
theorem parseTokensLoop_written : ∀ (w : Written), WellWritten w →
    ∀ (lead : List Char), IsWhite lead → ∀ (fuel : Nat) (state : TokenKind),
      (lead ++ render Tok.textLib w).length < fuel →
      parseTokensLoop fuel state (lead ++ render Tok.textLib w)
        = .ok (w.map (fun tg => tg.1.toToken)) := by
  intro w
  induction w with
  | nil =>
    intro _ lead hlead fuel state hfuel
    cases fuel with
    | zero => simp at hfuel
    | succ k =>
      simp only [render, List.append_nil, List.map_nil]
      rw [parseTokensLoop]
      split
      · rfl
      · rw [readToken_white_only state lead hlead]
  | cons tg rest ih =>
    intro hw lead hlead fuel state hfuel
    obtain ⟨t, gap⟩ := tg
    cases fuel with
    | zero => simp at hfuel
    | succ k =>
      obtain ⟨gap2, hgap2, hlen, hread⟩ := readToken_written state t gap rest hw
      have hne := Tok.textLib_ne_nil hw.head.1
      simp only [render, List.append_assoc, List.map_cons]
      rw [parseTokensLoop]
      have hnonempty : (lead ++ (t.textLib ++ (gap ++ render Tok.textLib rest))).isEmpty = false := by
        cases lead with
        | cons _ _ => rfl
        | nil =>
          cases h : t.textLib with
          | nil => exact absurd h hne
          | cons _ _ => rfl
      rw [hnonempty]
      simp only [Bool.false_eq_true, if_false]
      rw [readToken_white state lead _ hlead, hread]
      simp only
      have hk : (gap2 ++ render Tok.textLib rest).length < k := by
        simp only [render, List.append_assoc, List.length_append] at hfuel
        have h1 : 0 < t.textLib.length := List.length_pos.mpr hne
        simp only [List.length_append]
        omega
      rw [ih hw.tail gap2 hgap2 k t.toToken.Kind hk]

/-! ## Lemmas on the sentences of the grammar -/

theorem Sentence.toks_eq_append_last : ∀ {l : Level} (e : Sentence l),
    ∃ init, e.toks = init ++ [e.lastTok]
  | _, .ident name => ⟨[], rfl⟩
  | _, .paren e => ⟨.lparen :: e.toks, by simp [Sentence.toks, Sentence.lastTok]⟩
  | _, .factor f => by
    obtain ⟨i, h⟩ := f.toks_eq_append_last
    exact ⟨i, by simpa [Sentence.toks, Sentence.lastTok] using h⟩
  | _, .and f t => by
    obtain ⟨i, h⟩ := t.toks_eq_append_last
    exact ⟨f.toks ++ .AND :: i, by simp [Sentence.toks, Sentence.lastTok, h]⟩
  | _, .term t => by
    obtain ⟨i, h⟩ := t.toks_eq_append_last
    exact ⟨i, by simpa [Sentence.toks, Sentence.lastTok] using h⟩
  | _, .or t e => by
    obtain ⟨i, h⟩ := e.toks_eq_append_last
    exact ⟨t.toks ++ .OR :: i, by simp [Sentence.toks, Sentence.lastTok, h]⟩

theorem Sentence.lastTok_closes : ∀ {l : Level} (e : Sentence l), e.lastTok.closes = true
  | _, .ident _ => rfl
  | _, .paren _ => rfl
  | _, .factor f => f.lastTok_closes
  | _, .and _ t => t.lastTok_closes
  | _, .term t => t.lastTok_closes
  | _, .or _ e => e.lastTok_closes

theorem Sentence.toks_head : ∀ {l : Level} (e : Sentence l),
    ∃ t rest, e.toks = t :: rest ∧ t.opens = true
  | _, .ident name => ⟨.ident name, [], rfl, rfl⟩
  | _, .paren e => ⟨.lparen, e.toks ++ [.rparen], by simp [Sentence.toks], rfl⟩
  | _, .factor f => f.toks_head
  | _, .and f t => by
    obtain ⟨x, r, h, ho⟩ := f.toks_head
    exact ⟨x, r ++ .AND :: t.toks, by simp [Sentence.toks, h], ho⟩
  | _, .term t => t.toks_head
  | _, .or t e => by
    obtain ⟨x, r, h, ho⟩ := t.toks_head
    exact ⟨x, r ++ .OR :: e.toks, by simp [Sentence.toks, h], ho⟩

theorem mayTouch_of_closes_keyword {a b : Tok} (ha : a.closes = true) (hb : b.isKeyword = true) :
    a.mayTouch b = true := by
  cases a <;> cases b <;> simp_all [Tok.mayTouch, Tok.closes, Tok.isKeyword, Tok.isIdent]

theorem mayTouch_of_keyword_opens {a b : Tok} (ha : a.isKeyword = true) (hb : b.opens = true) :
    a.mayTouch b = true := by
  cases a <;> cases b <;> simp_all [Tok.mayTouch, Tok.opens, Tok.isKeyword, Tok.isIdent]

theorem Sentence.toks_chain : ∀ {l : Level} (e : Sentence l),
    List.Chain' (fun a b => Tok.mayTouch a b = true) e.toks
  | _, .ident name => by simp [Sentence.toks]
  | _, .paren e => by
    obtain ⟨x, r, h, _⟩ := e.toks_head
    obtain ⟨i, hl⟩ := e.toks_eq_append_last
    have hc := e.toks_chain
    simp only [Sentence.toks]
    refine List.Chain'.cons' ?_ ?_
    · refine List.Chain'.append hc (by simp) ?_
      intro a ha b hb
      simp at hb
      subst hb
      cases a <;> rfl
    · intro y _
      cases y <;> rfl
  | _, .factor f => f.toks_chain
  | _, .and f t => by
    obtain ⟨x, r, h, ho⟩ := t.toks_head
    obtain ⟨i, hl⟩ := f.toks_eq_append_last
    simp only [Sentence.toks]
    refine List.Chain'.append f.toks_chain ?_ ?_
    · refine List.Chain'.cons' t.toks_chain ?_
      intro y hy
      rw [h] at hy
      simp at hy
      subst hy
      exact mayTouch_of_keyword_opens rfl ho
    · intro a ha b hb
      simp at hb
      subst hb
      rw [hl] at ha
      simp at ha
      subst ha
      exact mayTouch_of_closes_keyword f.lastTok_closes rfl
  | _, .term t => t.toks_chain
  | _, .or t e => by
    obtain ⟨x, r, h, ho⟩ := e.toks_head
    obtain ⟨i, hl⟩ := t.toks_eq_append_last
    simp only [Sentence.toks]
    refine List.Chain'.append t.toks_chain ?_ ?_
    · refine List.Chain'.cons' e.toks_chain ?_
      intro y hy
      rw [h] at hy
      simp at hy
      subst hy
      exact mayTouch_of_keyword_opens rfl ho
    · intro a ha b hb
      simp at hb
      subst hb
      rw [hl] at ha
      simp at ha
      subst ha
      exact mayTouch_of_closes_keyword t.lastTok_closes rfl

theorem wellWritten_of_chain : ∀ (w : Written), (∀ tg ∈ w, tg.1.WellFormed) →
    (∀ tg ∈ w, IsWhite tg.2) →
    List.Chain' (fun a b => Tok.mayTouch a b = true) (w.map Prod.fst) → WellWritten w
  | [], _, _, _ => trivial
  | [(t, gap)], hwf, hgap, _ => ⟨hwf (t, gap) (by simp), hgap (t, gap) (by simp)⟩
  | (t, gap) :: (t2, gap2) :: rest, hwf, hgap, hc => by
    simp only [List.map_cons, List.chain'_cons] at hc
    refine ⟨hwf (t, gap) (by simp), hgap (t, gap) (by simp), Or.inr hc.1, ?_⟩
    exact wellWritten_of_chain ((t2, gap2) :: rest)
      (fun x hx => hwf x (List.mem_cons_of_mem _ hx))
      (fun x hx => hgap x (List.mem_cons_of_mem _ hx))
      (by simpa using hc.2)

theorem Sentence.mem_toks_ident : ∀ {l : Level} (e : Sentence l) (name : List Char),
    Tok.ident name ∈ e.toks ↔ name ∈ e.idents
  | _, .ident n, name => by simp [Sentence.toks, Sentence.idents]
  | _, .paren e, name => by
    simp [Sentence.toks, Sentence.idents, e.mem_toks_ident name]
  | _, .factor f, name => by simp [Sentence.toks, Sentence.idents, f.mem_toks_ident name]
  | _, .and f t, name => by
    simp [Sentence.toks, Sentence.idents, f.mem_toks_ident name, t.mem_toks_ident name]
  | _, .term t, name => by simp [Sentence.toks, Sentence.idents, t.mem_toks_ident name]
  | _, .or t e, name => by
    simp [Sentence.toks, Sentence.idents, t.mem_toks_ident name, e.mem_toks_ident name]

theorem Sentence.toks_wellFormed {l : Level} (e : Sentence l)
    (h : ∀ name ∈ e.idents, IsIdentifier name) : ∀ t ∈ e.toks, t.WellFormed := by
  intro t ht
  cases t with
  | ident name => exact h name ((e.mem_toks_ident name).mp ht)
  | _ => trivial

theorem toToken_ident_cases (name : List Char) (h : name ≠ ['i', 'n']) :
    ((Tok.ident name).toToken = ⟨.VARIABLE, .str (String.mk name)⟩)
      ∨ (∃ b, (Tok.ident name).toToken = ⟨.BOOLEAN, .bool b⟩) := by
  have hin : String.mk name ≠ "in" := by
    intro h1
    apply h
    have := congrArg String.data h1
    simpa using this
  simp only [Tok.toToken, hin, if_false]
  split
  · exact Or.inr ⟨true, rfl⟩
  · split
    · exact Or.inr ⟨false, rfl⟩
    · exact Or.inl rfl

/-- A lexer state in which an operand may start. -/
theorem canTransitionTo_operand (state : TokenKind)
    (h : state = .UNKNOWN ∨ state = .CLAUSE ∨ state = .LOGICALOP) :
    canTransitionTo state .VARIABLE = true ∧ canTransitionTo state .BOOLEAN = true
      ∧ canTransitionTo state .CLAUSE = true := by
  rcases h with rfl | rfl | rfl <;> decide

theorem Sentence.lastTok_mem {l : Level} (e : Sentence l) : e.lastTok ∈ e.toks := by
  obtain ⟨i, h⟩ := e.toks_eq_append_last
  rw [h]
  simp

theorem Sentence.lastTok_kind {l : Level} (e : Sentence l) (hin : ['i', 'n'] ∉ e.idents) :
    e.lastTok.toToken.Kind = .VARIABLE ∨ e.lastTok.toToken.Kind = .BOOLEAN
      ∨ e.lastTok.toToken.Kind = .CLAUSE_CLOSE := by
  have hc := e.lastTok_closes
  have hm := e.lastTok_mem
  cases hl : e.lastTok with
  | ident name =>
    rw [hl] at hm
    have hne : name ≠ ['i', 'n'] := by
      rintro rfl
      exact hin ((e.mem_toks_ident _).mp hm)
    rcases toToken_ident_cases name hne with h | ⟨b, h⟩
    · left; rw [h]
    · right; left; rw [h]
  | rparen => right; right; rfl
  | AND => rw [hl] at hc; simp [Tok.closes] at hc
  | OR => rw [hl] at hc; simp [Tok.closes] at hc
  | lparen => rw [hl] at hc; simp [Tok.closes] at hc

theorem canTransitionTo_after_operand (kind : TokenKind)
    (h : kind = .VARIABLE ∨ kind = .BOOLEAN ∨ kind = .CLAUSE_CLOSE) :
    canTransitionTo kind .LOGICALOP = true ∧ canTransitionTo kind .CLAUSE_CLOSE = true
      ∧ isEOF kind = true := by
  rcases h with rfl | rfl | rfl <;> decide

theorem checkExpressionSyntaxLoop_step (state : TokenKind) (last token : ExpressionToken)
    (rest : List ExpressionToken) (h1 : canTransitionTo state token.Kind = true)
    (h2 : token.Value ≠ .nil) :
    checkExpressionSyntaxLoop state last (token :: rest)
      = checkExpressionSyntaxLoop token.Kind token rest := by
  rw [checkExpressionSyntaxLoop]
  have h3 : (token.Value == Value.nil) = false := by simpa using h2
  simp [h1, h3]

/-- The syntax check runs through the tokens of a parse tree that starts where
an operand may start, and is left in the state of its last token. -/
theorem checkExpressionSyntaxLoop_sentence : ∀ {l : Level} (e : Sentence l),
    ['i', 'n'] ∉ e.idents → ∀ (state : TokenKind) (last : ExpressionToken)
      (rest : List ExpressionToken),
      (state = .UNKNOWN ∨ state = .CLAUSE ∨ state = .LOGICALOP) →
      checkExpressionSyntaxLoop state last (e.toks.map Tok.toToken ++ rest)
        = checkExpressionSyntaxLoop e.lastTok.toToken.Kind e.lastTok.toToken rest
  | _, .ident name, hin, state, last, rest, hs => by
    have hne : name ≠ ['i', 'n'] := by
      rintro rfl
      exact hin (by simp [Sentence.idents])
    have hop := canTransitionTo_operand state hs
    simp only [Sentence.toks, List.map_cons, List.map_nil, List.cons_append, List.nil_append,
      Sentence.lastTok]
    rcases toToken_ident_cases name hne with h | ⟨b, h⟩
    · rw [h]
      exact checkExpressionSyntaxLoop_step _ _ _ _ hop.1 (by simp)
    · rw [h]
      exact checkExpressionSyntaxLoop_step _ _ _ _ hop.2.1 (by simp)
  | _, .paren e, hin, state, last, rest, hs => by
    have hop := canTransitionTo_operand state hs
    have hin2 : ['i', 'n'] ∉ e.idents := by simpa [Sentence.idents] using hin
    simp only [Sentence.toks, List.map_cons, List.map_append, List.map_nil, List.cons_append,
      List.append_assoc, List.nil_append, Sentence.lastTok]
    rw [checkExpressionSyntaxLoop_step _ _ _ _ (by exact hop.2.2) (by simp [Tok.toToken])]
    rw [checkExpressionSyntaxLoop_sentence e hin2 Tok.lparen.toToken.Kind _ _
      (Or.inr (Or.inl rfl))]
    exact checkExpressionSyntaxLoop_step _ _ _ _
      (canTransitionTo_after_operand _ (e.lastTok_kind hin2)).2.1 (by simp [Tok.toToken])
  | _, .factor f, hin, state, last, rest, hs => by
    have hin2 : ['i', 'n'] ∉ f.idents := by simpa [Sentence.idents] using hin
    simpa [Sentence.toks, Sentence.lastTok] using
      checkExpressionSyntaxLoop_sentence f hin2 state last rest hs
  | _, .and f t, hin, state, last, rest, hs => by
    have hin1 : ['i', 'n'] ∉ f.idents := by
      intro h; exact hin (by simp [Sentence.idents, h])
    have hin2 : ['i', 'n'] ∉ t.idents := by
      intro h; exact hin (by simp [Sentence.idents, h])
    simp only [Sentence.toks, List.map_cons, List.map_append, List.cons_append,
      List.append_assoc, Sentence.lastTok]
    rw [checkExpressionSyntaxLoop_sentence f hin1 state last _ hs]
    rw [checkExpressionSyntaxLoop_step _ _ _ _
      (canTransitionTo_after_operand _ (f.lastTok_kind hin1)).1 (by simp [Tok.toToken])]
    exact checkExpressionSyntaxLoop_sentence t hin2 Tok.AND.toToken.Kind _ rest
      (Or.inr (Or.inr rfl))
  | _, .term t, hin, state, last, rest, hs => by
    have hin2 : ['i', 'n'] ∉ t.idents := by simpa [Sentence.idents] using hin
    simpa [Sentence.toks, Sentence.lastTok] using
      checkExpressionSyntaxLoop_sentence t hin2 state last rest hs
  | _, .or t e, hin, state, last, rest, hs => by
    have hin1 : ['i', 'n'] ∉ t.idents := by
      intro h; exact hin (by simp [Sentence.idents, h])
    have hin2 : ['i', 'n'] ∉ e.idents := by
      intro h; exact hin (by simp [Sentence.idents, h])
    simp only [Sentence.toks, List.map_cons, List.map_append, List.cons_append,
      List.append_assoc, Sentence.lastTok]
    rw [checkExpressionSyntaxLoop_sentence t hin1 state last _ hs]
    rw [checkExpressionSyntaxLoop_step _ _ _ _
      (canTransitionTo_after_operand _ (t.lastTok_kind hin1)).1 (by simp [Tok.toToken])]
    exact checkExpressionSyntaxLoop_sentence e hin2 Tok.OR.toToken.Kind _ rest
      (Or.inr (Or.inr rfl))

theorem checkExpressionSyntax_sentence (e : Sentence .expression) (hin : ['i', 'n'] ∉ e.idents) :
    checkExpressionSyntax (e.toks.map Tok.toToken) = .ok () := by
  have := checkExpressionSyntaxLoop_sentence e hin .UNKNOWN ⟨.UNKNOWN, .nil⟩ [] (Or.inl rfl)
  rw [List.append_nil] at this
  unfold checkExpressionSyntax
  rw [this, checkExpressionSyntaxLoop]
  simp [(canTransitionTo_after_operand _ (e.lastTok_kind hin)).2.2]

/-! ## Lemmas on the planner -/

theorem plan_level (fuel : Nat) (p q : Precedent) (hq : leftPrecedent p = some q)
    (tokens : List ExpressionToken) (i : Nat) :
    plan (fuel + 1) p tokens i =
      match plan fuel q tokens i with
      | .error e => .error e
      | .ok (leftStage, index1) =>
        match tokens.get? index1 with
        | none => .ok (leftStage, index1 - 1)
        | some token =>
          if token.Kind ≠ validKind p then .ok (leftStage, index1)
          else match token.Value with
            | .str s =>
              match validSymbols p s with
              | none => .ok (leftStage, index1)
              | some symbol =>
                match plan fuel (rightPrecedent p) tokens (index1 + 1) with
                | .error e => .error e
                | .ok (rightStage, index2) => .ok (.stage symbol leftStage rightStage .nil, index2)
            | _ => .ok (leftStage, index1) := by
  cases p
  case planPrefix => simp [leftPrecedent] at hq
  case planFunction => simp [leftPrecedent] at hq
  case planValue => simp [leftPrecedent] at hq
  all_goals (simp only [leftPrecedent, Option.some.injEq] at hq; subst hq; rfl)

theorem plan_function (fuel : Nat) (tokens : List ExpressionToken) (i : Nat)
    (token : ExpressionToken) (h : tokens.get? i = some token)
    (hk : ¬ (token.Kind = .FUNCTION ∨ token.Kind = .ACCESSOR)) :
    plan (fuel + 1) .planFunction tokens i = plan fuel .planValue tokens i := by
  rw [plan]
  simp only [h, hk, if_false]
theorem plan_stop (fuel : Nat) (p q : Precedent) (hq : leftPrecedent p = some q)
    (tokens : List ExpressionToken) (i : Nat) (s : evaluationStage) (j : Nat)
    (hleft : plan fuel q tokens i = .ok (s, j)) (hno : NoOperator p tokens j) :
    plan (fuel + 1) p tokens i = .ok (s, settle tokens j) := by
  rw [plan_level fuel p q hq, hleft]
  simp only
  cases hg : tokens.get? j with
  | none =>
    have : ¬ j < tokens.length := by
      intro h
      rw [List.get?_eq_get h] at hg
      simp at hg
    simp [settle, this]
  | some token =>
    have hj : j < tokens.length := by
      by_contra h
      rw [List.get?_eq_none.mpr (by omega)] at hg
      simp at hg
    simp only [settle, hj, if_true]
    rcases hno token hg with h | h
    · simp [h]
    · by_cases hk : token.Kind ≠ validKind p
      · simp [hk]
      · simp only [hk, if_false]
        cases hv : token.Value with
        | str str => simp [h str hv]
        | nil => rfl
        | bool _ => rfl
        | number _ => rfl
        | rune _ => rfl

theorem noOperator_of_plain (p : Precedent) (tokens : List ExpressionToken) (j : Nat)
    (hplain : ∀ t ∈ tokens, PlainKind t.Kind)
    (hp : validKind p ≠ .LOGICALOP) (hp2 : p ≠ .planPrefix) : NoOperator p tokens j := by
  intro token hg
  left
  have hm : token ∈ tokens := List.get?_mem hg
  have := hplain token hm
  intro h
  rw [h] at this
  cases p <;> simp_all [PlainKind, validKind]

theorem settle_settle (tokens : List ExpressionToken) (j : Nat) (h : j ≤ tokens.length)
    (hne : tokens ≠ []) : settle tokens (settle tokens j) = settle tokens j := by
  have hpos : 0 < tokens.length := List.length_pos.mpr hne
  unfold settle
  split
  · rename_i h1
    simp [h1]
  · rename_i h1
    have : j - 1 < tokens.length := by omega
    simp [this]

theorem lands_le {n i len j : Nat} (h : Lands n i len j) (hn : i + len ≤ n) : j ≤ n := by
  rcases h with h | ⟨_, h⟩ <;> omega

theorem lands_settle {tokens : List ExpressionToken} {i len j : Nat}
    (h : Lands tokens.length i len j) (hn : i + len ≤ tokens.length) (hlen : 0 < len) :
    Lands tokens.length i len (settle tokens j) := by
  unfold settle
  split
  · exact h
  · rename_i h1
    rcases h with h | ⟨h2, h3⟩
    · right
      omega
    · omega

theorem plan_chain (k : Nat) (tokens : List ExpressionToken) (i : Nat) (s : evaluationStage)
    (j : Nat) (token : ExpressionToken) (hplain : ∀ t ∈ tokens, PlainKind t.Kind)
    (hv : plan k .planValue tokens i = .ok (s, j)) (hi : tokens.get? i = some token)
    (hj : j ≤ tokens.length) :
    plan (k + 7) .planComparator tokens i = .ok (s, settle tokens j) := by
  have hne : tokens ≠ [] := by
    rintro rfl
    simp at hi
  have hkind : ¬ (token.Kind = .FUNCTION ∨ token.Kind = .ACCESSOR) := by
    have := hplain token (List.get?_mem hi)
    unfold PlainKind at this
    intro h
    rcases h with h | h <;> rw [h] at this <;> simp at this
  have h1 : plan (k + 1) .planFunction tokens i = .ok (s, j) := by
    rw [plan_function k tokens i token hi hkind, hv]
  have h2 := plan_stop (k + 1) .planExponential .planFunction rfl tokens i s j h1
    (noOperator_of_plain _ _ _ hplain (by decide) (by decide))
  have h3 := plan_stop (k + 2) .planMultiplicative .planExponential rfl tokens i s _ h2
    (noOperator_of_plain _ _ _ hplain (by decide) (by decide))
  rw [settle_settle tokens j hj hne] at h3
  have h4 := plan_stop (k + 3) .planAdditive .planMultiplicative rfl tokens i s _ h3
    (noOperator_of_plain _ _ _ hplain (by decide) (by decide))
  rw [settle_settle tokens j hj hne] at h4
  have h5 := plan_stop (k + 4) .planShift .planAdditive rfl tokens i s _ h4
    (noOperator_of_plain _ _ _ hplain (by decide) (by decide))
  rw [settle_settle tokens j hj hne] at h5
  have h6 := plan_stop (k + 5) .planBitwise .planShift rfl tokens i s _ h5
    (noOperator_of_plain _ _ _ hplain (by decide) (by decide))
  rw [settle_settle tokens j hj hne] at h6
  have h7 := plan_stop (k + 6) .planComparator .planBitwise rfl tokens i s _ h6
    (noOperator_of_plain _ _ _ hplain (by decide) (by decide))
  rw [settle_settle tokens j hj hne] at h7
  exact h7

theorem get?_mid_head (pre post : List ExpressionToken) (t : ExpressionToken)
    (rest : List ExpressionToken) :
    (pre ++ (t :: rest) ++ post).get? pre.length = some t := by
  rw [List.append_assoc, List.get?_eq_getElem?, List.getElem?_append_right (le_refl _)]
  simp

theorem get?_post_head (pre mid post : List ExpressionToken) :
    (pre ++ mid ++ post).get? (pre.length + mid.length) = post.head? := by
  rw [List.get?_eq_getElem?, List.getElem?_append_right (by simp)]
  cases post <;> simp

theorem get?_mid_last (pre init : List ExpressionToken) (lt : ExpressionToken) (n : Nat)
    (hn : n + 1 = (pre ++ (init ++ [lt])).length) :
    (pre ++ (init ++ [lt])).get? n = some lt := by
  have : pre ++ (init ++ [lt]) = (pre ++ init) ++ [lt] := by simp
  rw [this] at hn ⊢
  rw [List.get?_eq_getElem?, List.getElem?_append_right (by simp at hn ⊢; omega)]
  simp at hn
  have : n - (pre ++ init).length = 0 := by simp; omega
  rw [this]
  rfl

/-- The token found where planning a run of tokens landed: the last token of
the run, or the token that follows the run. -/
theorem token_at_landing (pre init post : List ExpressionToken) (lt : ExpressionToken) (j : Nat)
    (h : Lands (pre ++ (init ++ [lt]) ++ post).length pre.length (init ++ [lt]).length j)
    (token : ExpressionToken)
    (hg : (pre ++ (init ++ [lt]) ++ post).get? j = some token) :
    token = lt ∨ post.head? = some token := by
  rcases h with h | ⟨h1, h2⟩
  · right
    rw [h, get?_post_head] at hg
    exact hg
  · left
    have hpost : post = [] := by
      simp only [List.length_append] at h1
      have : post.length = 0 := by omega
      exact List.length_eq_zero.mp this
    subst hpost
    rw [List.append_nil] at hg h2
    rw [get?_mid_last pre init lt j h2] at hg
    exact (Option.some.inj hg).symm

theorem lands_exact {n i len j : Nat} (h : Lands n i len j) (hn : i + len < n) : j = i + len := by
  rcases h with h | ⟨h1, _⟩
  · exact h
  · omega

theorem plan_value_clause (k : Nat) (tokens : List ExpressionToken) (i : Nat)
    (inner : evaluationStage) (j : Nat)
    (hget : tokens.get? i = some Tok.lparen.toToken) (h1 : i + 1 < tokens.length)
    (hinner : plan k .planSeparator tokens (i + 1) = .ok (inner, j)) (hj : j < tokens.length) :
    plan (k + 1) .planValue tokens i = .ok (.stage .NOOP .nil inner .nil, j + 1) := by
  rw [plan]
  simp only [hget, Tok.toToken, h1, if_true, hinner, hj]

theorem plan_value_ident (k : Nat) (tokens : List ExpressionToken) (i : Nat) (name : List Char)
    (hne : name ≠ ['i', 'n']) (hget : tokens.get? i = some (Tok.ident name).toToken) :
    plan (k + 1) .planValue tokens i = .ok ((Sentence.ident name).stage, i + 1) := by
  rw [plan]
  simp only [hget]
  rcases toToken_ident_cases name hne with h | ⟨b, h⟩
  · simp only [Sentence.stage, h, if_true]
  · simp only [Sentence.stage, h]
    rfl

theorem plan_operator (fuel : Nat) (p q : Precedent) (hq : leftPrecedent p = some q)
    (tokens : List ExpressionToken) (i : Nat) (left right : evaluationStage) (j j2 : Nat)
    (token : ExpressionToken) (str : String) (symbol : OperatorSymbol)
    (hleft : plan fuel q tokens i = .ok (left, j))
    (hget : tokens.get? j = some token) (hkind : token.Kind = validKind p)
    (hval : token.Value = .str str) (hsym : validSymbols p str = some symbol)
    (hright : plan fuel (rightPrecedent p) tokens (j + 1) = .ok (right, j2)) :
    plan (fuel + 1) p tokens i = .ok (.stage symbol left right .nil, j2) := by
  rw [plan_level fuel p q hq, hleft]
  simp only [hget, hkind, ne_eq, not_true_eq_false, if_false, hval, hsym, hright]

theorem Sentence.toks_ne_nil {l : Level} (x : Sentence l) : x.toks ≠ [] := by
  obtain ⟨t, r, h, _⟩ := x.toks_head
  rw [h]
  simp

theorem Sentence.closing_noOperator {l : Level} (x : Sentence l) (hin : ['i', 'n'] ∉ x.idents)
    (p : Precedent) (hp : validKind p = .LOGICALOP) :
    x.lastTok.toToken.Kind ≠ validKind p := by
  rw [hp]
  rcases x.lastTok_kind hin with h | h | h <;> rw [h] <;> decide

theorem noOperator_after {l : Level} (x : Sentence l) (hin : ['i', 'n'] ∉ x.idents)
    (pre post : List ExpressionToken) (j : Nat)
    (hl : Lands (pre ++ x.toks.map Tok.toToken ++ post).length pre.length
      (x.toks.map Tok.toToken).length j)
    (p : Precedent) (hp : validKind p = .LOGICALOP)
    (hpost : ∀ t, post.head? = some t →
      t.Kind ≠ .LOGICALOP ∨ ∀ s, t.Value = .str s → validSymbols p s = none) :
    NoOperator p (pre ++ x.toks.map Tok.toToken ++ post) j := by
  intro token hg
  obtain ⟨init, hinit⟩ := x.toks_eq_append_last
  have hmap : x.toks.map Tok.toToken = init.map Tok.toToken ++ [x.lastTok.toToken] := by
    rw [hinit]
    simp
  rw [hmap] at hl hg
  rcases token_at_landing pre _ post _ j hl token hg with h | h
  · left
    rw [h]
    exact x.closing_noOperator hin p hp
  · rcases hpost token h with h1 | h1
    · left
      rw [hp]
      exact h1
    · right
      exact h1

theorem lands_shift {n i a len j : Nat} (h : Lands n (i + a) len j) : Lands n i (a + len) j := by
  rcases h with h | ⟨h1, h2⟩
  · left
    omega
  · right
    exact ⟨by omega, h2⟩

/-- The planner, entered at the planner function of the level of a parse tree
and at the position where its tokens start, plans the stage of the tree. -/
theorem plan_sentence : ∀ {l : Level} (x : Sentence l), ['i', 'n'] ∉ x.idents →
    ∀ (pre post : List ExpressionToken) (fuel : Nat),
      (∀ t ∈ pre ++ x.toks.map Tok.toToken ++ post, PlainKind t.Kind) →
      Follows l post → x.depth ≤ fuel →
      ∃ j, plan fuel (entry l) (pre ++ x.toks.map Tok.toToken ++ post) pre.length
            = .ok (x.stage, j)
        ∧ Lands (pre ++ x.toks.map Tok.toToken ++ post).length pre.length
            (x.toks.map Tok.toToken).length j
  | _, .ident name, hin, pre, post, fuel, hplain, _, hfuel => by
    have hne : name ≠ ['i', 'n'] := by
      rintro rfl
      exact hin (by simp [Sentence.idents])
    simp only [Sentence.depth] at hfuel
    obtain ⟨k, rfl⟩ : ∃ k, fuel = (k + 1) + 7 := ⟨fuel - 8, by omega⟩
    simp only [Sentence.toks, List.map_cons, List.map_nil] at hplain ⊢
    have hget := get?_mid_head pre post (Tok.ident name).toToken []
    have hv := plan_value_ident k _ _ name hne hget
    have hlen : pre.length + 1 ≤ (pre ++ [(Tok.ident name).toToken] ++ post).length := by
      simp only [List.length_append, List.length_singleton]
      omega
    have hc := plan_chain (k + 1) _ _ _ _ _ hplain hv hget hlen
    refine ⟨_, hc, ?_⟩
    exact lands_settle (Or.inl rfl) (by simp) (by simp)
  | _, .paren e, hin, pre, post, fuel, hplain, _, hfuel => by
    have hin2 : ['i', 'n'] ∉ e.idents := by simpa [Sentence.idents] using hin
    simp only [Sentence.depth] at hfuel
    obtain ⟨k, rfl⟩ : ∃ k, fuel = (k + 3) + 7 := ⟨fuel - 10, by omega⟩
    have hk : e.depth ≤ k := by omega
    have htok : pre ++ (Sentence.paren e).toks.map Tok.toToken ++ post
        = (pre ++ [Tok.lparen.toToken]) ++ e.toks.map Tok.toToken
          ++ (Tok.rparen.toToken :: post) := by
      simp [Sentence.toks]
    have hplain2 := hplain
    rw [htok] at hplain2
    obtain ⟨j, hj, hl⟩ := plan_sentence e hin2 (pre ++ [Tok.lparen.toToken])
      (Tok.rparen.toToken :: post) k hplain2 (by intro t ht; simp at ht; subst ht; rfl) hk
    have hjx : j = pre.length + 1 + (e.toks.map Tok.toToken).length := by
      have := lands_exact hl (by
        simp only [List.length_append, List.length_map, List.length_cons, List.length_nil]
        omega)
      simp only [List.length_append, List.length_singleton] at this
      exact this
    have hlenTok : (pre ++ (Sentence.paren e).toks.map Tok.toToken ++ post).length
        = pre.length + ((e.toks.map Tok.toToken).length + 2) + post.length := by
      simp only [Sentence.toks, List.length_append, List.length_map, List.length_cons,
        List.length_nil]
    have hjlt : j < (pre ++ (Sentence.paren e).toks.map Tok.toToken ++ post).length := by
      rw [hlenTok, hjx]
      omega
    rw [← htok] at hj
    simp only [entry, List.length_append, List.length_singleton] at hj
    have hs1 := plan_stop k .planTernary .planLogicalOr rfl _ _ _ _ hj
      (noOperator_of_plain _ _ _ hplain (by decide) (by decide))
    have hset : settle (pre ++ (Sentence.paren e).toks.map Tok.toToken ++ post) j = j := by
      unfold settle
      rw [if_pos hjlt]
    rw [hset] at hs1
    have hs2 := plan_stop (k + 1) .planSeparator .planTernary rfl _ _ _ _ hs1
      (noOperator_of_plain _ _ _ hplain (by decide) (by decide))
    rw [hset] at hs2
    have hget : (pre ++ (Sentence.paren e).toks.map Tok.toToken ++ post).get? pre.length
        = some Tok.lparen.toToken := by
      simp only [Sentence.toks, List.map_cons]
      exact get?_mid_head pre post _ _
    have h1 : pre.length + 1 < (pre ++ (Sentence.paren e).toks.map Tok.toToken ++ post).length := by
      rw [hlenTok]
      omega
    have hv := plan_value_clause (k + 2) _ _ _ _ hget h1 hs2 hjlt
    have hjle : j + 1 ≤ (pre ++ (Sentence.paren e).toks.map Tok.toToken ++ post).length := by
      omega
    have hc := plan_chain (k + 3) _ _ _ _ _ hplain hv hget hjle
    refine ⟨_, hc, ?_⟩
    have hlenP : ((Sentence.paren e).toks.map Tok.toToken).length
        = (e.toks.map Tok.toToken).length + 2 := by
      simp only [Sentence.toks, List.length_append, List.length_map, List.length_cons,
        List.length_nil]
    refine lands_settle (Or.inl ?_) ?_ (by rw [hlenP]; omega)
    · rw [hjx, hlenP]
      omega
    · rw [hlenTok, hlenP]
      omega
  | _, .factor f, hin, pre, post, fuel, hplain, hfol, hfuel => by
    have hin2 : ['i', 'n'] ∉ f.idents := by simpa [Sentence.idents] using hin
    simp only [Sentence.depth] at hfuel
    obtain ⟨k, rfl⟩ : ∃ k, fuel = k + 1 := ⟨fuel - 1, by omega⟩
    simp only [Sentence.toks, Sentence.stage, entry] at hplain ⊢
    obtain ⟨j, hj, hl⟩ := plan_sentence f hin2 pre post k hplain
      (by
        intro t ht
        rcases hfol t ht with h | h
        · left; rw [h]; rfl
        · right; exact h) (by omega)
    have hno := noOperator_after f hin2 pre post j hl .planLogicalAnd rfl
      (by
        intro t ht
        rcases hfol t ht with h | h
        · right
          intro s hs
          rw [h] at hs
          simp only [Tok.toToken, Value.str.injEq] at hs
          subst hs
          decide
        · left; rw [h]; decide)
    refine ⟨_, plan_stop k .planLogicalAnd .planComparator rfl _ _ _ _ hj hno, ?_⟩
    refine lands_settle hl ?_ ?_
    · simp only [List.length_append]
      omega
    · rw [List.length_map]
      exact List.length_pos.mpr f.toks_ne_nil
  | _, .and f t, hin, pre, post, fuel, hplain, hfol, hfuel => by
    have hin1 : ['i', 'n'] ∉ f.idents := by
      intro h; exact hin (by simp [Sentence.idents, h])
    have hin2 : ['i', 'n'] ∉ t.idents := by
      intro h; exact hin (by simp [Sentence.idents, h])
    simp only [Sentence.depth] at hfuel
    obtain ⟨k, rfl⟩ : ∃ k, fuel = k + 1 := ⟨fuel - 1, by omega⟩
    have htok1 : pre ++ (Sentence.and f t).toks.map Tok.toToken ++ post
        = pre ++ f.toks.map Tok.toToken
          ++ (Tok.AND.toToken :: (t.toks.map Tok.toToken ++ post)) := by
      simp [Sentence.toks]
    have htok2 : pre ++ (Sentence.and f t).toks.map Tok.toToken ++ post
        = (pre ++ f.toks.map Tok.toToken ++ [Tok.AND.toToken]) ++ t.toks.map Tok.toToken
          ++ post := by
      simp [Sentence.toks]
    have hp1 := hplain
    rw [htok1] at hp1
    have hp2 := hplain
    rw [htok2] at hp2
    obtain ⟨j, hj, hl⟩ := plan_sentence f hin1 pre _ k hp1
      (by intro x hx; simp at hx; subst hx; left; rfl) (by omega)
    have hjx : j = pre.length + (f.toks.map Tok.toToken).length :=
      lands_exact hl (by
        simp only [List.length_append, List.length_map, List.length_cons]
        omega)
    have hget : (pre ++ (Sentence.and f t).toks.map Tok.toToken ++ post).get? j
        = some Tok.AND.toToken := by
      rw [htok1, hjx, get?_post_head]
      rfl
    obtain ⟨j2, hj2, hl2⟩ := plan_sentence t hin2 _ post k hp2 hfol (by omega)
    rw [← htok1] at hj
    rw [← htok2] at hj2 hl2
    have hpre2 : (pre ++ f.toks.map Tok.toToken ++ [Tok.AND.toToken]).length = j + 1 := by
      rw [hjx]
      simp only [List.length_append, List.length_singleton]
    rw [hpre2] at hj2 hl2
    refine ⟨j2, plan_operator k .planLogicalAnd .planComparator rfl _ _ _ _ _ _
      Tok.AND.toToken "&&" .AND hj hget rfl rfl (by decide) hj2, ?_⟩
    have hlen : ((Sentence.and f t).toks.map Tok.toToken).length
        = ((f.toks.map Tok.toToken).length + 1) + (t.toks.map Tok.toToken).length := by
      simp only [Sentence.toks, List.length_append, List.length_map, List.length_cons]
      omega
    rw [hlen]
    apply lands_shift
    rw [hjx] at hl2
    rw [← Nat.add_assoc]
    exact hl2
  | _, .term t, hin, pre, post, fuel, hplain, hfol, hfuel => by
    have hin2 : ['i', 'n'] ∉ t.idents := by simpa [Sentence.idents] using hin
    simp only [Sentence.depth] at hfuel
    obtain ⟨k, rfl⟩ : ∃ k, fuel = k + 1 := ⟨fuel - 1, by omega⟩
    simp only [Sentence.toks, Sentence.stage, entry] at hplain ⊢
    obtain ⟨j, hj, hl⟩ := plan_sentence t hin2 pre post k hplain
      (by
        intro x hx
        right
        exact hfol x hx) (by omega)
    have hno := noOperator_after t hin2 pre post j hl .planLogicalOr rfl
      (by
        intro x hx
        left
        rw [hfol x hx]
        decide)
    refine ⟨_, plan_stop k .planLogicalOr .planLogicalAnd rfl _ _ _ _ hj hno, ?_⟩
    refine lands_settle hl ?_ ?_
    · simp only [List.length_append]
      omega
    · rw [List.length_map]
      exact List.length_pos.mpr t.toks_ne_nil
  | _, .or t e, hin, pre, post, fuel, hplain, hfol, hfuel => by
    have hin1 : ['i', 'n'] ∉ t.idents := by
      intro h; exact hin (by simp [Sentence.idents, h])
    have hin2 : ['i', 'n'] ∉ e.idents := by
      intro h; exact hin (by simp [Sentence.idents, h])
    simp only [Sentence.depth] at hfuel
    obtain ⟨k, rfl⟩ : ∃ k, fuel = k + 1 := ⟨fuel - 1, by omega⟩
    have htok1 : pre ++ (Sentence.or t e).toks.map Tok.toToken ++ post
        = pre ++ t.toks.map Tok.toToken
          ++ (Tok.OR.toToken :: (e.toks.map Tok.toToken ++ post)) := by
      simp [Sentence.toks]
    have htok2 : pre ++ (Sentence.or t e).toks.map Tok.toToken ++ post
        = (pre ++ t.toks.map Tok.toToken ++ [Tok.OR.toToken]) ++ e.toks.map Tok.toToken
          ++ post := by
      simp [Sentence.toks]
    have hp1 := hplain
    rw [htok1] at hp1
    have hp2 := hplain
    rw [htok2] at hp2
    obtain ⟨j, hj, hl⟩ := plan_sentence t hin1 pre _ k hp1
      (by intro x hx; simp at hx; subst hx; left; rfl) (by omega)
    have hjx : j = pre.length + (t.toks.map Tok.toToken).length :=
      lands_exact hl (by
        simp only [List.length_append, List.length_map, List.length_cons]
        omega)
    have hget : (pre ++ (Sentence.or t e).toks.map Tok.toToken ++ post).get? j
        = some Tok.OR.toToken := by
      rw [htok1, hjx, get?_post_head]
      rfl
    obtain ⟨j2, hj2, hl2⟩ := plan_sentence e hin2 _ post k hp2 hfol (by omega)
    rw [← htok1] at hj
    rw [← htok2] at hj2 hl2
    have hpre2 : (pre ++ t.toks.map Tok.toToken ++ [Tok.OR.toToken]).length = j + 1 := by
      rw [hjx]
      simp only [List.length_append, List.length_singleton]
    rw [hpre2] at hj2 hl2
    refine ⟨j2, plan_operator k .planLogicalOr .planLogicalAnd rfl _ _ _ _ _ _
      Tok.OR.toToken "||" .OR hj hget rfl rfl (by decide) hj2, ?_⟩
    have hlen : ((Sentence.or t e).toks.map Tok.toToken).length
        = ((t.toks.map Tok.toToken).length + 1) + (e.toks.map Tok.toToken).length := by
      simp only [Sentence.toks, List.length_append, List.length_map, List.length_cons]
      omega
    rw [hlen]
    apply lands_shift
    rw [hjx] at hl2
    rw [← Nat.add_assoc]
    exact hl2

theorem Sentence.depth_le : ∀ {l : Level} (x : Sentence l),
    x.depth + (match l with | .factor => 4 | .term => 3 | .expression => 2) ≤ 12 * x.toks.length
  | _, .ident _ => by simp [Sentence.depth, Sentence.toks]
  | _, .paren e => by
    have := e.depth_le
    simp only [Sentence.depth, Sentence.toks, List.length_cons, List.length_append,
      List.length_nil] at this ⊢
    omega
  | _, .factor f => by
    have := f.depth_le
    simp only [Sentence.depth, Sentence.toks] at this ⊢
    omega
  | _, .and f t => by
    have h1 := f.depth_le
    have h2 := t.depth_le
    simp only [Sentence.depth, Sentence.toks, List.length_cons, List.length_append] at h1 h2 ⊢
    omega
  | _, .term t => by
    have := t.depth_le
    simp only [Sentence.depth, Sentence.toks] at this ⊢
    omega
  | _, .or t e => by
    have h1 := t.depth_le
    have h2 := e.depth_le
    simp only [Sentence.depth, Sentence.toks, List.length_cons, List.length_append] at h1 h2 ⊢
    omega

theorem Sentence.toks_plain {l : Level} (x : Sentence l) (hin : ['i', 'n'] ∉ x.idents) :
    ∀ t ∈ x.toks.map Tok.toToken, PlainKind t.Kind := by
  intro t ht
  rw [List.mem_map] at ht
  obtain ⟨tok, hm, rfl⟩ := ht
  cases tok with
  | ident name =>
    have hne : name ≠ ['i', 'n'] := by
      rintro rfl
      exact hin ((x.mem_toks_ident _).mp hm)
    rcases toToken_ident_cases name hne with h | ⟨b, h⟩
    · rw [h]; exact Or.inl rfl
    · rw [h]; exact Or.inr (Or.inl rfl)
  | AND => exact Or.inr (Or.inr (Or.inr (Or.inr rfl)))
  | OR => exact Or.inr (Or.inr (Or.inr (Or.inr rfl)))
  | lparen => exact Or.inr (Or.inr (Or.inl rfl))
  | rparen => exact Or.inr (Or.inr (Or.inr (Or.inl rfl)))

/-- `planTokens` plans the stage of a parse tree from its tokens. -/
theorem planTokens_sentence (e : Sentence .expression) (hin : ['i', 'n'] ∉ e.idents) :
    planTokens (e.toks.map Tok.toToken) = .ok e.stage := by
  have hplain : ∀ t ∈ [] ++ e.toks.map Tok.toToken ++ [], PlainKind t.Kind := by
    simpa using e.toks_plain hin
  have hd := e.depth_le
  simp only at hd
  obtain ⟨k, hk⟩ : ∃ k, 14 * ((e.toks.map Tok.toToken).length + 1) = k + 2 :=
    ⟨14 * ((e.toks.map Tok.toToken).length + 1) - 2, by omega⟩
  have hkd : e.depth ≤ k := by
    rw [List.length_map] at hk
    omega
  obtain ⟨j, hj, hl⟩ := plan_sentence e hin [] [] k hplain (by intro t ht; simp at ht) hkd
  simp only [List.nil_append, List.append_nil, List.length_nil, entry] at hj hplain
  have h1 := plan_stop k .planTernary .planLogicalOr rfl _ _ _ _ hj
    (noOperator_of_plain _ _ _ hplain (by decide) (by decide))
  have h2 := plan_stop (k + 1) .planSeparator .planTernary rfl _ _ _ _ h1
    (noOperator_of_plain _ _ _ hplain (by decide) (by decide))
  unfold planTokens
  have hne : (e.toks.map Tok.toToken).isEmpty = false := by
    have := e.toks_ne_nil
    cases h : e.toks with
    | nil => exact absurd h this
    | cons _ _ => rfl
  rw [hne, hk, h2]
  rfl

/-! ## Lemmas on evaluation -/

theorem evaluateStage_inert (m : MapParameters) {s : evaluationStage} (h : Inert s) :
    evaluateStage m s = .ok .nil := by
  induction h with
  | nil => rfl
  | noop _ _ ihl ihr =>
    rw [evaluateStage, ihl]
    simp [ihr, typeCheckFailure, applyOperator]

theorem evaluateStage_evals (m : MapParameters) {s : evaluationStage} {b : Bool}
    (h : Evals m s b) : evaluateStage m s = .ok (.bool b) := by
  induction h with
  | value hm =>
    rw [evaluateStage]
    simp [evaluateStage, typeCheckFailure, hm]
  | literal =>
    rw [evaluateStage]
    simp [evaluateStage, typeCheckFailure]
  | noop hl _ ih =>
    rw [evaluateStage, evaluateStage_inert m hl]
    simp [ih, typeCheckFailure, applyOperator]
  | @and l r a b _ _ ihl ihr =>
    rw [evaluateStage, ihl]
    cases a with
    | false => simp
    | true => simp [ihr, typeCheckFailure, isBool, applyOperator]
  | @or l r a b _ _ ihl ihr =>
    rw [evaluateStage, ihl]
    cases a with
    | true => simp
    | false => simp [ihr, typeCheckFailure, isBool, applyOperator]

theorem reorderWalk_inert {s : evaluationStage} (h : Inert s) :
    Inert (reorderWalk none s)
      ∧ ∀ acc, Inert acc → Inert (reorderWalk (some (acc, .NOOP, .nil)) s) := by
  induction h with
  | nil =>
    refine ⟨Inert.nil, ?_⟩
    intro acc hacc
    exact Inert.noop hacc Inert.nil
  | @noop l r _ _ ihl ihr =>
    refine ⟨?_, ?_⟩
    · rw [reorderWalk]
      exact ihr.2 _ ihl.1
    · intro acc hacc
      rw [reorderWalk]
      simp only [if_true]
      exact ihr.2 _ (Inert.noop hacc ihl.1)

/-- `reorderStages` keeps the boolean a stage stands for. -/
theorem reorderWalk_evals (m : MapParameters) {s : evaluationStage} {b : Bool}
    (h : Evals m s b) :
    Evals m (reorderWalk none s) b
      ∧ (∀ acc a, Evals m acc a → Evals m (reorderWalk (some (acc, .AND, .nil)) s) (a && b))
      ∧ (∀ acc a, Evals m acc a → Evals m (reorderWalk (some (acc, .OR, .nil)) s) (a || b))
      ∧ (∀ acc, Inert acc → Evals m (reorderWalk (some (acc, .NOOP, .nil)) s) b) := by
  induction h with
  | @value name b hm =>
    have hs : Evals m (.stage .VALUE .nil .nil (.str name)) b := Evals.value hm
    refine ⟨?_, ?_, ?_, ?_⟩
    · simpa [reorderWalk] using hs
    · intro acc a ha
      simpa [reorderWalk, findOperatorPrecedenceForSymbol] using Evals.and ha hs
    · intro acc a ha
      simpa [reorderWalk, findOperatorPrecedenceForSymbol] using Evals.or ha hs
    · intro acc ha
      simpa [reorderWalk, findOperatorPrecedenceForSymbol] using Evals.noop ha hs
  | @literal b =>
    have hs : Evals m (.stage .LITERAL .nil .nil (.bool b)) b := Evals.literal
    refine ⟨?_, ?_, ?_, ?_⟩
    · simpa [reorderWalk] using hs
    · intro acc a ha
      simpa [reorderWalk, findOperatorPrecedenceForSymbol] using Evals.and ha hs
    · intro acc a ha
      simpa [reorderWalk, findOperatorPrecedenceForSymbol] using Evals.or ha hs
    · intro acc ha
      simpa [reorderWalk, findOperatorPrecedenceForSymbol] using Evals.noop ha hs
  | @noop l r b hl _ ih =>
    have hl2 := (reorderWalk_inert hl).1
    refine ⟨?_, ?_, ?_, ?_⟩
    · rw [reorderWalk]
      exact ih.2.2.2 _ hl2
    · intro acc a ha
      rw [reorderWalk]
      simp only [findOperatorPrecedenceForSymbol, reduceCtorEq, if_false]
      exact Evals.and ha (ih.2.2.2 _ hl2)
    · intro acc a ha
      rw [reorderWalk]
      simp only [findOperatorPrecedenceForSymbol, reduceCtorEq, if_false]
      exact Evals.or ha (ih.2.2.2 _ hl2)
    · intro acc ha
      rw [reorderWalk]
      simp only [if_true]
      exact ih.2.2.2 _ (Inert.noop ha hl2)
  | @and l r a b _ _ ihl ihr =>
    refine ⟨?_, ?_, ?_, ?_⟩
    · rw [reorderWalk]
      exact ihr.2.1 _ _ ihl.1
    · intro acc c hc
      rw [reorderWalk]
      simp only [if_true]
      have := ihr.2.1 _ _ (Evals.and hc ihl.1)
      rw [Bool.and_assoc] at this
      exact this
    · intro acc c hc
      rw [reorderWalk]
      simp only [findOperatorPrecedenceForSymbol, reduceCtorEq, if_false]
      exact Evals.or hc (ihr.2.1 _ _ ihl.1)
    · intro acc hacc
      rw [reorderWalk]
      simp only [findOperatorPrecedenceForSymbol, reduceCtorEq, if_false]
      exact Evals.noop hacc (ihr.2.1 _ _ ihl.1)
  | @or l r a b _ _ ihl ihr =>
    refine ⟨?_, ?_, ?_, ?_⟩
    · rw [reorderWalk]
      exact ihr.2.2.1 _ _ ihl.1
    · intro acc c hc
      rw [reorderWalk]
      simp only [findOperatorPrecedenceForSymbol, reduceCtorEq, if_false]
      exact Evals.and hc (ihr.2.2.1 _ _ ihl.1)
    · intro acc c hc
      rw [reorderWalk]
      simp only [if_true]
      have := ihr.2.2.1 _ _ (Evals.or hc ihl.1)
      rw [Bool.or_assoc] at this
      exact this
    · intro acc hacc
      rw [reorderWalk]
      simp only [findOperatorPrecedenceForSymbol, reduceCtorEq, if_false]
      exact Evals.noop hacc (ihr.2.2.1 _ _ ihl.1)

theorem elideLiterals_inert {s : evaluationStage} (h : Inert s) : elideLiterals s = .ok s := by
  induction h with
  | nil => rfl
  | @noop l r hl _ ihl ihr =>
    rw [elideLiterals, ihl, ihr]
    cases hl <;> rfl

theorem elideStage_and (m : MapParameters) {l r : evaluationStage} {a b : Bool}
    (hl : Evals m l a) (hr : Evals m r b) :
    ∃ s, elideStage (.stage .AND l r .nil) = .ok s ∧ Evals m s (a && b) := by
  have hl0 := hl
  have hr0 := hr
  cases hl <;> cases hr <;> first
    | exact ⟨_, rfl, Evals.literal⟩
    | exact ⟨_, rfl, Evals.and hl0 hr0⟩

theorem elideStage_or (m : MapParameters) {l r : evaluationStage} {a b : Bool}
    (hl : Evals m l a) (hr : Evals m r b) :
    ∃ s, elideStage (.stage .OR l r .nil) = .ok s ∧ Evals m s (a || b) := by
  have hl0 := hl
  have hr0 := hr
  cases hl <;> cases hr <;> first
    | exact ⟨_, rfl, Evals.literal⟩
    | exact ⟨_, rfl, Evals.or hl0 hr0⟩

/-- `elideLiterals` succeeds and keeps the boolean a stage stands for. -/
theorem elideLiterals_evals (m : MapParameters) {s : evaluationStage} {b : Bool}
    (h : Evals m s b) : ∃ s2, elideLiterals s = .ok s2 ∧ Evals m s2 b := by
  induction h with
  | @value name b hm => exact ⟨_, rfl, Evals.value hm⟩
  | @literal b => exact ⟨_, rfl, Evals.literal⟩
  | @noop l r b hl _ ih =>
    obtain ⟨r2, hr2, he⟩ := ih
    refine ⟨.stage .NOOP l r2 .nil, ?_, Evals.noop hl he⟩
    rw [elideLiterals, elideLiterals_inert hl, hr2]
    cases hl <;> rfl
  | @and l r a b _ _ ihl ihr =>
    obtain ⟨l2, hl2, hel⟩ := ihl
    obtain ⟨r2, hr2, her⟩ := ihr
    obtain ⟨s, hs, hes⟩ := elideStage_and m hel her
    exact ⟨s, by rw [elideLiterals, hl2, hr2]; exact hs, hes⟩
  | @or l r a b _ _ ihl ihr =>
    obtain ⟨l2, hl2, hel⟩ := ihl
    obtain ⟨r2, hr2, her⟩ := ihr
    obtain ⟨s, hs, hes⟩ := elideStage_or m hel her
    exact ⟨s, by rw [elideLiterals, hl2, hr2]; exact hs, hes⟩

theorem evals_ne_nil {m : MapParameters} {s : evaluationStage} {b : Bool} (h : Evals m s b) :
    s ≠ .nil := by
  cases h <;> simp

theorem parenBalance_append (a b : List ExpressionToken) :
    parenBalance (a ++ b) = parenBalance a + parenBalance b := by
  induction a with
  | nil => simp [parenBalance]
  | cons t ts ih =>
    rw [List.cons_append, parenBalance, parenBalance, ih]
    omega

theorem toToken_ident_kind (name : List Char) :
    (Tok.ident name).toToken.Kind ≠ .CLAUSE ∧ (Tok.ident name).toToken.Kind ≠ .CLAUSE_CLOSE := by
  simp only [Tok.toToken]
  split
  · exact ⟨by decide, by decide⟩
  · split
    · exact ⟨by decide, by decide⟩
    · split <;> exact ⟨by simp, by simp⟩

theorem Sentence.parenBalance_toks : ∀ {l : Level} (x : Sentence l),
    parenBalance (x.toks.map Tok.toToken) = 0
  | _, .ident name => by
    have := toToken_ident_kind name
    simp [Sentence.toks, parenBalance, this.1, this.2]
  | _, .paren e => by
    have := e.parenBalance_toks
    simp only [Sentence.toks, List.map_cons, List.map_append, List.map_nil, parenBalance,
      parenBalance_append, this]
    simp [Tok.toToken]
  | _, .factor f => by simpa [Sentence.toks] using f.parenBalance_toks
  | _, .and f t => by
    have h1 := f.parenBalance_toks
    have h2 := t.parenBalance_toks
    simp only [Sentence.toks, List.map_cons, List.map_append, parenBalance,
      parenBalance_append, h1, h2]
    simp [Tok.toToken]
  | _, .term t => by simpa [Sentence.toks] using t.parenBalance_toks
  | _, .or t e => by
    have h1 := t.parenBalance_toks
    have h2 := e.parenBalance_toks
    simp only [Sentence.toks, List.map_cons, List.map_append, parenBalance,
      parenBalance_append, h1, h2]
    simp [Tok.toToken]

theorem string_mk_eq_iff (name : List Char) (s : String) : String.mk name = s ↔ name = s.data := by
  constructor
  · intro h
    rw [← h]
  · intro h
    rw [h]

/-- The planned stage of a parse tree stands for the value of the tree. -/
theorem Sentence.stage_evals (parameters : Parameters) : ∀ {l : Level} (x : Sentence l),
    ['i', 'n'] ∉ x.idents →
    (∀ name ∈ x.idents, name ∉ reservedWords → parameters.get? (String.mk name) ≠ none) →
    Evals (paramsToEvaluate parameters) x.stage (x.value (libReading parameters))
  | _, .ident name, hin, hb => by
    have hne : name ≠ ['i', 'n'] := by
      rintro rfl
      exact hin (by simp [Sentence.idents])
    have hin2 : ¬ String.mk name = "in" := by
      rw [string_mk_eq_iff]
      exact hne
    simp only [Sentence.stage, Sentence.value, Tok.toToken, libReading]
    by_cases h1 : name = ['t', 'r', 'u', 'e']
    · subst h1
      exact Evals.literal
    · have h1s : ¬ String.mk name = "true" := by
        rw [string_mk_eq_iff]
        exact h1
      by_cases h2 : name = ['f', 'a', 'l', 's', 'e']
      · subst h2
        exact Evals.literal
      · have h2s : ¬ String.mk name = "false" := by
          rw [string_mk_eq_iff]
          exact h2
        simp only [h1, h2, h1s, h2s, hin2, if_false, if_true]
        have hres : name ∉ reservedWords := by
          simp [reservedWords, h1, h2, hne]
        have hbound := hb name (by simp [Sentence.idents]) hres
        cases hg : parameters.get? (String.mk name) with
        | none => exact absurd hg hbound
        | some v =>
          have : reading parameters name = decide (v > 0) := by
            simp [reading, hg]
          rw [this]
          exact Evals.value (by simp [paramsToEvaluate, hg])
  | _, .paren e, hin, hb => by
    have hin2 : ['i', 'n'] ∉ e.idents := by simpa [Sentence.idents] using hin
    exact Evals.noop Inert.nil (Sentence.stage_evals parameters e hin2
      (fun n hn => hb n (by simpa [Sentence.idents] using hn)))
  | _, .factor f, hin, hb => by
    have hin2 : ['i', 'n'] ∉ f.idents := by simpa [Sentence.idents] using hin
    exact Sentence.stage_evals parameters f hin2
      (fun n hn => hb n (by simpa [Sentence.idents] using hn))
  | _, .and f t, hin, hb => by
    have hin1 : ['i', 'n'] ∉ f.idents := by
      intro h; exact hin (by simp [Sentence.idents, h])
    have hin2 : ['i', 'n'] ∉ t.idents := by
      intro h; exact hin (by simp [Sentence.idents, h])
    exact Evals.and
      (Sentence.stage_evals parameters f hin1 (fun n hn => hb n (by simp [Sentence.idents, hn])))
      (Sentence.stage_evals parameters t hin2 (fun n hn => hb n (by simp [Sentence.idents, hn])))
  | _, .term t, hin, hb => by
    have hin2 : ['i', 'n'] ∉ t.idents := by simpa [Sentence.idents] using hin
    exact Sentence.stage_evals parameters t hin2
      (fun n hn => hb n (by simpa [Sentence.idents] using hn))
  | _, .or t e, hin, hb => by
    have hin1 : ['i', 'n'] ∉ t.idents := by
      intro h; exact hin (by simp [Sentence.idents, h])
    have hin2 : ['i', 'n'] ∉ e.idents := by
      intro h; exact hin (by simp [Sentence.idents, h])
    exact Evals.or
      (Sentence.stage_evals parameters t hin1 (fun n hn => hb n (by simp [Sentence.idents, hn])))
      (Sentence.stage_evals parameters e hin2 (fun n hn => hb n (by simp [Sentence.idents, hn])))

/-! ## The library on the sentences of the grammar -/

/-- The tokens the library reads for an expression written out. -/
theorem parseTokens_written (lead : List Char) (w : Written) (hlead : IsWhite lead)
    (hw : WellWritten w) :
    parseTokensLoop ((lead ++ render Tok.textLib w).length + 1) .UNKNOWN
        (lead ++ render Tok.textLib w)
      = .ok ((w.map Prod.fst).map Tok.toToken) := by
  rw [parseTokensLoop_written w hw lead hlead _ _ (Nat.lt_succ_self _)]
  simp [List.map_map, Function.comp_def]

/-- `NewEvaluableExpression` on the tokens of a parse tree: the expression it
builds stands for the value of the tree. -/
theorem NewEvaluableExpression_sentence (text : String) (e : Sentence .expression)
    (parameters : Parameters) (hin : ['i', 'n'] ∉ e.idents)
    (hb : ∀ name ∈ e.idents, name ∉ reservedWords → parameters.get? (String.mk name) ≠ none)
    (htok : parseTokensLoop (text.data.length + 1) .UNKNOWN text.data
      = .ok (e.toks.map Tok.toToken)) :
    ∃ exp, NewEvaluableExpression text = .ok exp
      ∧ Evals (paramsToEvaluate parameters) exp.evaluationStages
          (e.value (libReading parameters)) := by
  have hbal : checkBalance (e.toks.map Tok.toToken) = .ok () := by
    simp [checkBalance, e.parenBalance_toks]
  have hparse : parseTokens text = .ok (e.toks.map Tok.toToken) := by
    unfold parseTokens
    rw [htok]
    simp only [hbal]
  have hopt : optimizeTokens (e.toks.map Tok.toToken) = .ok (e.toks.map Tok.toToken) := by
    unfold optimizeTokens
    have : (e.toks.map Tok.toToken).any (fun t => decide (t.Kind = .STRING)) = false := by
      rw [List.any_eq_false]
      intro t ht
      have hp := e.toks_plain hin t ht
      simp only [decide_eq_true_eq]
      intro h
      rw [h] at hp
      simp [PlainKind] at hp
    simp [this]
  have hev := Sentence.stage_evals parameters e hin hb
  have hre := (reorderWalk_evals _ hev).1
  obtain ⟨s2, hs2, he2⟩ := elideLiterals_evals _ hre
  have hplan : planStages (e.toks.map Tok.toToken) = .ok s2 := by
    unfold planStages
    rw [planTokens_sentence e hin]
    have hne := evals_ne_nil hev
    cases hst : e.stage with
    | nil => exact absurd hst hne
    | stage a b c d =>
      simp only
      rw [← hst]
      exact hs2
  refine ⟨⟨e.toks.map Tok.toToken, s2, text⟩, ?_, he2⟩
  unfold NewEvaluableExpression
  rw [hparse]
  simp only [hbal, checkExpressionSyntax_sentence e hin, hopt, hplan]

/-- On an expression of the grammar written out, in which no identifier is
`in` and every identifier other than `true` and `false` is bound,
`EvaluateLogicalExpression` returns the value of the parse tree and no
error. -/
theorem EvaluateLogicalExpression_sentence (s : String) (e : Sentence .expression)
    (parameters : Parameters) (hw : IsWrittenAs s e)
    (hid : ∀ name ∈ e.idents, IsIdentifier name) (hin : ['i', 'n'] ∉ e.idents)
    (hb : ∀ name ∈ e.idents, name ∉ reservedWords → parameters.get? (String.mk name) ≠ none) :
    EvaluateLogicalExpression s parameters
      = .returned (e.value (libReading parameters), none) := by
  obtain ⟨lead, w, hlead, hgaps, hmap, hdata⟩ := hw
  have hs : s = String.mk (lead ++ render Tok.text w) := by
    rw [← hdata]
  have hwf : ∀ tg ∈ w, tg.1.WellFormed := by
    intro tg htg
    apply e.toks_wellFormed hid
    rw [← hmap]
    exact List.mem_map_of_mem _ htg
  have hww : WellWritten w := wellWritten_of_chain w hwf hgaps (hmap ▸ e.toks_chain)
  have hrep := ReplaceAll_render lead w hlead hwf hgaps
  have htok := parseTokens_written lead w hlead hww
  rw [hmap] at htok
  obtain ⟨exp, hexp, hev⟩ := NewEvaluableExpression_sentence
    (String.mk (lead ++ render Tok.textLib w)) e parameters hin hb htok
  unfold EvaluateLogicalExpression
  simp only [hs, hrep, hexp]
  have hne := evals_ne_nil hev
  have heval : exp.Evaluate (paramsToEvaluate parameters)
      = .ok (.bool (e.value (libReading parameters))) := by
    unfold EvaluableExpression.Evaluate
    cases hst : exp.evaluationStages with
    | nil => exact absurd hst hne
    | stage a b c d =>
      simp only
      rw [← hst]
      exact evaluateStage_evals _ hev
  rw [heval]

theorem Sentence.value_congr (env1 env2 : List Char → Bool) : ∀ {l : Level} (x : Sentence l),
    (∀ name ∈ x.idents, env1 name = env2 name) → x.value env1 = x.value env2
  | _, .ident name, h => h name (by simp [Sentence.idents])
  | _, .paren e, h => by
    simpa [Sentence.value] using
      Sentence.value_congr env1 env2 e (fun n hn => h n (by simpa [Sentence.idents] using hn))
  | _, .factor f, h => by
    simpa [Sentence.value] using
      Sentence.value_congr env1 env2 f (fun n hn => h n (by simpa [Sentence.idents] using hn))
  | _, .and f t, h => by
    simp only [Sentence.value]
    rw [Sentence.value_congr env1 env2 f (fun n hn => h n (by simp [Sentence.idents, hn])),
      Sentence.value_congr env1 env2 t (fun n hn => h n (by simp [Sentence.idents, hn]))]
  | _, .term t, h => by
    simpa [Sentence.value] using
      Sentence.value_congr env1 env2 t (fun n hn => h n (by simpa [Sentence.idents] using hn))
  | _, .or t e, h => by
    simp only [Sentence.value]
    rw [Sentence.value_congr env1 env2 t (fun n hn => h n (by simp [Sentence.idents, hn])),
      Sentence.value_congr env1 env2 e (fun n hn => h n (by simp [Sentence.idents, hn]))]

theorem libReading_eq_reading (parameters : Parameters) (name : List Char)
    (h : name ∉ reservedWords) : libReading parameters name = reading parameters name := by
  simp only [reservedWords, List.mem_cons, List.mem_singleton, List.not_mem_nil, or_false,
    not_or] at h
  simp [libReading, h.1, h.2.1]

/-- The same with every identifier read as `m[x] > 0`, when none is a reserved
word. -/
theorem EvaluateLogicalExpression_plain_sentence (s : String) (e : Sentence .expression)
    (parameters : Parameters) (hw : IsWrittenAs s e)
    (hid : ∀ name ∈ e.idents, IsIdentifier name)
    (hres : ∀ name ∈ e.idents, name ∉ reservedWords)
    (hb : ∀ name ∈ e.idents, parameters.get? (String.mk name) ≠ none) :
    EvaluateLogicalExpression s parameters = .returned (e.value (reading parameters), none) := by
  have hin : ['i', 'n'] ∉ e.idents := by
    intro h
    exact hres _ h (by decide)
  rw [EvaluateLogicalExpression_sentence s e parameters hw hid hin (fun n hn _ => hb n hn),
    Sentence.value_congr (libReading parameters) (reading parameters) e
      (fun name hn => libReading_eq_reading parameters name (hres name hn))]


/-! ## C7 -/

theorem paramsToEvaluate_congr (m1 m2 : Parameters)
    (hkeys : ∀ k, (m1.get? k).isSome = (m2.get? k).isSome)
    (hsign : ∀ k v1 v2, m1.get? k = some v1 → m2.get? k = some v2 → (v1 > 0 ↔ v2 > 0)) :
    paramsToEvaluate m1 = paramsToEvaluate m2 := by
  funext k
  unfold paramsToEvaluate
  have h1 := hkeys k
  have h2 := hsign k
  cases h3 : m1.get? k with
  | none =>
    rw [h3] at h1
    cases h4 : m2.get? k with
    | none => rfl
    | some v => rw [h4] at h1; simp at h1
  | some v1 =>
    rw [h3] at h1
    cases h4 : m2.get? k with
    | none => rw [h4] at h1; simp at h1
    | some v2 =>
      have := h2 v1 v2 h3 h4
      simp only [Option.map_some', Option.some.injEq, decide_eq_decide]
      exact this

theorem isWrittenAs_single (name : List Char) :
    IsWrittenAs (String.mk name) (Sentence.single name) :=
  ⟨[], [(.ident name, [])], (fun c hc => by cases hc),
    (fun tg htg c hc => by
      simp only [List.mem_singleton] at htg
      subst htg
      cases hc),
    rfl, by simp [render, Tok.text]⟩

/-- A one-identifier expression with its identifier bound: the result is
`value > 0`. -/
theorem EvaluateLogicalExpression_single (name : List Char) (value : Int)
    (hname : IsIdentifier name) (hres : name ∉ reservedWords) :
    EvaluateLogicalExpression (String.mk name) [(String.mk name, value)]
      = .returned (decide (value > 0), none) := by
  have hid : ∀ n ∈ (Sentence.single name).idents, n = name := by
    intro n hn
    simpa [Sentence.single, Sentence.idents] using hn
  have hget : Parameters.get? [(String.mk name, value)] (String.mk name) = some value := by
    simp [Parameters.get?, List.find?]
  rw [EvaluateLogicalExpression_plain_sentence (String.mk name) (Sentence.single name)
    [(String.mk name, value)] (isWrittenAs_single name)
    (fun n hn => by rw [hid n hn]; exact hname)
    (fun n hn => by rw [hid n hn]; exact hres)
    (fun n hn => by rw [hid n hn, hget]; simp)]
  show Outcome.returned (reading [(String.mk name, value)] name, none) = _
  unfold reading
  rw [hget]

/-- C7: `EvaluateLogicalExpression` reads each supplied integer only through the
test `value > 0`. For two parameters maps with the same keys whose values agree
on being positive, the two calls either both panic, or both return; when they
return, both fail or both succeed, and they return the same boolean. The
value handed to the evaluator for a key is `value > 0`: a one-identifier
expression evaluates to true when its parameter is positive, and to false when
it is zero or negative. -/
theorem C7_integers_are_read_through_positivity (e : String) (m1 m2 : Parameters)
    (hkeys : ∀ k, (m1.get? k).isSome = (m2.get? k).isSome)
    (hsign : ∀ k v1 v2, m1.get? k = some v1 → m2.get? k = some v2 → (v1 > 0 ↔ v2 > 0)) :
    (EvaluateLogicalExpression e m1 = .panicked ↔ EvaluateLogicalExpression e m2 = .panicked)
    ∧ (∀ b1 err1, EvaluateLogicalExpression e m1 = .returned (b1, err1) →
        ∃ err2, EvaluateLogicalExpression e m2 = .returned (b1, err2)
          ∧ err1.isSome = err2.isSome)
    ∧ (∀ k v, m1.get? k = some v → paramsToEvaluate m1 k = some (decide (v > 0)))
    ∧ (∀ (name : List Char) (value : Int), IsIdentifier name → name ∉ reservedWords →
        EvaluateLogicalExpression (String.mk name) [(String.mk name, value)]
          = .returned (decide (value > 0), none))
    ∧ (∀ (name : List Char) (value : Int), IsIdentifier name → name ∉ reservedWords →
        (value > 0 →
          EvaluateLogicalExpression (String.mk name) [(String.mk name, value)]
            = .returned (true, none))
        ∧ (value ≤ 0 →
          EvaluateLogicalExpression (String.mk name) [(String.mk name, value)]
            = .returned (false, none))) := by
  have hp := paramsToEvaluate_congr m1 m2 hkeys hsign
  refine ⟨?_, ?_, ?_, EvaluateLogicalExpression_single, ?_⟩
  · unfold EvaluateLogicalExpression
    simp only [hp]
    cases NewEvaluableExpression (ReplaceAll (ReplaceAll e "AND" "&&") "OR" "||") with
    | error err => simp
    | ok exp =>
      simp only
      cases exp.Evaluate (paramsToEvaluate m2) with
      | error err => simp
      | ok v => cases v <;> simp
  · unfold EvaluateLogicalExpression
    simp only [hp]
    cases NewEvaluableExpression (ReplaceAll (ReplaceAll e "AND" "&&") "OR" "||") with
    | error err => simp
    | ok exp =>
      simp only
      cases exp.Evaluate (paramsToEvaluate m2) with
      | error err => simp
      | ok v => cases v <;> simp
  · intro k v hk
    unfold paramsToEvaluate
    rw [hk]
    rfl
  · intro name value hname hres
    rw [EvaluateLogicalExpression_single name value hname hres]
    constructor
    · intro hpos
      simp [hpos]
    · intro hneg
      have : ¬ value > 0 := not_lt.mpr hneg
      simp [this]

/-- C7 at "x AND z" with the maps x = 2, z = -3 and x = 1, z = 0: both calls
return false without an error; and at "x": true with x = 2, false with x = 0
and with x = -3. -/
theorem C7_witness :
    EvaluateLogicalExpression "x AND z" [("x", 2), ("z", -3)] = .returned (false, none)
    ∧ (∃ err2, EvaluateLogicalExpression "x AND z" [("x", 1), ("z", 0)]
        = .returned (false, err2) ∧ (none : Option EvalError).isSome = err2.isSome)
    ∧ EvaluateLogicalExpression "x" [("x", 2)] = .returned (true, none)
    ∧ EvaluateLogicalExpression "x" [("x", 0)] = .returned (false, none)
    ∧ EvaluateLogicalExpression "x" [("x", -3)] = .returned (false, none) :=
  have h := C7_integers_are_read_through_positivity "x AND z" [("x", 2), ("z", -3)]
      [("x", 1), ("z", 0)]
      (by
        intro k
        by_cases h1 : k = "x"
        · subst h1; decide
        · by_cases h2 : k = "z"
          · subst h2; decide
          · have h3 : ("x" == k) = false := by simpa using fun h => h1 h.symm
            have h4 : ("z" == k) = false := by simpa using fun h => h2 h.symm
            simp [Parameters.get?, List.find?, h3, h4])
      (by
        intro k v1 v2 h1 h2
        by_cases hx : k = "x"
        · subst hx
          simp [Parameters.get?, List.find?] at h1 h2
          subst h1 h2
          decide
        · by_cases hz : k = "z"
          · subst hz
            simp [Parameters.get?, List.find?] at h1 h2
            subst h1 h2
            decide
          · have h3 : ("x" == k) = false := by simpa using fun h => hx h.symm
            have h4 : ("z" == k) = false := by simpa using fun h => hz h.symm
            simp [Parameters.get?, List.find?, h3, h4] at h1)
  ⟨by decide, h.2.1 false none (by decide),
    (h.2.2.2.2 ['x'] 2 (by decide) (by decide)).1 (by decide),
    (h.2.2.2.2 ['x'] 0 (by decide) (by decide)).2 (by decide),
    (h.2.2.2.2 ['x'] (-3) (by decide) (by decide)).2 (by decide)⟩
/-! ## C2 -/

/-- C2 as stated fails at the expression `true` with the map true = 0: the
expression is a sentence of the grammar, the map binds its identifier, the
claimed value is false, and the code returns true. -/
theorem C2_counterexample :
    IsWrittenAs "true" (Sentence.single ['t', 'r', 'u', 'e'])
    ∧ (∀ name ∈ (Sentence.single ['t', 'r', 'u', 'e']).idents, IsIdentifier name)
    ∧ (∀ name ∈ (Sentence.single ['t', 'r', 'u', 'e']).idents,
        Parameters.get? [("true", 0)] (String.mk name) ≠ none)
    ∧ (Sentence.single ['t', 'r', 'u', 'e']).value (reading [("true", 0)]) = false
    ∧ EvaluateLogicalExpression "true" [("true", 0)] = .returned (true, none) := by
  refine ⟨⟨[], [(.ident ['t', 'r', 'u', 'e'], [])], by decide, by decide, rfl, rfl⟩, ?_, ?_,
    by decide, by decide⟩
  · intro name hn
    simp only [Sentence.single, Sentence.idents, List.mem_singleton] at hn
    subst hn
    decide
  · intro name hn
    simp only [Sentence.single, Sentence.idents, List.mem_singleton] at hn
    subst hn
    decide

/-- C2, amended: for every expression `e` of the grammar in which no identifier
is `in`, written out as the string `s`, and every parameters map that binds
every identifier of `e` other than `true` and `false`,
`EvaluateLogicalExpression` returns the Boolean value of the parse tree and no
error, reading `true` and `false` as the two constants, every other
identifier `x` as `m[x] > 0`, AND as conjunction and OR as disjunction. When
no identifier of `e` is `true`, `false` or `in`, this is the value with every
identifier read as `m[x] > 0`. -/
theorem C2_value_of_the_parse_tree (s : String) (e : Sentence .expression)
    (parameters : Parameters) (hw : IsWrittenAs s e)
    (hid : ∀ name ∈ e.idents, IsIdentifier name) (hin : ['i', 'n'] ∉ e.idents)
    (hb : ∀ name ∈ e.idents, name ∉ reservedWords → parameters.get? (String.mk name) ≠ none) :
    EvaluateLogicalExpression s parameters
        = .returned (e.value (libReading parameters), none)
    ∧ ((∀ name ∈ e.idents, name ∉ reservedWords) →
        EvaluateLogicalExpression s parameters
          = .returned (e.value (reading parameters), none)) := by
  have h := EvaluateLogicalExpression_sentence s e parameters hw hid hin hb
  refine ⟨h, ?_⟩
  intro hres
  rw [h, Sentence.value_congr (libReading parameters) (reading parameters) e
    (fun name hn => libReading_eq_reading parameters name (hres name hn))]

/-- C2 at "(x OR y) AND z" with x = 1, y = 0, z = 1: the value is true. -/
theorem C2_witness :
    EvaluateLogicalExpression "(x OR y) AND z" [("x", 1), ("y", 0), ("z", 1)]
      = .returned ((Sentence.parenOrAnd ['x'] ['y'] ['z']).value
          (libReading [("x", 1), ("y", 0), ("z", 1)]), none) :=
  (C2_value_of_the_parse_tree "(x OR y) AND z" (Sentence.parenOrAnd ['x'] ['y'] ['z'])
    [("x", 1), ("y", 0), ("z", 1)]
    ⟨[], [(.lparen, []), (.ident ['x'], [' ']), (.OR, [' ']), (.ident ['y'], []),
        (.rparen, [' ']), (.AND, [' ']), (.ident ['z'], [])],
      by decide, by decide, rfl, rfl⟩
    (by
      intro name hn
      simp only [Sentence.parenOrAnd, Sentence.idents, List.cons_append, List.nil_append,
        List.mem_cons, List.mem_singleton, List.not_mem_nil, or_false] at hn
      rcases hn with rfl | rfl | rfl <;> decide)
    (by decide)
    (by
      intro name hn _
      simp only [Sentence.parenOrAnd, Sentence.idents, List.cons_append, List.nil_append,
        List.mem_cons, List.mem_singleton, List.not_mem_nil, or_false] at hn
      rcases hn with rfl | rfl | rfl <;> decide)).1

/-! ## C8 -/

/-- C8 as stated fails for the identifier `true`: with true = 0, b = 0, c = 0
the claimed value of "true OR b AND c" is A or (B and C) = false, and the code
returns true. -/
theorem C8_counterexample :
    IsIdentifier ['t', 'r', 'u', 'e'] ∧ IsIdentifier ['b'] ∧ IsIdentifier ['c']
    ∧ Parameters.get? [("true", 0), ("b", 0), ("c", 0)] "true" = some 0
    ∧ Parameters.get? [("true", 0), ("b", 0), ("c", 0)] "b" = some 0
    ∧ Parameters.get? [("true", 0), ("b", 0), ("c", 0)] "c" = some 0
    ∧ (reading [("true", 0), ("b", 0), ("c", 0)] ['t', 'r', 'u', 'e']
        || (reading [("true", 0), ("b", 0), ("c", 0)] ['b']
          && reading [("true", 0), ("b", 0), ("c", 0)] ['c'])) = false
    ∧ EvaluateLogicalExpression "true OR b AND c" [("true", 0), ("b", 0), ("c", 0)]
        = .returned (true, none) := by
  decide

theorem isWrittenAs_orAnd (a b c : List Char) :
    IsWrittenAs (String.mk (a ++ [' ', 'O', 'R', ' '] ++ b ++ [' ', 'A', 'N', 'D', ' '] ++ c))
      (Sentence.orAnd a b c) := by
  refine ⟨[], [(.ident a, [' ']), (.OR, [' ']), (.ident b, [' ']), (.AND, [' ']),
    (.ident c, [])], by decide, ?_, rfl, by simp [render, Tok.text]⟩
  intro tg htg
  simp only [List.mem_cons, List.mem_singleton, List.not_mem_nil, or_false] at htg
  rcases htg with rfl | rfl | rfl | rfl | rfl <;> (dsimp only; decide)

theorem isWrittenAs_andOr (a b c : List Char) :
    IsWrittenAs (String.mk (a ++ [' ', 'A', 'N', 'D', ' '] ++ b ++ [' ', 'O', 'R', ' '] ++ c))
      (Sentence.andOr a b c) := by
  refine ⟨[], [(.ident a, [' ']), (.AND, [' ']), (.ident b, [' ']), (.OR, [' ']),
    (.ident c, [])], by decide, ?_, rfl, by simp [render, Tok.text]⟩
  intro tg htg
  simp only [List.mem_cons, List.mem_singleton, List.not_mem_nil, or_false] at htg
  rcases htg with rfl | rfl | rfl | rfl | rfl <;> (dsimp only; decide)

theorem isWrittenAs_parenOrAnd (a b c : List Char) :
    IsWrittenAs (String.mk (['('] ++ a ++ [' ', 'O', 'R', ' '] ++ b
        ++ [')', ' ', 'A', 'N', 'D', ' '] ++ c))
      (Sentence.parenOrAnd a b c) := by
  refine ⟨[], [(.lparen, []), (.ident a, [' ']), (.OR, [' ']), (.ident b, []), (.rparen, [' ']),
    (.AND, [' ']), (.ident c, [])], by decide, ?_, rfl, by simp [render, Tok.text]⟩
  intro tg htg
  simp only [List.mem_cons, List.mem_singleton, List.not_mem_nil, or_false] at htg
  rcases htg with rfl | rfl | rfl | rfl | rfl | rfl | rfl <;> (dsimp only; decide)

/-- C8, amended: AND binds tighter than OR unless parentheses say otherwise.
For all identifiers `a`, `b`, `c` other than `true`, `false` and `in`, and
every map binding them (A, B, C being `m[a] > 0`, `m[b] > 0`, `m[c] > 0`),
`EvaluateLogicalExpression` returns A or (B and C) for "a OR b AND c",
(A and B) or C for "a AND b OR c", and (A or B) and C for "(a OR b) AND c". -/
theorem C8_and_binds_tighter_than_or (a b c : List Char) (parameters : Parameters)
    (ha : IsIdentifier a) (hb : IsIdentifier b) (hc : IsIdentifier c)
    (hra : a ∉ reservedWords) (hrb : b ∉ reservedWords) (hrc : c ∉ reservedWords)
    (hma : parameters.get? (String.mk a) ≠ none) (hmb : parameters.get? (String.mk b) ≠ none)
    (hmc : parameters.get? (String.mk c) ≠ none) :
    EvaluateLogicalExpression (String.mk (a ++ [' ', 'O', 'R', ' '] ++ b
          ++ [' ', 'A', 'N', 'D', ' '] ++ c)) parameters
        = .returned (reading parameters a || (reading parameters b && reading parameters c),
            none)
    ∧ EvaluateLogicalExpression (String.mk (a ++ [' ', 'A', 'N', 'D', ' '] ++ b
          ++ [' ', 'O', 'R', ' '] ++ c)) parameters
        = .returned ((reading parameters a && reading parameters b) || reading parameters c,
            none)
    ∧ EvaluateLogicalExpression (String.mk (['('] ++ a ++ [' ', 'O', 'R', ' '] ++ b
          ++ [')', ' ', 'A', 'N', 'D', ' '] ++ c)) parameters
        = .returned ((reading parameters a || reading parameters b) && reading parameters c,
            none) := by
  have hids : ∀ name, name = a ∨ name = b ∨ name = c →
      IsIdentifier name ∧ name ∉ reservedWords ∧ parameters.get? (String.mk name) ≠ none := by
    rintro name (rfl | rfl | rfl)
    · exact ⟨ha, hra, hma⟩
    · exact ⟨hb, hrb, hmb⟩
    · exact ⟨hc, hrc, hmc⟩
  refine ⟨?_, ?_, ?_⟩
  · have h := EvaluateLogicalExpression_plain_sentence _ (Sentence.orAnd a b c) parameters
      (isWrittenAs_orAnd a b c)
      (fun name hn => (hids name (by simpa [Sentence.orAnd, Sentence.idents] using hn)).1)
      (fun name hn => (hids name (by simpa [Sentence.orAnd, Sentence.idents] using hn)).2.1)
      (fun name hn => (hids name (by simpa [Sentence.orAnd, Sentence.idents] using hn)).2.2)
    simpa [Sentence.orAnd, Sentence.value] using h
  · have h := EvaluateLogicalExpression_plain_sentence _ (Sentence.andOr a b c) parameters
      (isWrittenAs_andOr a b c)
      (fun name hn => (hids name (by simpa [Sentence.andOr, Sentence.idents] using hn)).1)
      (fun name hn => (hids name (by simpa [Sentence.andOr, Sentence.idents] using hn)).2.1)
      (fun name hn => (hids name (by simpa [Sentence.andOr, Sentence.idents] using hn)).2.2)
    simpa [Sentence.andOr, Sentence.value] using h
  · have h := EvaluateLogicalExpression_plain_sentence _ (Sentence.parenOrAnd a b c) parameters
      (isWrittenAs_parenOrAnd a b c)
      (fun name hn => (hids name (by simpa [Sentence.parenOrAnd, Sentence.idents] using hn)).1)
      (fun name hn => (hids name (by simpa [Sentence.parenOrAnd, Sentence.idents] using hn)).2.1)
      (fun name hn => (hids name (by simpa [Sentence.parenOrAnd, Sentence.idents] using hn)).2.2)
    simpa [Sentence.parenOrAnd, Sentence.value] using h

/-- C8 at the identifiers a, b, c with a = 0, b = 1, c = 1. -/
theorem C8_witness :
    EvaluateLogicalExpression (String.mk (['a'] ++ [' ', 'O', 'R', ' '] ++ ['b']
          ++ [' ', 'A', 'N', 'D', ' '] ++ ['c'])) [("a", 0), ("b", 1), ("c", 1)]
        = .returned (reading [("a", 0), ("b", 1), ("c", 1)] ['a']
            || (reading [("a", 0), ("b", 1), ("c", 1)] ['b']
              && reading [("a", 0), ("b", 1), ("c", 1)] ['c']), none)
    ∧ EvaluateLogicalExpression (String.mk (['a'] ++ [' ', 'A', 'N', 'D', ' '] ++ ['b']
          ++ [' ', 'O', 'R', ' '] ++ ['c'])) [("a", 0), ("b", 1), ("c", 1)]
        = .returned ((reading [("a", 0), ("b", 1), ("c", 1)] ['a']
            && reading [("a", 0), ("b", 1), ("c", 1)] ['b'])
              || reading [("a", 0), ("b", 1), ("c", 1)] ['c'], none)
    ∧ EvaluateLogicalExpression (String.mk (['('] ++ ['a'] ++ [' ', 'O', 'R', ' '] ++ ['b']
          ++ [')', ' ', 'A', 'N', 'D', ' '] ++ ['c'])) [("a", 0), ("b", 1), ("c", 1)]
        = .returned ((reading [("a", 0), ("b", 1), ("c", 1)] ['a']
            || reading [("a", 0), ("b", 1), ("c", 1)] ['b'])
              && reading [("a", 0), ("b", 1), ("c", 1)] ['c'], none) :=
  C8_and_binds_tighter_than_or ['a'] ['b'] ['c'] [("a", 0), ("b", 1), ("c", 1)]
    (by decide) (by decide) (by decide) (by decide) (by decide) (by decide)
    (by decide) (by decide) (by decide)

/-! ## The identifiers of a written expression are its parameters -/

theorem isSpace_not_lower {c : Char} (h : isSpace c = true) : isLowerAZ c = false := by
  cases hl : isLowerAZ c with
  | false => rfl
  | true =>
    have := isLowerAZ_not_space hl
    rw [h] at this
    exact absurd this (by simp)

theorem text_head_not_lower (t : Tok) (ht : t.isIdent = false) (d : Char) (tl : List Char)
    (h : t.text = d :: tl) : isLowerAZ d = false := by
  cases t with
  | ident name => simp [Tok.isIdent] at ht
  | AND => simp only [Tok.text, List.cons.injEq] at h; rw [← h.1]; decide
  | OR => simp only [Tok.text, List.cons.injEq] at h; rw [← h.1]; decide
  | lparen => simp only [Tok.text, List.cons.injEq] at h; rw [← h.1]; decide
  | rparen => simp only [Tok.text, List.cons.injEq] at h; rw [← h.1]; decide

theorem text_last_not_lower (t : Tok) (ht : t.isIdent = false) (d : Char) (p1 : List Char)
    (h : t.text = p1 ++ [d]) : isLowerAZ d = false := by
  have hl : t.text.getLast? = some d := by rw [h]; simp
  cases t with
  | ident name => simp [Tok.isIdent] at ht
  | AND => simp [Tok.text] at hl; rw [← hl]; decide
  | OR => simp [Tok.text] at hl; rw [← hl]; decide
  | lparen => simp [Tok.text] at hl; rw [← hl]; decide
  | rparen => simp [Tok.text] at hl; rw [← hl]; decide

theorem Tok.text_ne_nil {t : Tok} (h : t.WellFormed) : t.text ≠ [] := by
  cases t with
  | ident name => exact h.1
  | AND => simp [Tok.text]
  | OR => simp [Tok.text]
  | lparen => simp [Tok.text]
  | rparen => simp [Tok.text]

theorem mayTouch_ident_right {t : Tok} {name : List Char}
    (h : t.mayTouch (.ident name) = true) : t.isIdent = false := by
  cases t <;> simp_all [Tok.mayTouch, Tok.isIdent, Tok.isKeyword]

theorem mayTouch_ident_left {t : Tok} {name : List Char}
    (h : (Tok.ident name).mayTouch t = true) : t.isIdent = false := by
  cases t <;> simp_all [Tok.mayTouch, Tok.isIdent, Tok.isKeyword]

theorem render_head_not_lower (name : List Char) (gap : List Char) (rest : Written)
    (hw : WellWritten ((Tok.ident name, gap) :: rest)) (d : Char) (post1 : List Char)
    (h : gap ++ render Tok.text rest = d :: post1) : isLowerAZ d = false := by
  cases gap with
  | cons c g =>
    simp only [List.cons_append, List.cons.injEq] at h
    rw [← h.1]
    exact isSpace_not_lower (hw.head.2 c (List.mem_cons_self _ _))
  | nil =>
    cases rest with
    | nil => simp [render] at h
    | cons tg r =>
      obtain ⟨t2, g2⟩ := tg
      have htouch := hw.touch
      simp only [ne_eq, not_true_eq_false, false_or] at htouch
      have hne := Tok.text_ne_nil hw.tail.head.1
      simp only [List.nil_append, render, List.append_assoc] at h
      cases ht : t2.text with
      | nil => exact absurd ht hne
      | cons x xs =>
        rw [ht] at h
        simp only [List.cons_append, List.cons.injEq] at h
        rw [← h.1]
        exact text_head_not_lower t2 (mayTouch_ident_left htouch) x xs ht

/-- Every identifier token of a well written expression is a maximal run of
lowercase letters of its text. -/
theorem ident_maximalLowerRun : ∀ (w : Written), WellWritten w → ∀ (pfx : List Char),
    (∀ name gap rest, w = (Tok.ident name, gap) :: rest →
      ∀ p1 d, pfx = p1 ++ [d] → isLowerAZ d = false) →
    ∀ name, Tok.ident name ∈ w.map Prod.fst →
      MaximalLowerRun (pfx ++ render Tok.text w) name := by
  intro w
  induction w with
  | nil =>
    intro _ pfx _ name hmem
    simp at hmem
  | cons tg rest ih =>
    intro hw pfx hpfx name hmem
    obtain ⟨t, gap⟩ := tg
    by_cases ht : t = Tok.ident name
    · subst ht
      have hwf := hw.head.1
      refine ⟨hwf.1, hwf.2, pfx, gap ++ render Tok.text rest, ?_, ?_, ?_⟩
      · simp [render, Tok.text]
      · exact hpfx name gap rest rfl
      · intro d post1 h
        exact render_head_not_lower name gap rest hw d post1 h
    · have hmem2 : Tok.ident name ∈ rest.map Prod.fst := by
        simp only [List.map_cons, List.mem_cons] at hmem
        rcases hmem with h | h
        · exact absurd h.symm ht
        · exact h
      have := ih hw.tail (pfx ++ t.text ++ gap) ?_ name hmem2
      · simpa [render] using this
      · intro n2 g2 r hrest p1 d hp
        subst hrest
        rcases List.eq_nil_or_concat gap with hg | ⟨g0, x, hg⟩
        · subst hg
          have htouch := hw.touch
          simp only [ne_eq, not_true_eq_false, false_or] at htouch
          have hni := mayTouch_ident_right htouch
          rw [List.append_nil] at hp
          rcases List.eq_nil_or_concat t.text with h0 | ⟨q, y, hq⟩
          · exact absurd h0 (Tok.text_ne_nil hw.head.1)
          · rw [List.concat_eq_append] at hq
            rw [hq, ← List.append_assoc] at hp
            have := List.append_inj_right' hp rfl
            simp only [List.cons.injEq, and_true] at this
            rw [← this]
            exact text_last_not_lower t hni y q hq
        · rw [List.concat_eq_append] at hg
          rw [hg, ← List.append_assoc] at hp
          have := List.append_inj_right' hp rfl
          simp only [List.cons.injEq, and_true] at this
          rw [← this]
          exact isSpace_not_lower (hw.head.2 x (by rw [hg]; simp))

theorem written_wellWritten {s : String} {e : Sentence .expression} (hw : IsWrittenAs s e)
    (hid : ∀ name ∈ e.idents, IsIdentifier name) :
    ∃ lead w, IsWhite lead ∧ WellWritten w ∧ w.map Prod.fst = e.toks
      ∧ s.data = lead ++ render Tok.text w := by
  obtain ⟨lead, w, hlead, hgaps, hmap, hdata⟩ := hw
  have hwf : ∀ tg ∈ w, tg.1.WellFormed := by
    intro tg htg
    apply e.toks_wellFormed hid
    rw [← hmap]
    exact List.mem_map_of_mem _ htg
  exact ⟨lead, w, hlead, wellWritten_of_chain w hwf hgaps (hmap ▸ e.toks_chain), hmap, hdata⟩

/-- The identifiers of an expression of the grammar are among the parameters
collected from its text. -/
theorem idents_subset_parameters (s : String) (e : Sentence .expression)
    (hw : IsWrittenAs s e) (hid : ∀ name ∈ e.idents, IsIdentifier name) :
    ∀ name ∈ e.idents, String.mk name ∈ GetLogicalExpressionParameters s := by
  intro name hn
  obtain ⟨lead, w, hlead, hww, hmap, hdata⟩ := written_wellWritten hw hid
  rw [mem_GetLogicalExpressionParameters, hdata]
  apply ident_maximalLowerRun w hww lead
  · intro _ _ _ _ p1 d hp
    exact isSpace_not_lower (hlead d (by rw [hp]; simp))
  · rw [hmap]
    exact (e.mem_toks_ident name).mpr hn

theorem get?_map_zero (keys : List String) (key : String) (h : key ∈ keys) :
    Parameters.get? (keys.map (fun k => (k, (0 : Int)))) key = some 0 := by
  induction keys with
  | nil => simp at h
  | cons k ks ih =>
    unfold Parameters.get?
    simp only [List.map_cons, List.find?_cons]
    by_cases hk : k = key
    · simp [hk]
    · have hk2 : (k == key) = false := by simpa using hk
      simp only [hk2]
      rcases List.mem_cons.mp h with h1 | h1
      · exact absurd h1.symm hk
      · exact ih h1

/-! ## C5 -/

/-- C5 as stated fails at the expression `in`: it is a sentence of the grammar
(one identifier), and it is rejected. -/
theorem C5_counterexample :
    IsWrittenAs "in" (Sentence.single ['i', 'n'])
    ∧ (∀ name ∈ (Sentence.single ['i', 'n']).idents, IsIdentifier name)
    ∧ IsLogicalExpressionValid "in" = .returned false
    ∧ validateExpression "in" = .returned (some .ErrInvalidExpression) := by
  refine ⟨⟨[], [(.ident ['i', 'n'], [])], by decide, by decide, rfl, rfl⟩, ?_, by decide,
    by decide⟩
  intro name hn
  simp only [Sentence.single, Sentence.idents, List.mem_singleton] at hn
  subst hn
  decide

theorem zero_parameters_bind (s : String) (e : Sentence .expression) (hw : IsWrittenAs s e)
    (hid : ∀ name ∈ e.idents, IsIdentifier name) :
    ∀ name ∈ e.idents, name ∉ reservedWords →
      Parameters.get? ((GetLogicalExpressionParameters s).map (fun key => (key, (0 : Int))))
        (String.mk name) ≠ none := by
  intro name hn _
  rw [get?_map_zero _ _ (idents_subset_parameters s e hw hid name hn)]
  simp

/-- C5, amended: every string that is a sentence of the grammar (identifier =
any non-empty string of lowercase letters, tokens separated by white space, or
by nothing where a parenthesis or a keyword meets an identifier) in which no
identifier is `in` is accepted: `IsLogicalExpressionValid` returns true and
`validateExpression` returns nil. -/
theorem C5_sentences_are_accepted (s : String) (e : Sentence .expression)
    (hw : IsWrittenAs s e) (hid : ∀ name ∈ e.idents, IsIdentifier name)
    (hin : ['i', 'n'] ∉ e.idents) :
    IsLogicalExpressionValid s = .returned true
    ∧ validateExpression s = .returned none := by
  have hcore := EvaluateLogicalExpression_sentence s e
    ((GetLogicalExpressionParameters s).map (fun key => (key, (0 : Int)))) hw hid hin
    (zero_parameters_bind s e hw hid)
  have hvalid : IsLogicalExpressionValid s = .returned true := by
    unfold IsLogicalExpressionValid
    simp only [hcore]
    rfl
  refine ⟨hvalid, ?_⟩
  unfold validateExpression
  have hne : s ≠ "" := by
    rintro rfl
    rw [show IsLogicalExpressionValid "" = .returned false by decide] at hvalid
    simp at hvalid
  simp [hne, hvalid]

/-- C5 at the two expressions of the tests. -/
theorem C5_witness :
    (IsLogicalExpressionValid "x AND z" = .returned true
      ∧ validateExpression "x AND z" = .returned none)
    ∧ IsLogicalExpressionValid "(y OR z) AND x OR a AND f" = .returned true :=
  ⟨C5_sentences_are_accepted "x AND z"
      (.term (.and (.ident ['x']) (.factor (.ident ['z']))))
      ⟨[], [(.ident ['x'], [' ']), (.AND, [' ']), (.ident ['z'], [])], by decide, by decide,
        rfl, rfl⟩
      (by
        intro name hn
        simp only [Sentence.idents, List.cons_append, List.nil_append, List.mem_cons,
          List.mem_singleton, List.not_mem_nil, or_false] at hn
        rcases hn with rfl | rfl <;> decide)
      (by decide),
    by decide⟩

/-! ## C4 -/

/-- C4 as stated fails at the expression text "X" with the empty map: every
collected name is a key of the map (none is collected), and the evaluator
fails with its "No parameter" error, also through the service. -/
theorem C4_counterexample :
    (∀ key ∈ GetLogicalExpressionParameters "X", Parameters.get? [] key ≠ none)
    ∧ (∃ exp, EvaluateLogicalExpression "X" []
        = .returned (false, some (.evaluating exp []
            (.message "No parameter \'X\' found."))))
    ∧ (∃ exp, EvaluateExpression (singleRepository "X") () listOrder 1 []
        = .returned ((false, some (.evaluating "X" (.evaluating exp []
            (.message "No parameter \'X\' found.")))), ())) := by
  refine ⟨by decide, ⟨⟨[⟨.VARIABLE, .str "X"⟩], .stage .VALUE .nil .nil (.str "X"), "X"⟩, by decide⟩,
    ⟨⟨[⟨.VARIABLE, .str "X"⟩], .stage .VALUE .nil .nil (.str "X"), "X"⟩, by decide⟩⟩

/-- C4, amended: for every expression `e` of the grammar in which no identifier
is `in`, written out as the text `s`, and every parameters map, if every name
of `GetLogicalExpressionParameters s` is a key of the map, then
`EvaluateLogicalExpression` returns no error, and the service's
`EvaluateExpression` on a repository that returns `s` returns the same boolean
and no error; in particular the evaluator's "No parameter" error does not
occur. -/
theorem C4_bound_parameters_evaluate {σ : Type} (s : String) (e : Sentence .expression)
    (parameters : Parameters) (expressionRepository : ExpressionRepository σ)
    (store store1 : σ) (range : RangeOrder) (ID : Int) (exp : Expression)
    (hw : IsWrittenAs s e) (hid : ∀ name ∈ e.idents, IsIdentifier name)
    (hin : ['i', 'n'] ∉ e.idents)
    (hbound : ∀ key ∈ GetLogicalExpressionParameters s, parameters.get? key ≠ none)
    (hrepo : expressionRepository.GetExpressionByID store ID = (.ok exp, store1))
    (hexp : exp.Value = s) :
    EvaluateLogicalExpression s parameters
        = .returned (e.value (libReading parameters), none)
    ∧ EvaluateExpression expressionRepository store range ID parameters
        = .returned ((e.value (libReading parameters), none), store1) := by
  have hcore := EvaluateLogicalExpression_sentence s e parameters hw hid hin
    (fun name hn _ => hbound _ (idents_subset_parameters s e hw hid name hn))
  refine ⟨hcore, ?_⟩
  unfold EvaluateExpression
  rw [hrepo]
  simp only [hexp]
  have hnone : firstMissing parameters (range.order (GetLogicalExpressionParameters s))
      = none := by
    rw [firstMissing_eq_none_iff]
    intro key hkey
    exact hbound key ((range.perm _).mem_iff.mp hkey)
  rw [hnone]
  simp only [hcore]

/-- C4 at "x AND z" with x = 1, z = 0. -/
theorem C4_witness :
    EvaluateLogicalExpression "x AND z" [("x", 1), ("z", 0)]
        = .returned ((Sentence.term (.and (.ident ['x']) (.factor (.ident ['z'])))).value
            (libReading [("x", 1), ("z", 0)]), none)
    ∧ EvaluateExpression (singleRepository "x AND z") () listOrder 1 [("x", 1), ("z", 0)]
        = .returned (((Sentence.term (.and (.ident ['x']) (.factor (.ident ['z'])))).value
            (libReading [("x", 1), ("z", 0)]), none), ()) :=
  C4_bound_parameters_evaluate "x AND z" (.term (.and (.ident ['x']) (.factor (.ident ['z']))))
    [("x", 1), ("z", 0)] (singleRepository "x AND z") () () listOrder 1 ⟨1, "x AND z"⟩
    ⟨[], [(.ident ['x'], [' ']), (.AND, [' ']), (.ident ['z'], [])], by decide, by decide,
      rfl, rfl⟩
    (by
      intro name hn
      simp only [Sentence.idents, List.cons_append, List.nil_append, List.mem_cons,
        List.mem_singleton, List.not_mem_nil, or_false] at hn
      rcases hn with rfl | rfl <;> decide)
    (by decide) (by decide) rfl rfl

/-! ## C9 -/

theorem count_eq_zero_of_white {gap : List Char} (h : IsWhite gap) (k : Char)
    (hk : isSpace k = false) : gap.count k = 0 := by
  rw [List.count_eq_zero]
  intro hmem
  have := h k hmem
  rw [hk] at this
  exact absurd this (by simp)

theorem count_eq_zero_of_lower {name : List Char} (h : ∀ c ∈ name, isLowerAZ c = true) (k : Char)
    (hk : isLowerAZ k = false) : name.count k = 0 := by
  rw [List.count_eq_zero]
  intro hmem
  have := h k hmem
  rw [hk] at this
  exact absurd this (by simp)

/-- The balance `checkBalance` computes on the tokens of a written expression
is the number of `(` minus the number of `)` in its text. -/
theorem parenBalance_render (w : Written) (hwf : ∀ tg ∈ w, tg.1.WellFormed)
    (hgap : ∀ tg ∈ w, IsWhite tg.2) :
    parenBalance (w.map (fun tg => tg.1.toToken))
      = ((render Tok.text w).count '(' : Int) - ((render Tok.text w).count ')' : Int) := by
  induction w with
  | nil => simp [parenBalance, render]
  | cons tg rest ih =>
    obtain ⟨t, gap⟩ := tg
    have ih2 := ih (fun x hx => hwf x (List.mem_cons_of_mem _ hx))
      (fun x hx => hgap x (List.mem_cons_of_mem _ hx))
    have hg := hgap (t, gap) (List.mem_cons_self _ _)
    have ht := hwf (t, gap) (List.mem_cons_self _ _)
    have g1 := count_eq_zero_of_white hg '(' (by decide)
    have g2 := count_eq_zero_of_white hg ')' (by decide)
    simp only [List.map_cons, parenBalance, render, List.count_append, ih2, g1, g2]
    cases t with
    | ident name =>
      have n1 := count_eq_zero_of_lower ht.2 '(' (by decide)
      have n2 := count_eq_zero_of_lower ht.2 ')' (by decide)
      have hk := toToken_ident_kind name
      simp only [hk.1, hk.2, if_false, Tok.text, n1, n2]
      push_cast
      omega
    | AND =>
      have c1 : (['A', 'N', 'D'] : List Char).count '(' = 0 := by decide
      have c2 : (['A', 'N', 'D'] : List Char).count ')' = 0 := by decide
      simp only [Tok.toToken, Tok.text, c1, c2, reduceCtorEq, if_false]
      push_cast
      omega
    | OR =>
      have c1 : (['O', 'R'] : List Char).count '(' = 0 := by decide
      have c2 : (['O', 'R'] : List Char).count ')' = 0 := by decide
      simp only [Tok.toToken, Tok.text, c1, c2, reduceCtorEq, if_false]
      push_cast
      omega
    | lparen =>
      have c1 : (['('] : List Char).count '(' = 1 := by decide
      have c2 : (['('] : List Char).count ')' = 0 := by decide
      simp only [Tok.toToken, Tok.text, c1, c2, if_true]
      push_cast
      omega
    | rparen =>
      have c1 : ([')'] : List Char).count '(' = 0 := by decide
      have c2 : ([')'] : List Char).count ')' = 1 := by decide
      simp only [Tok.toToken, Tok.text, c1, c2, reduceCtorEq, if_false, if_true]
      push_cast
      omega

theorem WellWritten.wellFormed : ∀ {w : Written}, WellWritten w → ∀ tg ∈ w, tg.1.WellFormed
  | [], _, tg, h => by simp at h
  | (t, gap) :: rest, hw, tg, h => by
    rcases List.mem_cons.mp h with rfl | h1
    · exact hw.head.1
    · exact WellWritten.wellFormed hw.tail tg h1

theorem WellWritten.white : ∀ {w : Written}, WellWritten w → ∀ tg ∈ w, IsWhite tg.2
  | [], _, tg, h => by simp at h
  | (t, gap) :: rest, hw, tg, h => by
    rcases List.mem_cons.mp h with rfl | h1
    · exact hw.head.2
    · exact WellWritten.white hw.tail tg h1

/-- On a well written text, `EvaluateLogicalExpression` hands the library the
text with the keywords replaced, and the library reads its tokens. -/
theorem parseTokensLoop_text (s : String) (lead : List Char) (w : Written)
    (hlead : IsWhite lead) (hww : WellWritten w) (hdata : s.data = lead ++ render Tok.text w) :
    ∃ text, ReplaceAll (ReplaceAll s "AND" "&&") "OR" "||" = text
      ∧ parseTokensLoop (text.data.length + 1) .UNKNOWN text.data
          = .ok (w.map (fun tg => tg.1.toToken)) := by
  have hs : s = String.mk (lead ++ render Tok.text w) := by rw [← hdata]
  refine ⟨String.mk (lead ++ render Tok.textLib w), ?_, ?_⟩
  · rw [hs]
    exact ReplaceAll_render lead w hlead hww.wellFormed hww.white
  · exact parseTokensLoop_written w hww lead hlead _ _ (Nat.lt_succ_self _)

theorem unbalanced_text (s : String) (lead : List Char) (w : Written)
    (hlead : IsWhite lead) (hww : WellWritten w) (hdata : s.data = lead ++ render Tok.text w)
    (hcount : s.data.count '(' ≠ s.data.count ')') (parameters : Parameters) :
    EvaluateLogicalExpression s parameters
      = .returned (false, some (.creating (.message "Unbalanced parenthesis"))) := by
  obtain ⟨text, htext, hloop⟩ := parseTokensLoop_text s lead w hlead hww hdata
  have hbal : parenBalance (w.map (fun tg => tg.1.toToken)) ≠ 0 := by
    rw [parenBalance_render w hww.wellFormed hww.white]
    rw [hdata, List.count_append, List.count_append,
      count_eq_zero_of_white hlead '(' (by decide),
      count_eq_zero_of_white hlead ')' (by decide)] at hcount
    omega
  have hparse : parseTokens text = .error (.message "Unbalanced parenthesis") := by
    unfold parseTokens
    rw [hloop]
    simp [checkBalance, hbal]
  unfold EvaluateLogicalExpression
  simp only [htext]
  unfold NewEvaluableExpression
  rw [hparse]

/-- C9 as stated fails at "(ANDOR": the text is made of a parenthesis and the
two keywords, it has one `(` and no `)`, and the error is not "Unbalanced
parenthesis" but "Invalid token". -/
theorem C9_counterexample :
    ("(ANDOR" : String).data = render Tok.text [(.lparen, []), (.AND, []), (.OR, [])]
    ∧ ("(ANDOR" : String).data.count '(' ≠ ("(ANDOR" : String).data.count ')'
    ∧ EvaluateLogicalExpression "(ANDOR" []
        = .returned (false, some (.creating (.message "Invalid token: \'&&||\'"))) := by
  decide

/-- C9, amended: for every expression string made only of lowercase
identifiers, AND, OR, parentheses and white space, in which two keywords are
never written with nothing between them, and in which the number of `(`
differs from the number of `)`, `EvaluateLogicalExpression` returns false and
the error "error creating evaluable expression: Unbalanced parenthesis" for
every parameters map; `IsLogicalExpressionValid` returns false and
`validateExpression` returns `ErrInvalidExpression`. -/
theorem C9_unbalanced_parentheses_are_rejected (s : String) (lead : List Char) (w : Written)
    (parameters : Parameters) (hlead : IsWhite lead) (hww : WellWritten w)
    (hdata : s.data = lead ++ render Tok.text w)
    (hcount : s.data.count '(' ≠ s.data.count ')') :
    EvaluateLogicalExpression s parameters
        = .returned (false, some (.creating (.message "Unbalanced parenthesis")))
    ∧ IsLogicalExpressionValid s = .returned false
    ∧ validateExpression s = .returned (some .ErrInvalidExpression) := by
  have hvalid : IsLogicalExpressionValid s = .returned false := by
    unfold IsLogicalExpressionValid
    simp only [unbalanced_text s lead w hlead hww hdata hcount]
    rfl
  refine ⟨unbalanced_text s lead w hlead hww hdata hcount parameters, hvalid, ?_⟩
  unfold validateExpression
  have hne : s ≠ "" := by
    rintro rfl
    exact hcount (by decide)
  simp [hne, hvalid]

/-- C9 at "(x AND z" with x = 1. -/
theorem C9_witness :
    EvaluateLogicalExpression "(x AND z" [("x", 1)]
        = .returned (false, some (.creating (.message "Unbalanced parenthesis")))
    ∧ IsLogicalExpressionValid "(x AND z" = .returned false
    ∧ validateExpression "(x AND z" = .returned (some .ErrInvalidExpression) :=
  C9_unbalanced_parentheses_are_rejected "(x AND z" []
    [(.lparen, []), (.ident ['x'], [' ']), (.AND, [' ']), (.ident ['z'], [])] [("x", 1)]
    (by decide)
    (by decide) rfl (by decide)

/-! ## C10 -/

theorem rejected_of_error (value : String) (hne : value ≠ "")
    (h : ∀ parameters, ∃ err,
      EvaluateLogicalExpression value parameters = .returned (false, some err)) :
    Rejected value := by
  have hvalid : IsLogicalExpressionValid value = .returned false := by
    unfold IsLogicalExpressionValid
    obtain ⟨err, herr⟩ := h ((GetLogicalExpressionParameters value).map (fun key => (key, 0)))
    simp only [herr]
    rfl
  have hval : validateExpression value = .returned (some .ErrInvalidExpression) := by
    unfold validateExpression
    simp [hne, hvalid]
  refine ⟨h, hvalid, hval, ?_, ?_⟩
  · intro σ repo store ID
    unfold CreateExpression
    simp only [hval]
  · intro σ repo store ID hID
    unfold UpdateExpression
    simp only [hID, if_false, hval]

theorem creation_error_of_syntax (text : String) (tokens : List ExpressionToken) (e : GvError)
    (hloop : parseTokensLoop (text.data.length + 1) .UNKNOWN text.data = .ok tokens)
    (hsyn : checkExpressionSyntax tokens = .error e) :
    ∃ err, NewEvaluableExpression text = .error err := by
  unfold NewEvaluableExpression parseTokens
  rw [hloop]
  cases hb : checkBalance tokens with
  | error e1 => exact ⟨e1, by simp only [hb]⟩
  | ok u => exact ⟨e, by simp only [hb, hsyn]⟩

theorem checkExpressionSyntaxLoop_last_keyword (K : Tok) (hK : K.isKeyword = true)
    (ts : List ExpressionToken) : ∀ (state : TokenKind) (last : ExpressionToken),
      ∃ e, checkExpressionSyntaxLoop state last (ts ++ [K.toToken]) = .error e := by
  have hkind : K.toToken.Kind = .LOGICALOP := by
    cases K <;> simp_all [Tok.isKeyword, Tok.toToken]
  induction ts with
  | nil =>
    intro state last
    simp only [List.nil_append]
    rw [checkExpressionSyntaxLoop]
    split
    · split <;> exact ⟨_, rfl⟩
    · split
      · exact ⟨_, rfl⟩
      · rw [checkExpressionSyntaxLoop, hkind]
        exact ⟨_, rfl⟩
  | cons t rest ih =>
    intro state last
    rw [List.cons_append, checkExpressionSyntaxLoop]
    split
    · split <;> exact ⟨_, rfl⟩
    · split
      · exact ⟨_, rfl⟩
      · exact ih _ _

theorem checkExpressionSyntax_first_keyword (K : Tok) (hK : K.isKeyword = true)
    (ts : List ExpressionToken) :
    ∃ e, checkExpressionSyntax (K.toToken :: ts) = .error e := by
  have hkind : K.toToken.Kind = .LOGICALOP := by
    cases K <;> simp_all [Tok.isKeyword, Tok.toToken]
  unfold checkExpressionSyntax
  rw [checkExpressionSyntaxLoop, hkind]
  exact ⟨_, rfl⟩

/-- A well written text whose first or last token is a keyword is rejected
when the library creates the expression. -/
theorem keyword_at_an_end (s : String) (lead : List Char) (w : Written)
    (hlead : IsWhite lead) (hww : WellWritten w) (hdata : s.data = lead ++ render Tok.text w)
    (K : Tok) (hK : K.isKeyword = true)
    (hend : (∃ rest, w.map Prod.fst = K :: rest) ∨ (∃ init, w.map Prod.fst = init ++ [K])) :
    Rejected s := by
  obtain ⟨text, htext, hloop⟩ := parseTokensLoop_text s lead w hlead hww hdata
  have hmap : w.map (fun tg => tg.1.toToken) = (w.map Prod.fst).map Tok.toToken := by
    simp [List.map_map, Function.comp_def]
  have hsyn : ∃ e, checkExpressionSyntax (w.map (fun tg => tg.1.toToken)) = .error e := by
    rw [hmap]
    rcases hend with ⟨rest, h⟩ | ⟨init, h⟩
    · rw [h]
      exact checkExpressionSyntax_first_keyword K hK _
    · rw [h, List.map_append]
      exact checkExpressionSyntaxLoop_last_keyword K hK _ _ _
  obtain ⟨e, he⟩ := hsyn
  obtain ⟨err, herr⟩ := creation_error_of_syntax text _ e hloop he
  apply rejected_of_error
  · rintro rfl
    have hnil : lead ++ render Tok.text w = [] := by rw [← hdata]
    have hw0 : w ≠ [] := by
      rintro rfl
      rcases hend with ⟨rest, h⟩ | ⟨init, h⟩ <;> simp at h
    cases w with
    | nil => exact hw0 rfl
    | cons tg r =>
      obtain ⟨t, gap⟩ := tg
      have := Tok.text_ne_nil hww.head.1
      simp only [render, List.append_eq_nil] at hnil
      exact this hnil.2.1.1
  · intro parameters
    refine ⟨.creating err, ?_⟩
    unfold EvaluateLogicalExpression
    simp only [htext, herr]

theorem render_append (text : Tok → List Char) (a b : Written) :
    render text (a ++ b) = render text a ++ render text b := by
  induction a with
  | nil => rfl
  | cons tg r ih =>
    obtain ⟨t, g⟩ := tg
    simp [render, ih]

theorem wellWritten_cons_gap (t : Tok) (gap : List Char) (w : Written) (ht : t.WellFormed)
    (hgap : IsWhite gap) (hne : gap ≠ []) (hw : WellWritten w) :
    WellWritten ((t, gap) :: w) := by
  cases w with
  | nil => exact ⟨ht, hgap⟩
  | cons tg r => exact ⟨ht, hgap, Or.inl hne, hw⟩

theorem wellWritten_snoc_keyword (K : Tok) (hK : K.WellFormed) : ∀ (w0 : Written) (t : Tok)
    (g : List Char), WellWritten (w0 ++ [(t, g)]) →
    WellWritten (w0 ++ [(t, g ++ [' ']), (K, [])])
  | [], t, g, h => by
    refine ⟨h.1, ?_, Or.inl (by simp), hK, by decide⟩
    intro c hc
    rcases List.mem_append.mp hc with h1 | h1
    · exact h.2 c h1
    · simp only [List.mem_singleton] at h1
      subst h1
      decide
  | [(t1, g1)], t, g, h => by
    have ih := wellWritten_snoc_keyword K hK [] t g h.2.2.2
    exact ⟨h.1, h.2.1, h.2.2.1, ih⟩
  | (t1, g1) :: (t2, g2) :: r, t, g, h => by
    have ih := wellWritten_snoc_keyword K hK ((t2, g2) :: r) t g h.2.2.2
    exact ⟨h.1, h.2.1, h.2.2.1, ih⟩

/-- A keyword written before or after an expression of the grammar, one space
apart: the text is rejected. -/
theorem keyword_beside_sentence (s : String) (e : Sentence .expression) (hw : IsWrittenAs s e)
    (hid : ∀ name ∈ e.idents, IsIdentifier name) (K : Tok) (hK : K.isKeyword = true) :
    Rejected (String.mk (K.text ++ ' ' :: s.data))
    ∧ Rejected (String.mk (s.data ++ ' ' :: K.text)) := by
  obtain ⟨lead, w, hlead, hww, hmap, hdata⟩ := written_wellWritten hw hid
  have hKwf : K.WellFormed := by
    cases K <;> simp_all [Tok.isKeyword, Tok.WellFormed]
  constructor
  · apply keyword_at_an_end _ [] ((K, ' ' :: lead) :: w) (by decide)
      (wellWritten_cons_gap K _ w hKwf
        (by
          intro c hc
          rcases List.mem_cons.mp hc with rfl | h1
          · decide
          · exact hlead c h1)
        (by simp) hww)
      (by simp [render, hdata]) K hK
    exact Or.inl ⟨w.map Prod.fst, rfl⟩
  · rcases List.eq_nil_or_concat w with h0 | ⟨w0, tg, hw0⟩
    · exfalso
      rw [h0] at hmap
      exact e.toks_ne_nil hmap.symm
    · obtain ⟨t, g⟩ := tg
      rw [List.concat_eq_append] at hw0
      subst hw0
      apply keyword_at_an_end _ lead (w0 ++ [(t, g ++ [' ']), (K, [])]) hlead
        (wellWritten_snoc_keyword K hKwf w0 t g hww)
        (by simp [render_append, render, hdata]) K hK
      refine Or.inr ⟨(w0 ++ [(t, g ++ [' '])]).map Prod.fst, ?_⟩
      simp

/-- C10: a keyword alone, a keyword before an expression of the grammar and a
keyword after one are rejected (`EvaluateLogicalExpression` returns an error
for every parameters map, `IsLogicalExpressionValid` returns false,
`CreateExpression` and `UpdateExpression` fail with `ErrInvalidExpression`).
The fourth form of the claim is not rejected: "(x AND )" is accepted by
`IsLogicalExpressionValid`, by `validateExpression` and by `CreateExpression`,
and "(x OR )" evaluates to true without an error when x is positive. -/
theorem C10_keyword_without_both_operands (s : String) (e : Sentence .expression)
    (hw : IsWrittenAs s e) (hid : ∀ name ∈ e.idents, IsIdentifier name)
    (K : Tok) (hK : K.isKeyword = true) :
    Rejected (String.mk K.text)
    ∧ Rejected (String.mk (K.text ++ ' ' :: s.data))
    ∧ Rejected (String.mk (s.data ++ ' ' :: K.text))
    ∧ IsLogicalExpressionValid "(x AND )" = .returned true
    ∧ validateExpression "(x AND )" = .returned none
    ∧ EvaluateLogicalExpression "(x AND )" [("x", 0)] = .returned (false, none)
    ∧ EvaluateLogicalExpression "(x OR )" [("x", 1)] = .returned (true, none)
    ∧ CreateExpression (singleRepository "") () ⟨1, "(x AND )"⟩
        = .returned ((some ⟨1, "(x AND )"⟩, none), ()) := by
  have hKwf : K.WellFormed := by
    cases K <;> simp_all [Tok.isKeyword, Tok.WellFormed]
  refine ⟨?_, (keyword_beside_sentence s e hw hid K hK).1,
    (keyword_beside_sentence s e hw hid K hK).2, by decide, by decide, by decide, by decide,
    by decide⟩
  exact keyword_at_an_end _ [] [(K, [])] (by decide) ⟨hKwf, by decide⟩ (by simp [render]) K hK
    (Or.inl ⟨[], rfl⟩)

/-- C10 at the keyword AND and the expression "x": "AND", "AND x" and "x AND"
are rejected. -/
theorem C10_witness :
    Rejected "AND" ∧ Rejected "AND x" ∧ Rejected "x AND" :=
  have h := C10_keyword_without_both_operands "x" (Sentence.single ['x'])
    ⟨[], [(.ident ['x'], [])], by decide, by decide, rfl, rfl⟩
    (by
      intro name hn
      simp only [Sentence.single, Sentence.idents, List.mem_singleton] at hn
      subst hn
      decide)
    .AND rfl
  ⟨h.1, h.2.1, h.2.2.1⟩

/-! ## C6 -/

theorem parseTokensLoop_step (k : Nat) (state : TokenKind) (stream rest : List Char)
    (t : ExpressionToken) (hne : stream ≠ []) (h : readToken state stream = .token t rest) :
    parseTokensLoop (k + 1) state stream =
      match parseTokensLoop k t.Kind rest with
      | .error e => .error e
      | .ok ts => .ok (t :: ts) := by
  rw [parseTokensLoop]
  have : stream.isEmpty = false := by
    cases stream with
    | nil => exact absurd rfl hne
    | cons _ _ => rfl
  simp only [this, Bool.false_eq_true, if_false, h]

theorem readToken_symbol (state : TokenKind) (c : Char) (tl rest : List Char) (kind : TokenKind)
    (hrun : ∀ d ∈ c :: tl, RunChar isNotAlphanumeric (fun _ => false) d)
    (hdot : (c == '.' || c == ',') = false) (hbr : (c == '[') = false)
    (hkind : symbolKind state (String.mk (c :: tl)) = some kind) :
    readToken state (c :: tl ++ ' ' :: rest)
      = .token ⟨kind, .str (String.mk (c :: tl))⟩ rest := by
  have hstop : Stops isNotAlphanumeric (fun _ => false) (' ' :: rest) :=
    stops_white _ _ ' ' rest (by decide) rfl
  have hr := readUntilFalse_run isNotAlphanumeric (fun _ => false) (c :: tl) [] (' ' :: rest)
    hrun hstop (by simp)
  rw [dropSpace_white _ _ (by decide)] at hr
  obtain ⟨h1, h2, h3⟩ := hrun c (List.mem_cons_self _ _)
  simp only [Bool.or_false, Bool.or_eq_false_iff] at h1
  simp only [isNotAlphanumeric, Bool.not_eq_true', Bool.or_eq_false_iff,
    Bool.not_eq_false'] at h3
  obtain ⟨⟨⟨⟨hd, hl⟩, hp1⟩, hp2⟩, hq⟩ := h3
  simp only [Bool.or_eq_false_iff] at hdot
  rw [List.cons_append] at hr ⊢
  rw [readToken]
  simp only [h2, h1.1, h1.2, hd, hl, hp1, hp2, hbr, hq, hdot.1, hdot.2, Bool.or_false,
    Bool.not_true, Bool.false_eq_true, if_false, hr, List.nil_append, hkind]

theorem readToken_arithmetic (state : TokenKind) (op : List Char)
    (hop : op ∈ arithmeticOperators) (hstate : canTransitionTo state .PREFIX = false)
    (rest : List Char) :
    readToken state (op ++ ' ' :: rest) = .token ⟨.MODIFIER, .str (String.mk op)⟩ rest := by
  have hsym2 : ∀ (s : String),
      (["+", "-", "*", "/", "%", "**", "&", "|", "^", ">>", "<<"] : List String).contains s = true →
      symbolKind state s = some .MODIFIER := by
    intro s h2
    simp only [symbolKind, hstate, h2, Bool.false_and, Bool.false_eq_true, if_false, if_true]
  simp only [arithmeticOperators, List.mem_cons, List.mem_singleton, List.not_mem_nil,
    or_false] at hop
  rcases hop with rfl | rfl | rfl | rfl | rfl | rfl
  · exact readToken_symbol state '+' [] rest .MODIFIER
      (by intro d hd; simp at hd; subst hd; exact ⟨by decide, by decide, by decide⟩) (by decide)
      (by decide) (hsym2 _ (by decide))
  · exact readToken_symbol state '-' [] rest .MODIFIER
      (by intro d hd; simp at hd; subst hd; exact ⟨by decide, by decide, by decide⟩) (by decide)
      (by decide) (hsym2 _ (by decide))
  · exact readToken_symbol state '*' [] rest .MODIFIER
      (by intro d hd; simp at hd; subst hd; exact ⟨by decide, by decide, by decide⟩) (by decide)
      (by decide) (hsym2 _ (by decide))
  · exact readToken_symbol state '/' [] rest .MODIFIER
      (by intro d hd; simp at hd; subst hd; exact ⟨by decide, by decide, by decide⟩) (by decide)
      (by decide) (hsym2 _ (by decide))
  · exact readToken_symbol state '%' [] rest .MODIFIER
      (by intro d hd; simp at hd; subst hd; exact ⟨by decide, by decide, by decide⟩) (by decide)
      (by decide) (hsym2 _ (by decide))
  · exact readToken_symbol state '*' ['*'] rest .MODIFIER
      (by intro d hd; simp at hd; subst hd; exact ⟨by decide, by decide, by decide⟩) (by decide)
      (by decide) (hsym2 _ (by decide))

theorem ReplaceAll_plain (l : List Char) (h : ∀ c ∈ l, c ≠ 'A' ∧ c ≠ 'O') :
    ReplaceAll (ReplaceAll (String.mk l) "AND" "&&") "OR" "||" = String.mk l := by
  have h1 : ("AND" : String).data = ['A', 'N', 'D'] := rfl
  have h2 : ("&&" : String).data = ['&', '&'] := rfl
  have h3 : ("OR" : String).data = ['O', 'R'] := rfl
  have h4 : ("||" : String).data = ['|', '|'] := rfl
  have e1 := replaceAllFrom_pass 'A' ['N', 'D'] ['&', '&'] l [] (fun c hc => (h c hc).1)
  have e2 := replaceAllFrom_pass 'O' ['R'] ['|', '|'] l [] (fun c hc => (h c hc).2)
  have e3 : replaceAllFrom ['A', 'N', 'D'] ['&', '&'] 0 [] = [] := rfl
  have e4 : replaceAllFrom ['O', 'R'] ['|', '|'] 0 [] = [] := rfl
  rw [e3, List.append_nil] at e1
  rw [e4, List.append_nil] at e2
  unfold ReplaceAll
  simp only [h1, h2, h3, h4, e1, e2]

theorem arithmetic_ne_upper {op : List Char} (hop : op ∈ arithmeticOperators) :
    ∀ c ∈ op, c ≠ 'A' ∧ c ≠ 'O' := by
  simp only [arithmeticOperators, List.mem_cons, List.mem_singleton, List.not_mem_nil,
    or_false] at hop
  rcases hop with rfl | rfl | rfl | rfl | rfl | rfl <;> decide

theorem toToken_ident_plain (name : List Char) (h : name ∉ reservedWords) :
    (Tok.ident name).toToken = ⟨.VARIABLE, .str (String.mk name)⟩ := by
  simp only [reservedWords, List.mem_cons, List.mem_singleton, List.not_mem_nil, or_false,
    not_or] at h
  have h1 : String.mk name ≠ "true" := fun e => h.1 (by simpa using congrArg String.data e)
  have h2 : String.mk name ≠ "false" := fun e => h.2.1 (by simpa using congrArg String.data e)
  have h3 : String.mk name ≠ "in" := fun e => h.2.2 (by simpa using congrArg String.data e)
  simp only [Tok.toToken, h1, h2, h3, if_false]

theorem parseTokensLoop_arithmetic (a op b : List Char) (ha : IsIdentifier a)
    (hb : IsIdentifier b) (hra : a ∉ reservedWords) (hrb : b ∉ reservedWords)
    (hop : op ∈ arithmeticOperators) :
    parseTokensLoop ((a ++ ' ' :: (op ++ ' ' :: b)).length + 1) .UNKNOWN
        (a ++ ' ' :: (op ++ ' ' :: b))
      = .ok [⟨.VARIABLE, .str (String.mk a)⟩, ⟨.MODIFIER, .str (String.mk op)⟩,
          ⟨.VARIABLE, .str (String.mk b)⟩] := by
  have hane : a ≠ [] := ha.1
  have hbne : b ≠ [] := hb.1
  have r1 : readToken .UNKNOWN (a ++ ' ' :: (op ++ ' ' :: b))
      = .token ⟨.VARIABLE, .str (String.mk a)⟩ (op ++ ' ' :: b) := by
    have := readToken_ident .UNKNOWN a (' ' :: (op ++ ' ' :: b)) ha
      (stops_white _ _ ' ' _ (by decide) rfl)
    rw [toToken_ident_plain a hra, dropSpace_white _ _ (by decide)] at this
    exact this
  have r2 : readToken .VARIABLE (op ++ ' ' :: b)
      = .token ⟨.MODIFIER, .str (String.mk op)⟩ b :=
    readToken_arithmetic .VARIABLE op hop (by decide) b
  have r3 : readToken .MODIFIER b = .token ⟨.VARIABLE, .str (String.mk b)⟩ [] := by
    have := readToken_ident .MODIFIER b [] hb trivial
    rw [toToken_ident_plain b hrb, List.append_nil] at this
    exact this
  have hlen : (a ++ ' ' :: (op ++ ' ' :: b)).length + 1
      = ((a.length + op.length + b.length - 1) + 1 + 1 + 1) + 1 := by
    have := List.length_pos.mpr hbne
    simp only [List.length_append, List.length_cons]
    omega
  rw [hlen, parseTokensLoop_step _ _ _ _ _ (by simp) r1]
  rw [parseTokensLoop_step _ _ _ _ _ (by
    intro h
    have := congrArg List.length h
    simp at this) r2]
  rw [parseTokensLoop_step _ _ _ _ _ hbne r3]
  rfl

theorem NewEvaluableExpression_arithmetic (a op b : List Char) (ha : IsIdentifier a)
    (hb : IsIdentifier b) (hra : a ∉ reservedWords) (hrb : b ∉ reservedWords)
    (hop : op ∈ arithmeticOperators) :
    NewEvaluableExpression (String.mk (a ++ ' ' :: (op ++ ' ' :: b)))
      = .ok ⟨[⟨.VARIABLE, .str (String.mk a)⟩, ⟨.MODIFIER, .str (String.mk op)⟩,
            ⟨.VARIABLE, .str (String.mk b)⟩],
          .stage (arithmeticSymbol op)
            (.stage .VALUE .nil .nil (.str (String.mk a)))
            (.stage .VALUE .nil .nil (.str (String.mk b))) .nil,
          String.mk (a ++ ' ' :: (op ++ ' ' :: b))⟩ := by
  have hloop := parseTokensLoop_arithmetic a op b ha hb hra hrb hop
  unfold NewEvaluableExpression parseTokens
  simp only [hloop]
  simp only [arithmeticOperators, List.mem_cons, List.mem_singleton, List.not_mem_nil,
    or_false] at hop
  rcases hop with rfl | rfl | rfl | rfl | rfl | rfl <;> rfl

theorem evaluateStage_value (m : MapParameters) (name : String) :
    evaluateStage m (.stage .VALUE .nil .nil (.str name))
      = match m name with
        | none => .error (.message ("No parameter \'" ++ name ++ "\' found."))
        | some value => .ok (.bool value) := by
  rfl

theorem evaluateStage_arithmetic (m : MapParameters) (op : List Char)
    (hop : op ∈ arithmeticOperators) (a b : String) :
    ∃ e, evaluateStage m (.stage (arithmeticSymbol op)
            (.stage .VALUE .nil .nil (.str a)) (.stage .VALUE .nil .nil (.str b)) .nil)
          = .error e := by
  have hl := evaluateStage_value m a
  have hr := evaluateStage_value m b
  simp only [arithmeticOperators, List.mem_cons, List.mem_singleton, List.not_mem_nil,
    or_false] at hop
  cases h1 : m a with
  | none =>
    rw [h1] at hl
    refine ⟨.message ("No parameter \'" ++ a ++ "\' found."), ?_⟩
    rw [evaluateStage]
    simp only [hl]
  | some v =>
    rw [h1] at hl
    cases h2 : m b with
    | none =>
      rw [h2] at hr
      refine ⟨.message ("No parameter \'" ++ b ++ "\' found."), ?_⟩
      rw [evaluateStage]
      simp only [hl, hr]
      rcases hop with rfl | rfl | rfl | rfl | rfl | rfl <;> rfl
    | some w =>
      rw [h2] at hr
      refine ⟨.message (typeErrorMessage (arithmeticSymbol op) (.bool v)), ?_⟩
      rw [evaluateStage]
      simp only [hl, hr]
      rcases hop with rfl | rfl | rfl | rfl | rfl | rfl <;> rfl

theorem arithmetic_rejected (a op b : List Char) (ha : IsIdentifier a)
    (hb : IsIdentifier b) (hra : a ∉ reservedWords) (hrb : b ∉ reservedWords)
    (hop : op ∈ arithmeticOperators) :
    Rejected (String.mk (a ++ ' ' :: (op ++ ' ' :: b))) := by
  apply rejected_of_error
  · intro h
    have := congrArg String.length h
    simp [String.length] at this
  · intro parameters
    have hplain : ∀ c ∈ a ++ ' ' :: (op ++ ' ' :: b), c ≠ 'A' ∧ c ≠ 'O' := by
      intro c hc
      simp only [List.mem_append, List.mem_cons] at hc
      rcases hc with h | rfl | h | rfl | h
      · exact ⟨isLowerAZ_ne_upper (ha.2 c h) |>.1, isLowerAZ_ne_upper (ha.2 c h) |>.2⟩
      · decide
      · exact arithmetic_ne_upper hop c h
      · decide
      · exact ⟨isLowerAZ_ne_upper (hb.2 c h) |>.1, isLowerAZ_ne_upper (hb.2 c h) |>.2⟩
    obtain ⟨e, he⟩ := evaluateStage_arithmetic (paramsToEvaluate parameters) op hop
      (String.mk a) (String.mk b)
    unfold EvaluateLogicalExpression
    simp only [ReplaceAll_plain _ hplain, NewEvaluableExpression_arithmetic a op b ha hb hra hrb hop,
      EvaluableExpression.Evaluate, he]
    exact ⟨_, rfl⟩

theorem not_mem_render (k : Char) (hs : isSpace k = false) (hl : isLowerAZ k = false)
    (hk : k ∉ ['A', 'N', 'D', 'O', 'R', '(', ')']) (w : Written)
    (hwf : ∀ tg ∈ w, tg.1.WellFormed) (hgap : ∀ tg ∈ w, IsWhite tg.2) :
    k ∉ render Tok.text w := by
  induction w with
  | nil => simp [render]
  | cons tg rest ih =>
    obtain ⟨t, gap⟩ := tg
    have ih2 := ih (fun x hx => hwf x (List.mem_cons_of_mem _ hx))
      (fun x hx => hgap x (List.mem_cons_of_mem _ hx))
    have hg : k ∉ gap := fun h => by
      have := hgap (t, gap) (List.mem_cons_self _ _) k h
      rw [hs] at this
      exact absurd this (by simp)
    have ht : k ∉ t.text := by
      have hw := hwf (t, gap) (List.mem_cons_self _ _)
      cases t with
      | ident name =>
        intro h
        have := hw.2 k h
        rw [hl] at this
        exact absurd this (by simp)
      | AND => intro h; apply hk; simp only [Tok.text] at h; simp at h ⊢; tauto
      | OR => intro h; apply hk; simp only [Tok.text] at h; simp at h ⊢; tauto
      | lparen => intro h; apply hk; simp only [Tok.text] at h; simp at h ⊢; tauto
      | rparen => intro h; apply hk; simp only [Tok.text] at h; simp at h ⊢; tauto
    simp only [render, List.mem_append, not_or]
    exact ⟨⟨ht, hg⟩, ih2⟩

theorem not_sentence_of_symbol (s : String) (k : Char) (hmem : k ∈ s.data)
    (hs : isSpace k = false) (hl : isLowerAZ k = false)
    (hk : k ∉ ['A', 'N', 'D', 'O', 'R', '(', ')']) :
    ¬ ∃ e : Sentence .expression, IsWrittenAs s e ∧ ∀ name ∈ e.idents, IsIdentifier name := by
  rintro ⟨e, hw, hid⟩
  obtain ⟨lead, w, hlead, hww, _, hdata⟩ := written_wellWritten hw hid
  rw [hdata, List.mem_append] at hmem
  rcases hmem with h | h
  · have := hlead k h
    rw [hs] at this
    exact absurd this (by simp)
  · exact not_mem_render k hs hl hk w hww.wellFormed hww.white h

/-- C6: only boolean expressions are accepted. What holds of the claim: an
arithmetic operator (`+`, `-`, `*`, `/`, `%`, `**`) written between two
lowercase identifiers other than `true`, `false` and `in` is rejected, and
"x + 1" is invalid. What fails: arithmetic is accepted behind an operand that
`||` or `&&` does not read. "true OR x + y" and "x AND y + z" are no sentences
of the AND/OR grammar, `IsLogicalExpressionValid` returns true for both (every
parameter being 0, `x + y` and `y + z` are never evaluated), and the second
fails with an error of the library once `x` is positive. -/
theorem C6_arithmetic_behind_an_operand_not_read (a op b : List Char)
    (ha : IsIdentifier a) (hb : IsIdentifier b)
    (hra : a ∉ reservedWords) (hrb : b ∉ reservedWords) (hop : op ∈ arithmeticOperators) :
    Rejected (String.mk (a ++ ' ' :: (op ++ ' ' :: b)))
    ∧ IsLogicalExpressionValid "x + 1" = .returned false
    ∧ IsLogicalExpressionValid "true OR x + y" = .returned true
    ∧ (¬ ∃ e : Sentence .expression,
        IsWrittenAs "true OR x + y" e ∧ ∀ name ∈ e.idents, IsIdentifier name)
    ∧ IsLogicalExpressionValid "x AND y + z" = .returned true
    ∧ (¬ ∃ e : Sentence .expression,
        IsWrittenAs "x AND y + z" e ∧ ∀ name ∈ e.idents, IsIdentifier name)
    ∧ (∃ err, EvaluateLogicalExpression "x AND y + z" [("x", 1), ("y", 1), ("z", 1)]
        = .returned (false, some err)) :=
  ⟨arithmetic_rejected a op b ha hb hra hrb hop, by decide, by decide,
    not_sentence_of_symbol "true OR x + y" '+' (by decide) (by decide) (by decide) (by decide),
    by decide,
    not_sentence_of_symbol "x AND y + z" '+' (by decide) (by decide) (by decide) (by decide),
    ⟨_, rfl⟩⟩

/-- C6 at the operator `+` between `x` and `y`: "x + y" is rejected. -/
theorem C6_witness : Rejected "x + y" :=
  (C6_arithmetic_behind_an_operand_not_read ['x'] ['+'] ['y']
    (by decide) (by decide) (by decide) (by decide) (by decide)).1

/-! ## Lemmas on validation in the service -/

theorem CreateExpression_of_invalid {σ : Type} (expressionRepository : ExpressionRepository σ)
    (store : σ) (exp : Expression) (err : ServiceError)
    (h : validateExpression exp.Value = .returned (some err)) :
    CreateExpression expressionRepository store exp = .returned ((none, some err), store) := by
  unfold CreateExpression
  rw [h]

theorem UpdateExpression_of_invalid {σ : Type} (expressionRepository : ExpressionRepository σ)
    (store : σ) (exp : Expression) (err : ServiceError) (hID : exp.ID ≠ 0)
    (h : validateExpression exp.Value = .returned (some err)) :
    UpdateExpression expressionRepository store exp = .returned ((none, some err), store) := by
  unfold UpdateExpression
  rw [if_neg hID, h]

theorem UpdateExpression_of_zero {σ : Type} (expressionRepository : ExpressionRepository σ)
    (store : σ) (exp : Expression) (hID : exp.ID = 0) :
    UpdateExpression expressionRepository store exp
      = .returned ((none, some .invalidID), store) := by
  unfold UpdateExpression
  rw [if_pos hID]

theorem validateExpression_error (s : String) (err : ServiceError) (hs : s ≠ "")
    (h : validateExpression s = .returned (some err)) : err = .ErrInvalidExpression := by
  unfold validateExpression at h
  rw [if_neg hs] at h
  cases hv : IsLogicalExpressionValid s with
  | panicked => rw [hv] at h; simp at h
  | returned isValid =>
    rw [hv] at h
    cases isValid with
    | true => simp at h
    | false =>
      simp only [Bool.not_false, if_true, Outcome.returned.injEq, Option.some.injEq] at h
      exact h.symm

/-! ## C11 -/

/-- C11: the empty expression is rejected before any evaluation.
`validateExpression ""` returns the error "value can't be empty"; so
`CreateExpression`, and `UpdateExpression` with a non-zero ID, return a nil
expression together with that error when the value is the empty string, and
leave the store of every repository as it is. -/
theorem C11_empty_expression_is_rejected {σ : Type} (printable : Char → Bool)
    (expressionRepository : ExpressionRepository σ) (store : σ) (ID : Int) (hID : ID ≠ 0) :
    validateExpression "" = .returned (some .valueEmpty)
    ∧ ServiceError.valueEmpty.Error printable = "value can\'t be empty"
    ∧ (∀ anyID, CreateExpression expressionRepository store ⟨anyID, ""⟩
        = .returned ((none, some .valueEmpty), store))
    ∧ UpdateExpression expressionRepository store ⟨ID, ""⟩
        = .returned ((none, some .valueEmpty), store) :=
  ⟨rfl, rfl, fun anyID => CreateExpression_of_invalid expressionRepository store ⟨anyID, ""⟩ _ rfl,
    UpdateExpression_of_invalid expressionRepository store ⟨ID, ""⟩ _ hID rfl⟩

/-- C11 at a repository that counts its calls: with the empty value and the ID
1, `UpdateExpression` returns the error and the count stays 0. -/
theorem C11_witness :
    UpdateExpression countingRepository 0 ⟨1, ""⟩ = .returned ((none, some .valueEmpty), 0) :=
  (C11_empty_expression_is_rejected (fun _ => true) countingRepository 0 1 (by decide)).2.2.2

/-! ## C12 -/

/-- C12 as stated fails at the empty string: `validateExpression ""` returns an
error that is not the sentinel `ErrInvalidExpression` but "value can't be
empty". It fails too at the Update handler with the ID 0, which answers the
invalid value "AND" with 500, the service error being "invalid expression ID
provided". -/
theorem C12_counterexample :
    validateExpression "" = .returned (some .valueEmpty)
    ∧ ServiceError.valueEmpty.Is .ErrInvalidExpression = false
    ∧ ServiceError.valueEmpty.Error (fun _ => true) = "value can\'t be empty"
    ∧ validateExpression "AND" = .returned (some .ErrInvalidExpression)
    ∧ ExpressionHandler.UpdateExpression countingRepository 0 0 "AND"
        = .returned (⟨500, .error "An Internal Server error occurred"⟩, 0) := by
  decide

/-- C12, amended: for every non-empty string `s` for which `validateExpression`
returns an error, that error is the sentinel `ErrInvalidExpression` ("invalid
expression"), whatever the cause; the Create handler, and the Update handler
with a non-zero ID, answer it with 400 "Invalid expression provided" and leave
the store as it is. -/
theorem C12_rejections_are_the_sentinel {σ : Type} (printable : Char → Bool)
    (expressionRepository : ExpressionRepository σ) (store : σ) (expID : Int)
    (s : String) (err : ServiceError) (hs : s ≠ "") (hID : expID ≠ 0)
    (h : validateExpression s = .returned (some err)) :
    err = .ErrInvalidExpression
    ∧ err.Error printable = "invalid expression"
    ∧ ExpressionHandler.CreateExpression expressionRepository store s
        = .returned (⟨400, .error "Invalid expression provided"⟩, store)
    ∧ ExpressionHandler.UpdateExpression expressionRepository store expID s
        = .returned (⟨400, .error "Invalid expression provided"⟩, store) := by
  have herr := validateExpression_error s err hs h
  subst herr
  refine ⟨rfl, rfl, ?_, ?_⟩
  · unfold ExpressionHandler.CreateExpression
    rw [CreateExpression_of_invalid expressionRepository store ⟨0, s⟩ _ h]
    rfl
  · unfold ExpressionHandler.UpdateExpression
    rw [UpdateExpression_of_invalid expressionRepository store ⟨expID, s⟩ _ hID h]
    rfl

/-- C12 at the value "x AND" and the ID 1: the error is the sentinel and both
handlers answer 400. -/
theorem C12_witness :
    ServiceError.ErrInvalidExpression.Error (fun _ => true) = "invalid expression"
    ∧ ExpressionHandler.CreateExpression countingRepository 0 "x AND"
        = .returned (⟨400, .error "Invalid expression provided"⟩, 0)
    ∧ ExpressionHandler.UpdateExpression countingRepository 0 1 "x AND"
        = .returned (⟨400, .error "Invalid expression provided"⟩, 0) :=
  (C12_rejections_are_the_sentinel (fun _ => true) countingRepository 0 1 "x AND"
    .ErrInvalidExpression (by decide) (by decide) (by decide)).2

/-! ## C18 -/

/-- C18 as stated fails at `UpdateExpression` with the ID 0: for the value "AND"
`validateExpression` returns `ErrInvalidExpression`, and `UpdateExpression`
returns not that error but "invalid expression ID provided". -/
theorem C18_counterexample :
    validateExpression "AND" = .returned (some .ErrInvalidExpression)
    ∧ UpdateExpression countingRepository 0 ⟨0, "AND"⟩
        = .returned ((none, some .invalidID), 0)
    ∧ ServiceError.invalidID.Error (fun _ => true) = "invalid expression ID provided" := by
  decide

/-- C18, amended: validation failure is atomic. For every expression value for
which `validateExpression` returns an error, `CreateExpression`, and
`UpdateExpression` with a non-zero ID, return a nil expression and that error;
`UpdateExpression` with the ID 0 returns a nil expression and the error
"invalid expression ID provided". In each case the store of the repository is
the one the call was given: no method of the repository was called. -/
theorem C18_validation_failure_is_atomic {σ : Type}
    (expressionRepository : ExpressionRepository σ) (store : σ) (ID : Int) (value : String)
    (err : ServiceError) (h : validateExpression value = .returned (some err)) :
    CreateExpression expressionRepository store ⟨ID, value⟩
      = .returned ((none, some err), store)
    ∧ (ID ≠ 0 → UpdateExpression expressionRepository store ⟨ID, value⟩
        = .returned ((none, some err), store))
    ∧ UpdateExpression expressionRepository store ⟨0, value⟩
        = .returned ((none, some .invalidID), store) :=
  ⟨CreateExpression_of_invalid expressionRepository store ⟨ID, value⟩ err h,
    fun hID => UpdateExpression_of_invalid expressionRepository store ⟨ID, value⟩ err hID h,
    UpdateExpression_of_zero expressionRepository store ⟨0, value⟩ rfl⟩

/-- C18 at the value "x AND b OR" and a repository that counts its calls: both
calls return `ErrInvalidExpression` and the count stays 0. -/
theorem C18_witness :
    validateExpression "x AND b OR" = .returned (some .ErrInvalidExpression)
    ∧ CreateExpression countingRepository 0 ⟨1, "x AND b OR"⟩
        = .returned ((none, some .ErrInvalidExpression), 0)
    ∧ UpdateExpression countingRepository 0 ⟨1, "x AND b OR"⟩
        = .returned ((none, some .ErrInvalidExpression), 0) :=
  have h := C18_validation_failure_is_atomic countingRepository 0 1 "x AND b OR"
    .ErrInvalidExpression (by decide)
  ⟨by decide, h.1, h.2.1 (by decide)⟩

/-! ## C19 -/

/-- C19 as stated fails at a repository error that is not `ErrNoRowsAffected`:
with the ID 1 and the valid value "x AND y", the repository returns the error
"unexpected error" and `UpdateExpression` returns another error, "error
updating expression ID 1: unexpected error". -/
theorem C19_counterexample :
    validateExpression "x AND y" = .returned none
    ∧ (failingRepository (.other "unexpected error")).UpdateExpression () ⟨1, "x AND y"⟩
        = (.error (.other "unexpected error"), ())
    ∧ UpdateExpression (failingRepository (.other "unexpected error")) () ⟨1, "x AND y"⟩
        = .returned ((none, some (.updating 1 (.other "unexpected error"))), ())
    ∧ (ServiceError.updating 1 (.other "unexpected error")).Error (fun _ => true)
        = "error updating expression ID 1: unexpected error"
    ∧ (RepoError.other "unexpected error").Error = "unexpected error" :=
  ⟨by decide, rfl, by decide, by decide, by decide⟩

/-- C19, amended: `UpdateExpression` with the ID 0 fails with the error
"invalid expression ID provided" for every expression value, whatever
validation would say of it, and leaves the store as it is. With a non-zero ID
and a valid value it calls the repository once and returns the expression the
repository returns, or `ErrNoRowsAffected` as it is, or any other error of the
repository wrapped as "error updating expression ID %d: %w". -/
theorem C19_update_checks_the_id_first {σ : Type} (printable : Char → Bool)
    (expressionRepository : ExpressionRepository σ) (store : σ) (ID : Int) (value : String)
    (hID : ID ≠ 0) (hvalid : validateExpression value = .returned none) :
    (∀ anyValue, UpdateExpression expressionRepository store ⟨0, anyValue⟩
        = .returned ((none, some .invalidID), store))
    ∧ ServiceError.invalidID.Error printable = "invalid expression ID provided"
    ∧ (∀ updatedExp store1,
        expressionRepository.UpdateExpression store ⟨ID, value⟩ = (.ok updatedExp, store1) →
        UpdateExpression expressionRepository store ⟨ID, value⟩
          = .returned ((some updatedExp, none), store1))
    ∧ (∀ store1,
        expressionRepository.UpdateExpression store ⟨ID, value⟩
          = (.error .ErrNoRowsAffected, store1) →
        UpdateExpression expressionRepository store ⟨ID, value⟩
          = .returned ((none, some (.repo .ErrNoRowsAffected)), store1))
    ∧ (ServiceError.repo .ErrNoRowsAffected).Error printable = RepoError.ErrNoRowsAffected.Error
    ∧ (∀ err store1, err ≠ .ErrNoRowsAffected →
        expressionRepository.UpdateExpression store ⟨ID, value⟩ = (.error err, store1) →
        UpdateExpression expressionRepository store ⟨ID, value⟩
            = .returned ((none, some (.updating ID err)), store1)
          ∧ (ServiceError.updating ID err).Error printable
            = "error updating expression ID " ++ formatInt ID ++ ": " ++ err.Error) := by
  refine ⟨fun anyValue => UpdateExpression_of_zero expressionRepository store ⟨0, anyValue⟩ rfl,
    rfl, ?_, ?_, rfl, ?_⟩
  · intro updatedExp store1 hrepo
    unfold UpdateExpression
    simp only [if_neg hID, hvalid, hrepo]
  · intro store1 hrepo
    unfold UpdateExpression
    simp only [if_neg hID, hvalid, hrepo]
  · intro err store1 herr hrepo
    refine ⟨?_, rfl⟩
    unfold UpdateExpression
    cases err with
    | ErrNoRowsAffected => exact absurd rfl herr
    | ErrExpressionNotFound => simp only [if_neg hID, hvalid, hrepo]
    | other msg => simp only [if_neg hID, hvalid, hrepo]

/-- C19 at the ID 1 and the valid value "x AND y": with the ID 0 the call fails
whatever the value, also a value on which validation would panic, and with the
ID 1 a repository failing with `ErrNoRowsAffected` has its error passed on. -/
theorem C19_witness :
    UpdateExpression (failingRepository .ErrNoRowsAffected) () ⟨0, "1"⟩
      = .returned ((none, some .invalidID), ())
    ∧ validateExpression "1" = .panicked
    ∧ UpdateExpression (failingRepository .ErrNoRowsAffected) () ⟨1, "x AND y"⟩
      = .returned ((none, some (.repo .ErrNoRowsAffected)), ()) :=
  have h := C19_update_checks_the_id_first (fun _ => true)
    (failingRepository .ErrNoRowsAffected) () 1 "x AND y" (by decide) (by decide)
  ⟨h.1 "1", by decide, h.2.2.2.1 () rfl⟩

/-! ## C14 -/

theorem EvaluateExpression_missing {σ : Type} (expressionRepository : ExpressionRepository σ)
    (store store1 : σ) (range : RangeOrder) (ID : Int) (exp : Expression)
    (parameters : Parameters) (key : String)
    (hrepo : expressionRepository.GetExpressionByID store ID = (.ok exp, store1))
    (h : firstMissing parameters (range.order (GetLogicalExpressionParameters exp.Value))
      = some key) :
    EvaluateExpression expressionRepository store range ID parameters
      = .returned ((false, some (.missingParameter key exp.Value)), store1) := by
  unfold EvaluateExpression
  rw [hrepo]
  simp only [h]

/-- C14 as stated fails at the expression "x AND y" with the empty map: both
variables are absent, `x` comes first in the text, and under the range order
that visits the keys from the last to the first the error names `y`. -/
theorem C14_counterexample :
    GetLogicalExpressionParameters "x AND y" = ["x", "y"]
    ∧ EvaluateExpression (singleRepository "x AND y") () reverseOrder 1 []
        = .returned ((false, some (.missingParameter "y" "x AND y")), ())
    ∧ EvaluateExpression (singleRepository "x AND y") () listOrder 1 []
        = .returned ((false, some (.missingParameter "x" "x AND y")), ()) := by
  decide

/-- C14, amended: when variables of the stored expression are absent from the
parameters map, the missing-parameter error of the service's
`EvaluateExpression` names one of the absent variables. The loop ranges over a
Go map, so which one it names depends on the range order: every absent
variable is named under some range order. When one variable only is absent,
the error names it under every range order. -/
theorem C14_the_error_names_an_absent_variable {σ : Type}
    (expressionRepository : ExpressionRepository σ) (store store1 : σ) (range : RangeOrder)
    (ID : Int) (exp : Expression) (parameters : Parameters) (key : String)
    (hrepo : expressionRepository.GetExpressionByID store ID = (.ok exp, store1))
    (hkey : key ∈ GetLogicalExpressionParameters exp.Value)
    (habsent : parameters.get? key = none) :
    (∃ named, named ∈ GetLogicalExpressionParameters exp.Value
        ∧ parameters.get? named = none
        ∧ EvaluateExpression expressionRepository store range ID parameters
          = .returned ((false, some (.missingParameter named exp.Value)), store1))
    ∧ EvaluateExpression expressionRepository store (frontOrder key) ID parameters
        = .returned ((false, some (.missingParameter key exp.Value)), store1)
    ∧ ((∀ other ∈ GetLogicalExpressionParameters exp.Value,
          parameters.get? other = none → other = key) →
        EvaluateExpression expressionRepository store range ID parameters
          = .returned ((false, some (.missingParameter key exp.Value)), store1)) := by
  have hsome : ∃ named, firstMissing parameters
      (range.order (GetLogicalExpressionParameters exp.Value)) = some named := by
    cases hf : firstMissing parameters
        (range.order (GetLogicalExpressionParameters exp.Value)) with
    | some named => exact ⟨named, rfl⟩
    | none =>
      exact absurd habsent (firstMissing_none hf key ((range.perm _).mem_iff.mpr hkey))
  obtain ⟨named, hnamed⟩ := hsome
  have hmem : named ∈ GetLogicalExpressionParameters exp.Value :=
    (range.perm _).mem_iff.mp (firstMissing_some hnamed).1
  have hnone := (firstMissing_some hnamed).2
  refine ⟨⟨named, hmem, hnone, ?_⟩, ?_, ?_⟩
  · exact EvaluateExpression_missing expressionRepository store store1 range ID exp parameters
      named hrepo hnamed
  · apply EvaluateExpression_missing expressionRepository store store1 (frontOrder key) ID exp
      parameters key hrepo
    simp only [frontOrder, hkey, if_true, firstMissing, habsent, Option.isNone_none]
  · intro honly
    have := honly named hmem hnone
    subst this
    exact EvaluateExpression_missing expressionRepository store store1 range ID exp parameters
      named hrepo hnamed

/-- C14 at the expression "x AND y" with the empty map and the variable `y`:
under the range order that visits `y` first the error names `y`. -/
theorem C14_witness :
    EvaluateExpression (singleRepository "x AND y") () (frontOrder "y") 1 []
      = .returned ((false, some (.missingParameter "y" "x AND y")), ()) :=
  (C14_the_error_names_an_absent_variable (singleRepository "x AND y") () () listOrder 1
    ⟨1, "x AND y"⟩ [] "y" rfl (by decide) (by decide)).2.1

/-! ## C15 -/

theorem EvaluateLogicalExpression_panicked_iff (s : String) (parameters : Parameters) :
    EvaluateLogicalExpression s parameters = .panicked ↔
      ∃ exp value,
        NewEvaluableExpression (ReplaceAll (ReplaceAll s "AND" "&&") "OR" "||") = .ok exp
        ∧ exp.Evaluate (paramsToEvaluate parameters) = .ok value
        ∧ ∀ b, value ≠ .bool b := by
  unfold EvaluateLogicalExpression
  cases h1 : NewEvaluableExpression (ReplaceAll (ReplaceAll s "AND" "&&") "OR" "||") with
  | error e => simp [h1]
  | ok exp =>
    cases h2 : exp.Evaluate (paramsToEvaluate parameters) with
    | error e => simp [h1, h2]
    | ok v => cases v <;> simp [h1, h2]

/-- C15: the code faults on the lone numeral "1". The library evaluates the
text to the number 1 and reports no error, the type assertion `result.(bool)`
panics, and so do `EvaluateLogicalExpression`, `IsLogicalExpressionValid`,
`validateExpression` and `CreateExpression`. In general
`EvaluateLogicalExpression` panics exactly when the library reports no error
and its result is not a boolean. -/
theorem C15_a_lone_numeral_panics (s : String) (parameters : Parameters) :
    (∃ exp, NewEvaluableExpression "1" = .ok exp
        ∧ exp.Evaluate (paramsToEvaluate []) = .ok (.number 1))
    ∧ EvaluateLogicalExpression "1" [] = .panicked
    ∧ IsLogicalExpressionValid "1" = .panicked
    ∧ validateExpression "1" = .panicked
    ∧ CreateExpression countingRepository 0 ⟨0, "1"⟩ = .panicked
    ∧ (EvaluateLogicalExpression s parameters = .panicked ↔
        ∃ exp value,
          NewEvaluableExpression (ReplaceAll (ReplaceAll s "AND" "&&") "OR" "||") = .ok exp
          ∧ exp.Evaluate (paramsToEvaluate parameters) = .ok value
          ∧ ∀ b, value ≠ .bool b) :=
  ⟨⟨⟨[⟨.NUMERIC, .number 1⟩], .stage .LITERAL .nil .nil (.number 1), "1"⟩, rfl, rfl⟩,
    by decide, by decide, by decide, by decide,
    EvaluateLogicalExpression_panicked_iff s parameters⟩

/-! ## C20 -/

theorem isPrefixOf_append_self (p rest : List Char) : p.isPrefixOf (p ++ rest) = true := by
  induction p with
  | nil => simp
  | cons c cs ih => simp [List.isPrefixOf]

theorem containsFrom_start (p rest : List Char) : containsFrom p (p ++ rest) = true := by
  cases h : p ++ rest with
  | nil =>
    rw [← h]
    unfold containsFrom
    have hp : p = [] := (List.append_eq_nil.mp h).1
    subst hp
    simp at h
    subst h
    rfl
  | cons c cs =>
    unfold containsFrom
    rw [← h, isPrefixOf_append_self]
    rfl

theorem missingParameter_contains (printable : Char → Bool) (key expression : String) :
    Contains ((ServiceError.missingParameter key expression).Error printable)
      "missing parameter" = true := by
  unfold Contains ServiceError.Error
  simp only [String.data_append]
  exact containsFrom_start ("missing parameter" : String).data (' ' :: _)

theorem handler_EvaluateExpression_of_error {σ : Type} (printable : Char → Bool)
    (expressionRepository : ExpressionRepository σ) (store store1 : σ) (range : RangeOrder)
    (expID : Int) (paramsToEvaluate : Parameters) (res : Bool) (err : ServiceError)
    (h : EvaluateExpression expressionRepository store range expID paramsToEvaluate
      = .returned ((res, some err), store1)) :
    ExpressionHandler.EvaluateExpression printable expressionRepository store range expID
        paramsToEvaluate
      = if err.Is .ErrExpressionNotFound then
          .returned (⟨404, .error "Expression not found"⟩, store1)
        else if Contains (err.Error printable) "missing parameter" then
          .returned (⟨400, .error (err.Error printable)⟩, store1)
        else .returned (⟨500, .error "An Internal Server error occurred"⟩, store1) := by
  unfold ExpressionHandler.EvaluateExpression
  rw [h]

/-- Failures that are no missing-parameter failures and that the handler
answers with 400 and their text: a repository error whose text holds the words
"missing parameter"; the stored text "missing parameter" with both names
bound, whose creation error quotes the text; the stored expression "x AND 1"
with `x` bound and a further key "missing parameter", whose evaluation error
prints the parameters map. -/
theorem handler_answers_400_on_other_failures :
    (EvaluateExpression (failingRepository (.other "missing parameter")) () listOrder 1 []
      = .returned ((false, some (.getting 1 (.other "missing parameter"))), ())
    ∧ ExpressionHandler.EvaluateExpression (fun _ => true)
        (failingRepository (.other "missing parameter")) () listOrder 1 []
      = .returned (⟨400, .error "error getting expression ID 1: missing parameter"⟩, ()))
    ∧ (EvaluateExpression (singleRepository "missing parameter") () listOrder 1
        [("missing", 1), ("parameter", 1)]
      = .returned ((false, some (.evaluating "missing parameter" (.creating (.message
          "Cannot transition token types from VARIABLE [missing] to VARIABLE [parameter]")))),
          ())
    ∧ ExpressionHandler.EvaluateExpression (fun _ => true)
        (singleRepository "missing parameter") () listOrder 1
        [("missing", 1), ("parameter", 1)]
      = .returned (⟨400, .error ("error evaluating expression \"missing parameter\": "
          ++ "error creating evaluable expression: "
          ++ "Cannot transition token types from VARIABLE [missing] to VARIABLE [parameter]")⟩,
          ()))
    ∧ (firstMissing [("missing parameter", 1), ("x", 1)]
        (listOrder.order (GetLogicalExpressionParameters "x AND 1")) = none
    ∧ ExpressionHandler.EvaluateExpression (fun _ => true)
        (singleRepository "x AND 1") () listOrder 1 [("missing parameter", 1), ("x", 1)]
      = .returned (⟨400, .error ("error evaluating expression \"x AND 1\": "
          ++ "error evaluating expression \"x && 1\" with parameters "
          ++ "map[missing parameter:1 x:1]: "
          ++ "Value \'1\' cannot be used with the logical operator \'&&\', it is not a bool")⟩,
          ())) := by
  refine ⟨by decide, by decide, by decide, ?_⟩
  rfl

/-- C20: the evaluate handler classifies a failure of the service by the
sentinel and by the text of the error. What holds of the claim:
`ErrExpressionNotFound` gives 404 "Expression not found"; a missing-parameter
failure gives 400 with the service's message; any other failure gives 500 "An
Internal Server error occurred" when its text does not hold the words "missing
parameter". What fails: any other failure whose text holds these words is
answered with 400 and its text, as are a repository error with the text
"missing parameter" and the evaluation error of the stored expression
"x AND 1" when the parameters map has the further key "missing parameter". -/
theorem C20_failures_are_classified_by_their_text {σ : Type} (printable : Char → Bool)
    (expressionRepository : ExpressionRepository σ) (store store1 : σ) (range : RangeOrder)
    (expID : Int) (paramsToEvaluate : Parameters) (res : Bool) (err : ServiceError)
    (h : EvaluateExpression expressionRepository store range expID paramsToEvaluate
      = .returned ((res, some err), store1)) :
    (err = .repo .ErrExpressionNotFound →
      ExpressionHandler.EvaluateExpression printable expressionRepository store range expID
          paramsToEvaluate
        = .returned (⟨404, .error "Expression not found"⟩, store1))
    ∧ (∀ key expression, err = .missingParameter key expression →
      ExpressionHandler.EvaluateExpression printable expressionRepository store range expID
          paramsToEvaluate
        = .returned (⟨400, .error (err.Error printable)⟩, store1))
    ∧ (err ≠ .repo .ErrExpressionNotFound →
      Contains (err.Error printable) "missing parameter" = false →
      ExpressionHandler.EvaluateExpression printable expressionRepository store range expID
          paramsToEvaluate
        = .returned (⟨500, .error "An Internal Server error occurred"⟩, store1))
    ∧ (err ≠ .repo .ErrExpressionNotFound →
      Contains (err.Error printable) "missing parameter" = true →
      ExpressionHandler.EvaluateExpression printable expressionRepository store range expID
          paramsToEvaluate
        = .returned (⟨400, .error (err.Error printable)⟩, store1))
    ∧ ExpressionHandler.EvaluateExpression (fun _ => true)
        (failingRepository (.other "missing parameter")) () listOrder 1 []
      = .returned (⟨400, .error "error getting expression ID 1: missing parameter"⟩, ())
    ∧ ExpressionHandler.EvaluateExpression (fun _ => true)
        (singleRepository "x AND 1") () listOrder 1 [("missing parameter", 1), ("x", 1)]
      = .returned (⟨400, .error ("error evaluating expression \"x AND 1\": "
          ++ "error evaluating expression \"x && 1\" with parameters "
          ++ "map[missing parameter:1 x:1]: "
          ++ "Value \'1\' cannot be used with the logical operator \'&&\', it is not a bool")⟩,
          ()) := by
  have hans := handler_EvaluateExpression_of_error printable expressionRepository store store1
    range expID paramsToEvaluate res err h
  have hnot : err ≠ .repo .ErrExpressionNotFound → err.Is .ErrExpressionNotFound = false := by
    intro hne
    unfold EvaluateExpression at h
    revert h
    cases hrepo : expressionRepository.GetExpressionByID store expID with
    | mk r st =>
      cases r with
      | error e =>
        cases e with
        | ErrExpressionNotFound =>
          intro h
          simp only [Outcome.returned.injEq, Prod.mk.injEq, Option.some.injEq] at h
          exact absurd h.1.2.symm hne
        | ErrNoRowsAffected =>
          intro h
          simp only [Outcome.returned.injEq, Prod.mk.injEq, Option.some.injEq] at h
          rw [← h.1.2]
          rfl
        | other msg =>
          intro h
          simp only [Outcome.returned.injEq, Prod.mk.injEq, Option.some.injEq] at h
          rw [← h.1.2]
          rfl
      | ok exp =>
        simp only
        cases hf : firstMissing paramsToEvaluate
            (range.order (GetLogicalExpressionParameters exp.Value)) with
        | some key =>
          intro h
          simp only [Outcome.returned.injEq, Prod.mk.injEq, Option.some.injEq] at h
          rw [← h.1.2]
          rfl
        | none =>
          simp only
          cases hev : EvaluateLogicalExpression exp.Value paramsToEvaluate with
          | panicked => intro h; simp at h
          | returned r =>
            obtain ⟨b, e⟩ := r
            cases e with
            | none => intro h; simp at h
            | some e =>
              intro h
              simp only [Outcome.returned.injEq, Prod.mk.injEq, Option.some.injEq] at h
              rw [← h.1.2]
              rfl
  refine ⟨?_, ?_, ?_, ?_, handler_answers_400_on_other_failures.1.2,
    handler_answers_400_on_other_failures.2.2.2⟩
  · intro he
    rw [hans, he]
    rfl
  · intro key expression he
    rw [hans, he, missingParameter_contains]
    rfl
  · intro hne hc
    rw [hans, hnot hne, hc]
    rfl
  · intro hne hc
    rw [hans, hnot hne, hc]
    rfl

/-- C20 at the three failures of the handler's tests: a repository that does not
find the expression gives 404, the expression "(x AND y)" with `x` alone gives
400 with the message of the service, and a repository failing with
"unexpected error" gives 500. -/
theorem C20_witness :
    ExpressionHandler.EvaluateExpression (fun _ => true)
        (failingRepository .ErrExpressionNotFound) () listOrder 1 [("x", 1)]
      = .returned (⟨404, .error "Expression not found"⟩, ())
    ∧ ExpressionHandler.EvaluateExpression (fun _ => true)
        (singleRepository "(x AND y)") () listOrder 1 [("x", 1)]
      = .returned (⟨400, .error
          "missing parameter \"y\" for the logical expression \"(x AND y)\""⟩, ())
    ∧ ExpressionHandler.EvaluateExpression (fun _ => true)
        (failingRepository (.other "unexpected error")) () listOrder 1 [("x", 1), ("y", 0)]
      = .returned (⟨500, .error "An Internal Server error occurred"⟩, ()) :=
  ⟨(C20_failures_are_classified_by_their_text (fun _ => true)
      (failingRepository .ErrExpressionNotFound) () () listOrder 1 [("x", 1)] false
      (.repo .ErrExpressionNotFound) (by decide)).1 rfl,
    (C20_failures_are_classified_by_their_text (fun _ => true)
      (singleRepository "(x AND y)") () () listOrder 1 [("x", 1)] false
      (.missingParameter "y" "(x AND y)") (by decide)).2.1 "y" "(x AND y)" rfl,
    (C20_failures_are_classified_by_their_text (fun _ => true)
      (failingRepository (.other "unexpected error")) () () listOrder 1 [("x", 1), ("y", 0)]
      false (.getting 1 (.other "unexpected error")) (by decide)).2.2.1 (by decide)
      (by decide)⟩

/-! ## Evaluation from left to right: lemmas -/

theorem shortAnd_assoc (x y z : Reading) :
    shortAnd (shortAnd x y) z = shortAnd x (shortAnd y z) := by
  cases x with
  | error n => rfl
  | ok a => cases a <;> rfl

theorem shortOr_assoc (x y z : Reading) :
    shortOr (shortOr x y) z = shortOr x (shortOr y z) := by
  cases x with
  | error n => rfl
  | ok a => cases a <;> rfl

theorem evaluateStage_runs (m : MapParameters) {s : evaluationStage} {x : Reading}
    (h : Runs m s x) : evaluateStage m s = x.result := by
  induction h with
  | bound hm =>
    rw [evaluateStage]
    simp [evaluateStage, typeCheckFailure, hm, Reading.result]
  | unbound hm =>
    rw [evaluateStage]
    simp [evaluateStage, typeCheckFailure, hm, Reading.result]
  | literal =>
    rw [evaluateStage]
    simp [evaluateStage, typeCheckFailure, Reading.result]
  | @noop l r x hl _ ih =>
    rw [evaluateStage, evaluateStage_inert m hl]
    cases x with
    | error n => simp [ih, Reading.result]
    | ok b => simp [ih, typeCheckFailure, applyOperator, Reading.result]
  | @and l r x y _ _ ihl ihr =>
    rw [evaluateStage, ihl]
    cases x with
    | error n => simp [Reading.result, shortAnd]
    | ok a =>
      cases a with
      | false => simp [Reading.result, shortAnd]
      | true =>
        cases y with
        | error n => simp [ihr, Reading.result, shortAnd]
        | ok b => simp [ihr, typeCheckFailure, isBool, applyOperator, Reading.result, shortAnd]
  | @or l r x y _ _ ihl ihr =>
    rw [evaluateStage, ihl]
    cases x with
    | error n => simp [Reading.result, shortOr]
    | ok a =>
      cases a with
      | true => simp [Reading.result, shortOr]
      | false =>
        cases y with
        | error n => simp [ihr, Reading.result, shortOr]
        | ok b => simp [ihr, typeCheckFailure, isBool, applyOperator, Reading.result, shortOr]

theorem reorderWalk_leaf (m : MapParameters) {symbol : OperatorSymbol} {operand : Value}
    {x : Reading} (hs : Runs m (.stage symbol .nil .nil operand) x)
    (hsym : symbol = .VALUE ∨ symbol = .LITERAL) :
    Runs m (reorderWalk none (.stage symbol .nil .nil operand)) x
      ∧ (∀ acc a, Runs m acc a →
          Runs m (reorderWalk (some (acc, .AND, .nil)) (.stage symbol .nil .nil operand))
            (shortAnd a x))
      ∧ (∀ acc a, Runs m acc a →
          Runs m (reorderWalk (some (acc, .OR, .nil)) (.stage symbol .nil .nil operand))
            (shortOr a x))
      ∧ (∀ acc, Inert acc →
          Runs m (reorderWalk (some (acc, .NOOP, .nil)) (.stage symbol .nil .nil operand)) x) := by
  rcases hsym with rfl | rfl
  · refine ⟨?_, ?_, ?_, ?_⟩
    · simpa [reorderWalk] using hs
    · intro acc a ha
      simpa [reorderWalk, findOperatorPrecedenceForSymbol] using Runs.and ha hs
    · intro acc a ha
      simpa [reorderWalk, findOperatorPrecedenceForSymbol] using Runs.or ha hs
    · intro acc ha
      simpa [reorderWalk, findOperatorPrecedenceForSymbol] using Runs.noop ha hs
  · refine ⟨?_, ?_, ?_, ?_⟩
    · simpa [reorderWalk] using hs
    · intro acc a ha
      simpa [reorderWalk, findOperatorPrecedenceForSymbol] using Runs.and ha hs
    · intro acc a ha
      simpa [reorderWalk, findOperatorPrecedenceForSymbol] using Runs.or ha hs
    · intro acc ha
      simpa [reorderWalk, findOperatorPrecedenceForSymbol] using Runs.noop ha hs

/-- `reorderStages` keeps the outcome of a stage. -/
theorem reorderWalk_runs (m : MapParameters) {s : evaluationStage} {x : Reading}
    (h : Runs m s x) :
    Runs m (reorderWalk none s) x
      ∧ (∀ acc a, Runs m acc a → Runs m (reorderWalk (some (acc, .AND, .nil)) s) (shortAnd a x))
      ∧ (∀ acc a, Runs m acc a → Runs m (reorderWalk (some (acc, .OR, .nil)) s) (shortOr a x))
      ∧ (∀ acc, Inert acc → Runs m (reorderWalk (some (acc, .NOOP, .nil)) s) x) := by
  induction h with
  | @bound name b hm => exact reorderWalk_leaf m (Runs.bound hm) (Or.inl rfl)
  | @unbound name hm => exact reorderWalk_leaf m (Runs.unbound hm) (Or.inl rfl)
  | @literal b => exact reorderWalk_leaf m Runs.literal (Or.inr rfl)
  | @noop l r b hl _ ih =>
    have hl2 := (reorderWalk_inert hl).1
    refine ⟨?_, ?_, ?_, ?_⟩
    · rw [reorderWalk]
      exact ih.2.2.2 _ hl2
    · intro acc a ha
      rw [reorderWalk]
      simp only [findOperatorPrecedenceForSymbol, reduceCtorEq, if_false]
      exact Runs.and ha (ih.2.2.2 _ hl2)
    · intro acc a ha
      rw [reorderWalk]
      simp only [findOperatorPrecedenceForSymbol, reduceCtorEq, if_false]
      exact Runs.or ha (ih.2.2.2 _ hl2)
    · intro acc ha
      rw [reorderWalk]
      simp only [if_true]
      exact ih.2.2.2 _ (Inert.noop ha hl2)
  | @and l r a b _ _ ihl ihr =>
    refine ⟨?_, ?_, ?_, ?_⟩
    · rw [reorderWalk]
      exact ihr.2.1 _ _ ihl.1
    · intro acc c hc
      rw [reorderWalk]
      simp only [if_true]
      have := ihr.2.1 _ _ (Runs.and hc ihl.1)
      rw [shortAnd_assoc] at this
      exact this
    · intro acc c hc
      rw [reorderWalk]
      simp only [findOperatorPrecedenceForSymbol, reduceCtorEq, if_false]
      exact Runs.or hc (ihr.2.1 _ _ ihl.1)
    · intro acc hacc
      rw [reorderWalk]
      simp only [findOperatorPrecedenceForSymbol, reduceCtorEq, if_false]
      exact Runs.noop hacc (ihr.2.1 _ _ ihl.1)
  | @or l r a b _ _ ihl ihr =>
    refine ⟨?_, ?_, ?_, ?_⟩
    · rw [reorderWalk]
      exact ihr.2.2.1 _ _ ihl.1
    · intro acc c hc
      rw [reorderWalk]
      simp only [findOperatorPrecedenceForSymbol, reduceCtorEq, if_false]
      exact Runs.and hc (ihr.2.2.1 _ _ ihl.1)
    · intro acc c hc
      rw [reorderWalk]
      simp only [if_true]
      have := ihr.2.2.1 _ _ (Runs.or hc ihl.1)
      rw [shortOr_assoc] at this
      exact this
    · intro acc hacc
      rw [reorderWalk]
      simp only [findOperatorPrecedenceForSymbol, reduceCtorEq, if_false]
      exact Runs.noop hacc (ihr.2.2.1 _ _ ihl.1)

theorem elideStage_and_runs (m : MapParameters) {l r : evaluationStage} {x y : Reading}
    (hl : Runs m l x) (hr : Runs m r y) :
    ∃ s, elideStage (.stage .AND l r .nil) = .ok s ∧ Runs m s (shortAnd x y) := by
  have hl0 := hl
  have hr0 := hr
  cases hl <;> cases hr <;> first
    | exact ⟨_, rfl, Runs.and hl0 hr0⟩
    | (rename_i a b
       cases a <;> exact ⟨_, rfl, Runs.literal⟩)

theorem elideStage_or_runs (m : MapParameters) {l r : evaluationStage} {x y : Reading}
    (hl : Runs m l x) (hr : Runs m r y) :
    ∃ s, elideStage (.stage .OR l r .nil) = .ok s ∧ Runs m s (shortOr x y) := by
  have hl0 := hl
  have hr0 := hr
  cases hl <;> cases hr <;> first
    | exact ⟨_, rfl, Runs.or hl0 hr0⟩
    | (rename_i a b
       cases a <;> exact ⟨_, rfl, Runs.literal⟩)

/-- `elideLiterals` succeeds and keeps the outcome of a stage. -/
theorem elideLiterals_runs (m : MapParameters) {s : evaluationStage} {x : Reading}
    (h : Runs m s x) : ∃ s2, elideLiterals s = .ok s2 ∧ Runs m s2 x := by
  induction h with
  | @bound name b hm => exact ⟨_, rfl, Runs.bound hm⟩
  | @unbound name hm => exact ⟨_, rfl, Runs.unbound hm⟩
  | @literal b => exact ⟨_, rfl, Runs.literal⟩
  | @noop l r b hl _ ih =>
    obtain ⟨r2, hr2, he⟩ := ih
    refine ⟨.stage .NOOP l r2 .nil, ?_, Runs.noop hl he⟩
    rw [elideLiterals, elideLiterals_inert hl, hr2]
    cases hl <;> rfl
  | @and l r a b _ _ ihl ihr =>
    obtain ⟨l2, hl2, hel⟩ := ihl
    obtain ⟨r2, hr2, her⟩ := ihr
    obtain ⟨s, hs, hes⟩ := elideStage_and_runs m hel her
    exact ⟨s, by rw [elideLiterals, hl2, hr2]; exact hs, hes⟩
  | @or l r a b _ _ ihl ihr =>
    obtain ⟨l2, hl2, hel⟩ := ihl
    obtain ⟨r2, hr2, her⟩ := ihr
    obtain ⟨s, hs, hes⟩ := elideStage_or_runs m hel her
    exact ⟨s, by rw [elideLiterals, hl2, hr2]; exact hs, hes⟩

theorem runs_ne_nil {m : MapParameters} {s : evaluationStage} {x : Reading} (h : Runs m s x) :
    s ≠ .nil := by
  cases h <;> simp

/-- The planned stage of a parse tree has the outcome of the tree read from left
to right. -/
theorem Sentence.stage_runs (parameters : Parameters) : ∀ {l : Level} (x : Sentence l),
    ['i', 'n'] ∉ x.idents →
    Runs (paramsToEvaluate parameters) x.stage (x.run (lookup parameters))
  | _, .ident name, hin => by
    have hne : name ≠ ['i', 'n'] := by
      rintro rfl
      exact hin (by simp [Sentence.idents])
    have hin2 : ¬ String.mk name = "in" := by
      rw [string_mk_eq_iff]
      exact hne
    simp only [Sentence.stage, Sentence.run, Tok.toToken, lookup]
    by_cases h1 : name = ['t', 'r', 'u', 'e']
    · subst h1
      exact Runs.literal
    · have h1s : ¬ String.mk name = "true" := by
        rw [string_mk_eq_iff]
        exact h1
      by_cases h2 : name = ['f', 'a', 'l', 's', 'e']
      · subst h2
        exact Runs.literal
      · have h2s : ¬ String.mk name = "false" := by
          rw [string_mk_eq_iff]
          exact h2
        simp only [h1, h2, h1s, h2s, hin2, if_false, if_true]
        cases hg : parameters.get? (String.mk name) with
        | none => exact Runs.unbound (by simp [paramsToEvaluate, hg])
        | some v => exact Runs.bound (by simp [paramsToEvaluate, hg])
  | _, .paren e, hin => by
    have hin2 : ['i', 'n'] ∉ e.idents := by simpa [Sentence.idents] using hin
    exact Runs.noop Inert.nil (Sentence.stage_runs parameters e hin2)
  | _, .factor f, hin => by
    have hin2 : ['i', 'n'] ∉ f.idents := by simpa [Sentence.idents] using hin
    exact Sentence.stage_runs parameters f hin2
  | _, .and f t, hin => by
    have hin1 : ['i', 'n'] ∉ f.idents := by
      intro h; exact hin (by simp [Sentence.idents, h])
    have hin2 : ['i', 'n'] ∉ t.idents := by
      intro h; exact hin (by simp [Sentence.idents, h])
    exact Runs.and (Sentence.stage_runs parameters f hin1) (Sentence.stage_runs parameters t hin2)
  | _, .term t, hin => by
    have hin2 : ['i', 'n'] ∉ t.idents := by simpa [Sentence.idents] using hin
    exact Sentence.stage_runs parameters t hin2
  | _, .or t e, hin => by
    have hin1 : ['i', 'n'] ∉ t.idents := by
      intro h; exact hin (by simp [Sentence.idents, h])
    have hin2 : ['i', 'n'] ∉ e.idents := by
      intro h; exact hin (by simp [Sentence.idents, h])
    exact Runs.or (Sentence.stage_runs parameters t hin1) (Sentence.stage_runs parameters e hin2)

/-- `NewEvaluableExpression` on the tokens of a parse tree: the expression it
builds has the outcome of the tree read from left to right. -/
theorem NewEvaluableExpression_runs (text : String) (e : Sentence .expression)
    (parameters : Parameters) (hin : ['i', 'n'] ∉ e.idents)
    (htok : parseTokensLoop (text.data.length + 1) .UNKNOWN text.data
      = .ok (e.toks.map Tok.toToken)) :
    ∃ exp, NewEvaluableExpression text = .ok exp
      ∧ Runs (paramsToEvaluate parameters) exp.evaluationStages
          (e.run (lookup parameters)) := by
  have hbal : checkBalance (e.toks.map Tok.toToken) = .ok () := by
    simp [checkBalance, e.parenBalance_toks]
  have hparse : parseTokens text = .ok (e.toks.map Tok.toToken) := by
    unfold parseTokens
    rw [htok]
    simp only [hbal]
  have hopt : optimizeTokens (e.toks.map Tok.toToken) = .ok (e.toks.map Tok.toToken) := by
    unfold optimizeTokens
    have : (e.toks.map Tok.toToken).any (fun t => decide (t.Kind = .STRING)) = false := by
      rw [List.any_eq_false]
      intro t ht
      have hp := e.toks_plain hin t ht
      simp only [decide_eq_true_eq]
      intro h
      rw [h] at hp
      simp [PlainKind] at hp
    simp [this]
  have hev := Sentence.stage_runs parameters e hin
  have hre := (reorderWalk_runs _ hev).1
  obtain ⟨s2, hs2, he2⟩ := elideLiterals_runs _ hre
  have hplan : planStages (e.toks.map Tok.toToken) = .ok s2 := by
    unfold planStages
    rw [planTokens_sentence e hin]
    have hne := runs_ne_nil hev
    cases hst : e.stage with
    | nil => exact absurd hst hne
    | stage a b c d =>
      simp only
      rw [← hst]
      exact hs2
  refine ⟨⟨e.toks.map Tok.toToken, s2, text⟩, ?_, he2⟩
  unfold NewEvaluableExpression
  rw [hparse]
  simp only [hbal, checkExpressionSyntax_sentence e hin, hopt, hplan]

/-- On an expression of the grammar written out, in which no identifier is
`in`, `EvaluateLogicalExpression` returns the outcome of the parse tree read
from left to right: its boolean and no error, or the error "No parameter ...
found." for the first identifier read that the map does not bind. -/
theorem EvaluateLogicalExpression_run (s : String) (e : Sentence .expression)
    (parameters : Parameters) (hw : IsWrittenAs s e)
    (hid : ∀ name ∈ e.idents, IsIdentifier name) (hin : ['i', 'n'] ∉ e.idents) :
    ∃ exp, NewEvaluableExpression (ReplaceAll (ReplaceAll s "AND" "&&") "OR" "||") = .ok exp
      ∧ EvaluateLogicalExpression s parameters
        = (e.run (lookup parameters)).returned exp parameters := by
  obtain ⟨lead, w, hlead, hgaps, hmap, hdata⟩ := hw
  have hs : s = String.mk (lead ++ render Tok.text w) := by
    rw [← hdata]
  have hwf : ∀ tg ∈ w, tg.1.WellFormed := by
    intro tg htg
    apply e.toks_wellFormed hid
    rw [← hmap]
    exact List.mem_map_of_mem _ htg
  have hww : WellWritten w := wellWritten_of_chain w hwf hgaps (hmap ▸ e.toks_chain)
  have hrep := ReplaceAll_render lead w hlead hwf hgaps
  have htok := parseTokens_written lead w hlead hww
  rw [hmap] at htok
  obtain ⟨exp, hexp, hev⟩ := NewEvaluableExpression_runs
    (String.mk (lead ++ render Tok.textLib w)) e parameters hin htok
  refine ⟨exp, by rw [hs, hrep]; exact hexp, ?_⟩
  unfold EvaluateLogicalExpression
  simp only [hs, hrep, hexp]
  have hne := runs_ne_nil hev
  have heval : exp.Evaluate (paramsToEvaluate parameters)
      = (e.run (lookup parameters)).result := by
    unfold EvaluableExpression.Evaluate
    cases hst : exp.evaluationStages with
    | nil => exact absurd hst hne
    | stage a b c d =>
      simp only
      rw [← hst]
      exact evaluateStage_runs _ hev
  rw [heval]
  cases e.run (lookup parameters) <;> rfl

/-! ## C13 -/

theorem Sentence.idents_ne_nil : ∀ {l : Level} (x : Sentence l), x.idents ≠ []
  | _, .ident name => by simp [Sentence.idents]
  | _, .paren e => by simpa [Sentence.idents] using e.idents_ne_nil
  | _, .factor f => by simpa [Sentence.idents] using f.idents_ne_nil
  | _, .and f t => by simp [Sentence.idents, f.idents_ne_nil]
  | _, .term t => by simpa [Sentence.idents] using t.idents_ne_nil
  | _, .or t e => by simp [Sentence.idents, t.idents_ne_nil]

theorem head?_append_left {α : Type} (xs ys : List α) (h : xs ≠ []) :
    (xs ++ ys).head? = xs.head? := by
  cases xs with
  | nil => exact absurd rfl h
  | cons a as => rfl

theorem lookup_unbound (parameters : Parameters) (name : List Char)
    (hres : name ∉ reservedWords) (h : parameters.get? (String.mk name) = none) :
    lookup parameters name = .error (String.mk name) := by
  simp only [reservedWords, List.mem_cons, List.mem_singleton, List.not_mem_nil, or_false,
    not_or] at hres
  simp [lookup, hres.1, hres.2.1, h]

/-- A parse tree whose first identifier is not bound has the outcome "not
found" for that identifier. -/
theorem Sentence.run_first (parameters : Parameters) (name : List Char)
    (hres : name ∉ reservedWords) (hnone : parameters.get? (String.mk name) = none) :
    ∀ {l : Level} (x : Sentence l), x.idents.head? = some name →
      x.run (lookup parameters) = .error (String.mk name)
  | _, .ident n, h => by
    simp only [Sentence.idents, List.head?_cons, Option.some.injEq] at h
    subst h
    exact lookup_unbound parameters n hres hnone
  | _, .paren e, h => Sentence.run_first parameters name hres hnone e h
  | _, .factor f, h => Sentence.run_first parameters name hres hnone f h
  | _, .and f t, h => by
    rw [Sentence.idents, head?_append_left _ _ f.idents_ne_nil] at h
    simp only [Sentence.run, Sentence.run_first parameters name hres hnone f h, shortAnd]
  | _, .term t, h => Sentence.run_first parameters name hres hnone t h
  | _, .or t e, h => by
    rw [Sentence.idents, head?_append_left _ _ t.idents_ne_nil] at h
    simp only [Sentence.run, Sentence.run_first parameters name hres hnone t h, shortOr]

theorem shortAnd_error {x y : Reading} {n : String} (h : shortAnd x y = .error n) :
    x = .error n ∨ y = .error n := by
  cases x with
  | error m => left; simpa [shortAnd] using h
  | ok a =>
    cases a with
    | false => simp [shortAnd] at h
    | true => right; simpa [shortAnd] using h

theorem shortOr_error {x y : Reading} {n : String} (h : shortOr x y = .error n) :
    x = .error n ∨ y = .error n := by
  cases x with
  | error m => left; simpa [shortOr] using h
  | ok a =>
    cases a with
    | true => simp [shortOr] at h
    | false => right; simpa [shortOr] using h

/-- The outcome "not found" names an identifier of the tree that the map does
not bind, and that is neither `true` nor `false`. -/
theorem Sentence.run_error_plain (parameters : Parameters) (n : String) :
    ∀ {l : Level} (x : Sentence l), x.run (lookup parameters) = .error n →
      ∃ name ∈ x.idents, n = String.mk name ∧ parameters.get? (String.mk name) = none
        ∧ name ≠ ['t', 'r', 'u', 'e'] ∧ name ≠ ['f', 'a', 'l', 's', 'e']
  | _, .ident name, h => by
    refine ⟨name, by simp [Sentence.idents], ?_⟩
    simp only [Sentence.run, lookup] at h
    by_cases h1 : name = ['t', 'r', 'u', 'e']
    · simp [h1] at h
    · by_cases h2 : name = ['f', 'a', 'l', 's', 'e']
      · simp [h2] at h
      · simp only [h1, h2, if_false] at h
        split at h
        · simp at h
        · rename_i hg
          simp only [Except.error.injEq] at h
          exact ⟨h.symm, hg, h1, h2⟩
  | _, .paren e, h => by
    simpa [Sentence.idents] using Sentence.run_error_plain parameters n e h
  | _, .factor f, h => by
    simpa [Sentence.idents] using Sentence.run_error_plain parameters n f h
  | _, .and f t, h => by
    rcases shortAnd_error h with h1 | h1
    · obtain ⟨name, hm, hrest⟩ := Sentence.run_error_plain parameters n f h1
      exact ⟨name, by simp [Sentence.idents, hm], hrest⟩
    · obtain ⟨name, hm, hrest⟩ := Sentence.run_error_plain parameters n t h1
      exact ⟨name, by simp [Sentence.idents, hm], hrest⟩
  | _, .term t, h => by
    simpa [Sentence.idents] using Sentence.run_error_plain parameters n t h
  | _, .or t e, h => by
    rcases shortOr_error h with h1 | h1
    · obtain ⟨name, hm, hrest⟩ := Sentence.run_error_plain parameters n t h1
      exact ⟨name, by simp [Sentence.idents, hm], hrest⟩
    · obtain ⟨name, hm, hrest⟩ := Sentence.run_error_plain parameters n e h1
      exact ⟨name, by simp [Sentence.idents, hm], hrest⟩

theorem isWrittenAs_conj (a b : List Char) :
    IsWrittenAs (String.mk (a ++ [' ', 'A', 'N', 'D', ' '] ++ b)) (Sentence.conj a b) := by
  refine ⟨[], [(.ident a, [' ']), (.AND, [' ']), (.ident b, [])], by decide, ?_, rfl,
    by simp [render, Tok.text]⟩
  intro tg htg
  simp only [List.mem_cons, List.mem_singleton, List.not_mem_nil, or_false] at htg
  rcases htg with rfl | rfl | rfl <;> (dsimp only; decide)

/-- C13 as stated fails at "x AND z" with the map x = 0: the identifier `z` is
not a key of the map, and the call returns false and no error, `z` being
never read. -/
theorem C13_counterexample :
    IsWrittenAs "x AND z" (Sentence.conj ['x'] ['z'])
    ∧ ['z'] ∈ (Sentence.conj ['x'] ['z']).idents
    ∧ Parameters.get? [("x", 0)] "z" = none
    ∧ EvaluateLogicalExpression "x AND z" [("x", 0)] = .returned (false, none) :=
  ⟨isWrittenAs_conj ['x'] ['z'], by decide, by decide, by decide⟩

/-- C13, amended: an unbound variable aborts evaluation when it is read. For
every expression `e` of the AND/OR grammar in which no identifier is `in`,
written out as the text `s`, and every parameters map, the operands are read
from left to right, AND reads its right operand only when the left one is
true, and OR only when the left one is false. The identifiers `true` and
`false` are the constants of the library: they are read without the map and
are never unbound. `EvaluateLogicalExpression` returns the boolean so computed
and no error when every other identifier read is a key of the map; it returns
false and the error "No parameter ... found." for the first identifier read
that is neither `true` nor `false` and is not a key of the map. The first
identifier of `e` is always read: when it is neither `true` nor `false` and is
not a key of the map, the call fails on it. -/
theorem C13_an_unbound_variable_aborts_when_it_is_read (s : String) (e : Sentence .expression)
    (parameters : Parameters) (hw : IsWrittenAs s e)
    (hid : ∀ name ∈ e.idents, IsIdentifier name) (hin : ['i', 'n'] ∉ e.idents) :
    (∀ b, e.run (lookup parameters) = .ok b →
      EvaluateLogicalExpression s parameters = .returned (b, none))
    ∧ (∀ n, e.run (lookup parameters) = .error n →
      (∃ exp, EvaluateLogicalExpression s parameters
        = .returned (false, some (.evaluating exp parameters
            (.message ("No parameter \'" ++ n ++ "\' found.")))))
      ∧ ∃ name ∈ e.idents, n = String.mk name ∧ parameters.get? (String.mk name) = none
        ∧ name ≠ ['t', 'r', 'u', 'e'] ∧ name ≠ ['f', 'a', 'l', 's', 'e'])
    ∧ (∀ name, e.idents.head? = some name → name ∉ reservedWords →
      parameters.get? (String.mk name) = none →
      ∃ exp, EvaluateLogicalExpression s parameters
        = .returned (false, some (.evaluating exp parameters
            (.message ("No parameter \'" ++ String.mk name ++ "\' found."))))) := by
  obtain ⟨exp, _, hrun⟩ := EvaluateLogicalExpression_run s e parameters hw hid hin
  refine ⟨?_, ?_, ?_⟩
  · intro b hb
    rw [hrun, hb]
    rfl
  · intro n hn
    refine ⟨⟨exp, ?_⟩, Sentence.run_error_plain parameters n e hn⟩
    rw [hrun, hn]
    rfl
  · intro name hhead hres hnone
    refine ⟨exp, ?_⟩
    rw [hrun, Sentence.run_first parameters name hres hnone e hhead]
    rfl

/-- C13 at "z AND y" with the map z = 1: `z` is true, `y` is read and not
found. -/
theorem C13_witness :
    ∃ exp, EvaluateLogicalExpression "z AND y" [("z", 1)]
      = .returned (false, some (.evaluating exp [("z", 1)]
          (.message "No parameter \'y\' found."))) :=
  ((C13_an_unbound_variable_aborts_when_it_is_read "z AND y" (Sentence.conj ['z'] ['y'])
    [("z", 1)] (isWrittenAs_conj ['z'] ['y'])
    (by
      intro name hn
      simp only [Sentence.conj, Sentence.idents, List.cons_append, List.nil_append,
        List.mem_cons, List.mem_singleton, List.not_mem_nil, or_false] at hn
      rcases hn with rfl | rfl <;> decide)
    (by decide)).2.1 "y" rfl).1

/-! ## The comparator `in` where an operand is expected -/

theorem checkExpressionSyntaxLoop_blocked (post : List ExpressionToken) :
    ∀ (pre : List ExpressionToken) (state : TokenKind) (last : ExpressionToken),
      (∀ t, pre.getLast? = some t → t.Kind = .CLAUSE ∨ t.Kind = .LOGICALOP) →
      (pre = [] → state = .UNKNOWN ∨ state = .CLAUSE ∨ state = .LOGICALOP) →
      ∃ e, checkExpressionSyntaxLoop state last (pre ++ ⟨.COMPARATOR, .str "in"⟩ :: post)
        = .error e
  | [], state, last, _, hstate => by
    rw [List.nil_append, checkExpressionSyntaxLoop]
    have hno : canTransitionTo state .COMPARATOR = false := by
      rcases hstate rfl with rfl | rfl | rfl <;> decide
    simp only [hno, Bool.not_false, if_true]
    split <;> exact ⟨_, rfl⟩
  | t :: ts, state, last, hlast, _ => by
    rw [List.cons_append, checkExpressionSyntaxLoop]
    split
    · split <;> exact ⟨_, rfl⟩
    · split
      · exact ⟨_, rfl⟩
      · apply checkExpressionSyntaxLoop_blocked post ts t.Kind t
        · intro u hu
          apply hlast u
          cases ts with
          | nil => simp at hu
          | cons v vs => simpa [List.getLast?_cons_cons] using hu
        · rintro rfl
          rcases hlast t rfl with h | h
          · exact Or.inr (Or.inl h)
          · exact Or.inr (Or.inr h)

theorem getLast?_append_cons {α : Type} (xs ys : List α) (y : α) :
    (xs ++ y :: ys).getLast? = (y :: ys).getLast? := by
  induction xs with
  | nil => rfl
  | cons x xs ih =>
    cases h : xs ++ y :: ys with
    | nil => simp at h
    | cons z zs => rw [List.cons_append, h, List.getLast?_cons_cons, ← h, ih]

/-- The identifier `in` of a parse tree stands where an operand may start: at
the head of the tokens, or behind a parenthesis or a keyword. -/
theorem Sentence.split_at_in : ∀ {l : Level} (x : Sentence l), ['i', 'n'] ∈ x.idents →
    ∃ pre post, x.toks = pre ++ Tok.ident ['i', 'n'] :: post
      ∧ ∀ t, pre.getLast? = some t → t = .lparen ∨ t = .AND ∨ t = .OR
  | _, .ident name, h => by
    simp only [Sentence.idents, List.mem_singleton] at h
    subst h
    exact ⟨[], [], rfl, by simp⟩
  | _, .paren e, h => by
    obtain ⟨pre, post, htoks, hlast⟩ := Sentence.split_at_in e (by simpa [Sentence.idents] using h)
    refine ⟨.lparen :: pre, post ++ [.rparen], by simp [Sentence.toks, htoks], ?_⟩
    intro t ht
    cases pre with
    | nil =>
      simp only [List.getLast?_singleton, Option.some.injEq] at ht
      exact Or.inl ht.symm
    | cons p ps => exact hlast t (by simpa [List.getLast?_cons_cons] using ht)
  | _, .factor f, h => Sentence.split_at_in f (by simpa [Sentence.idents] using h)
  | _, .and f t, h => by
    simp only [Sentence.idents, List.mem_append] at h
    rcases h with h | h
    · obtain ⟨pre, post, htoks, hlast⟩ := Sentence.split_at_in f h
      exact ⟨pre, post ++ .AND :: t.toks, by simp [Sentence.toks, htoks], hlast⟩
    · obtain ⟨pre, post, htoks, hlast⟩ := Sentence.split_at_in t h
      refine ⟨f.toks ++ .AND :: pre, post, by simp [Sentence.toks, htoks], ?_⟩
      intro u hu
      rw [getLast?_append_cons] at hu
      cases pre with
      | nil =>
        simp only [List.getLast?_singleton, Option.some.injEq] at hu
        exact Or.inr (Or.inl hu.symm)
      | cons p ps =>
        rw [List.getLast?_cons_cons] at hu
        exact hlast u hu
  | _, .term t, h => Sentence.split_at_in t (by simpa [Sentence.idents] using h)
  | _, .or t e, h => by
    simp only [Sentence.idents, List.mem_append] at h
    rcases h with h | h
    · obtain ⟨pre, post, htoks, hlast⟩ := Sentence.split_at_in t h
      exact ⟨pre, post ++ .OR :: e.toks, by simp [Sentence.toks, htoks], hlast⟩
    · obtain ⟨pre, post, htoks, hlast⟩ := Sentence.split_at_in e h
      refine ⟨t.toks ++ .OR :: pre, post, by simp [Sentence.toks, htoks], ?_⟩
      intro u hu
      rw [getLast?_append_cons] at hu
      cases pre with
      | nil =>
        simp only [List.getLast?_singleton, Option.some.injEq] at hu
        exact Or.inr (Or.inr hu.symm)
      | cons p ps =>
        rw [List.getLast?_cons_cons] at hu
        exact hlast u hu

theorem getLast?_map_toToken (pre : List Tok) (u : ExpressionToken)
    (h : (pre.map Tok.toToken).getLast? = some u) :
    ∃ t, pre.getLast? = some t ∧ u = t.toToken := by
  rw [List.getLast?_map] at h
  cases hp : pre.getLast? with
  | none => rw [hp] at h; simp at h
  | some t =>
    rw [hp] at h
    simp only [Option.map_some', Option.some.injEq] at h
    exact ⟨t, rfl, h.symm⟩

/-- The syntax check of the library refuses the tokens of a parse tree that
holds the identifier `in`. -/
theorem checkExpressionSyntax_of_in {l : Level} (x : Sentence l) (h : ['i', 'n'] ∈ x.idents) :
    ∃ e, checkExpressionSyntax (x.toks.map Tok.toToken) = .error e := by
  obtain ⟨pre, post, htoks, hlast⟩ := x.split_at_in h
  have hin : (Tok.ident ['i', 'n']).toToken = ⟨.COMPARATOR, .str "in"⟩ := by decide
  rw [htoks, List.map_append, List.map_cons, hin]
  unfold checkExpressionSyntax
  apply checkExpressionSyntaxLoop_blocked
  · intro u hu
    obtain ⟨t, ht, rfl⟩ := getLast?_map_toToken pre u hu
    rcases hlast t ht with rfl | rfl | rfl
    · exact Or.inl rfl
    · exact Or.inr rfl
    · exact Or.inr rfl
  · intro _
    exact Or.inl rfl

/-- An expression of the grammar that holds the identifier `in` fails when the
library creates it, whatever the parameters. -/
theorem EvaluateLogicalExpression_of_in (s : String) (e : Sentence .expression)
    (parameters : Parameters) (hw : IsWrittenAs s e)
    (hid : ∀ name ∈ e.idents, IsIdentifier name) (hin : ['i', 'n'] ∈ e.idents) :
    ∃ err, EvaluateLogicalExpression s parameters = .returned (false, some (.creating err)) := by
  obtain ⟨lead, w, hlead, hww, hmap, hdata⟩ := written_wellWritten hw hid
  obtain ⟨text, htext, hloop⟩ := parseTokensLoop_text s lead w hlead hww hdata
  have hmap2 : w.map (fun tg => tg.1.toToken) = e.toks.map Tok.toToken := by
    rw [← hmap]
    simp [List.map_map, Function.comp_def]
  obtain ⟨err0, hsyn⟩ := checkExpressionSyntax_of_in e hin
  rw [hmap2] at hloop
  obtain ⟨err, hnew⟩ := creation_error_of_syntax text _ err0 hloop hsyn
  refine ⟨err, ?_⟩
  unfold EvaluateLogicalExpression
  simp only [htext, hnew]

/-! ## C17 -/

theorem Sentence.run_congr (env1 env2 : List Char → Reading) : ∀ {l : Level} (x : Sentence l),
    (∀ name ∈ x.idents, env1 name = env2 name) → x.run env1 = x.run env2
  | _, .ident name, h => h name (by simp [Sentence.idents])
  | _, .paren e, h => by
    simpa [Sentence.run] using
      Sentence.run_congr env1 env2 e (fun n hn => h n (by simpa [Sentence.idents] using hn))
  | _, .factor f, h => by
    simpa [Sentence.run] using
      Sentence.run_congr env1 env2 f (fun n hn => h n (by simpa [Sentence.idents] using hn))
  | _, .and f t, h => by
    simp only [Sentence.run]
    rw [Sentence.run_congr env1 env2 f (fun n hn => h n (by simp [Sentence.idents, hn])),
      Sentence.run_congr env1 env2 t (fun n hn => h n (by simp [Sentence.idents, hn]))]
  | _, .term t, h => by
    simpa [Sentence.run] using
      Sentence.run_congr env1 env2 t (fun n hn => h n (by simpa [Sentence.idents] using hn))
  | _, .or t e, h => by
    simp only [Sentence.run]
    rw [Sentence.run_congr env1 env2 t (fun n hn => h n (by simp [Sentence.idents, hn])),
      Sentence.run_congr env1 env2 e (fun n hn => h n (by simp [Sentence.idents, hn]))]

theorem get?_cons_of_ne (parameters : Parameters) (key other : String) (value : Int)
    (h : other ≠ key) :
    Parameters.get? ((key, value) :: parameters) other = parameters.get? other := by
  unfold Parameters.get?
  have hk : (key == other) = false := by simpa using fun h1 => h h1.symm
  simp only [List.find?_cons, hk]

theorem verdict_returned (exp1 exp2 : EvaluableExpression) (parameters1 parameters2 : Parameters)
    (x : Reading) :
    verdict (x.returned exp1 parameters1) = verdict (x.returned exp2 parameters2) := by
  cases x <;> rfl

/-- C17 as stated fails at the expression text "X" with the empty map and the
key `X`: the key is neither in the map nor among the collected names, and
adding it with the value 1 turns a failure into the result true. -/
theorem C17_counterexample :
    GetLogicalExpressionParameters "X" = []
    ∧ Parameters.get? [] "X" = none
    ∧ verdict (EvaluateLogicalExpression "X" []) = some (false, false)
    ∧ verdict (EvaluateLogicalExpression "X" [("X", 1)]) = some (true, true) := by
  decide

/-- C17, amended: extra bindings are ignored. For every expression `e` of the
AND/OR grammar, written out as the text `s`, every parameters map and every
key that is not a name of `GetLogicalExpressionParameters s`, adding the key
with any integer value to the map changes neither the success nor the boolean
result of `EvaluateLogicalExpression`. -/
theorem C17_extra_bindings_are_ignored (s : String) (e : Sentence .expression)
    (parameters : Parameters) (key : String) (value : Int) (hw : IsWrittenAs s e)
    (hid : ∀ name ∈ e.idents, IsIdentifier name)
    (hkey : key ∉ GetLogicalExpressionParameters s) :
    verdict (EvaluateLogicalExpression s ((key, value) :: parameters))
      = verdict (EvaluateLogicalExpression s parameters) := by
  by_cases hin : ['i', 'n'] ∈ e.idents
  · obtain ⟨err1, h1⟩ :=
      EvaluateLogicalExpression_of_in s e ((key, value) :: parameters) hw hid hin
    obtain ⟨err2, h2⟩ := EvaluateLogicalExpression_of_in s e parameters hw hid hin
    rw [h1, h2]
    rfl
  · obtain ⟨exp1, _, hrun1⟩ :=
      EvaluateLogicalExpression_run s e ((key, value) :: parameters) hw hid hin
    obtain ⟨exp2, _, hrun2⟩ := EvaluateLogicalExpression_run s e parameters hw hid hin
    have hsame : e.run (lookup ((key, value) :: parameters)) = e.run (lookup parameters) := by
      apply Sentence.run_congr
      intro name hn
      have hmem := idents_subset_parameters s e hw hid name hn
      have hne : String.mk name ≠ key := by
        rintro rfl
        exact hkey hmem
      simp only [lookup, get?_cons_of_ne parameters key (String.mk name) value hne]
    rw [hrun1, hrun2, hsame]
    exact verdict_returned _ _ _ _ _

/-- C17 at "z AND y" with z = 1, y = 1 and the extra key x = 0: the result is
true with and without the extra key. -/
theorem C17_witness :
    verdict (EvaluateLogicalExpression "z AND y" [("x", 0), ("z", 1), ("y", 1)])
      = verdict (EvaluateLogicalExpression "z AND y" [("z", 1), ("y", 1)])
    ∧ EvaluateLogicalExpression "z AND y" [("x", 0), ("z", 1), ("y", 1)]
      = .returned (true, none) :=
  ⟨C17_extra_bindings_are_ignored "z AND y" (Sentence.conj ['z'] ['y'])
    [("z", 1), ("y", 1)] "x" 0 (isWrittenAs_conj ['z'] ['y'])
    (by
      intro name hn
      simp only [Sentence.conj, Sentence.idents, List.cons_append, List.nil_append,
        List.mem_cons, List.mem_singleton, List.not_mem_nil, or_false] at hn
      rcases hn with rfl | rfl <;> decide)
    (by decide), by decide⟩

/-! ## C16 -/

theorem verdict_of_bound (s : String) (e : Sentence .expression) (parameters : Parameters)
    (hw : IsWrittenAs s e) (hid : ∀ name ∈ e.idents, IsIdentifier name)
    (hbound : ∀ key ∈ GetLogicalExpressionParameters s, parameters.get? key ≠ none) :
    (['i', 'n'] ∈ e.idents ∧ verdict (EvaluateLogicalExpression s parameters) = some (false, false))
    ∨ (['i', 'n'] ∉ e.idents
        ∧ EvaluateLogicalExpression s parameters
          = .returned (e.value (libReading parameters), none)) := by
  by_cases hin : ['i', 'n'] ∈ e.idents
  · obtain ⟨err, h⟩ := EvaluateLogicalExpression_of_in s e parameters hw hid hin
    exact Or.inl ⟨hin, by rw [h]; rfl⟩
  · exact Or.inr ⟨hin, EvaluateLogicalExpression_sentence s e parameters hw hid hin
      (fun name hn _ => hbound _ (idents_subset_parameters s e hw hid name hn))⟩

/-- C16: the code accepts "x AND 1", and validity depends on the values used
for the check. With x = 0 the left operand is false, `&&` does not read the
numeral, and the text is valid; with x = 1 the evaluation fails, so a stored
expression that passed validation is answered with 500. The same holds of the
text "x OR z OR 1" of the tests: it fails with x = 0, z = 0 and succeeds with
x = 1, z = 0. On the expressions of the AND/OR grammar the claim holds: two
maps that bind every collected parameter both succeed or both fail, and a
valid expression evaluates without error under every such map. -/
theorem C16_validity_depends_on_the_values (s : String) (e : Sentence .expression)
    (m1 m2 : Parameters) (hw : IsWrittenAs s e) (hid : ∀ name ∈ e.idents, IsIdentifier name)
    (hb1 : ∀ key ∈ GetLogicalExpressionParameters s, m1.get? key ≠ none)
    (hb2 : ∀ key ∈ GetLogicalExpressionParameters s, m2.get? key ≠ none) :
    (GetLogicalExpressionParameters "x AND 1" = ["x"]
      ∧ IsLogicalExpressionValid "x AND 1" = .returned true
      ∧ validateExpression "x AND 1" = .returned none
      ∧ EvaluateLogicalExpression "x AND 1" [("x", 0)] = .returned (false, none)
      ∧ verdict (EvaluateLogicalExpression "x AND 1" [("x", 1)]) = some (false, false)
      ∧ ExpressionHandler.EvaluateExpression (fun _ => true) (singleRepository "x AND 1") ()
          listOrder 1 [("x", 1)]
        = .returned (⟨500, .error "An Internal Server error occurred"⟩, ())
      ∧ verdict (EvaluateLogicalExpression "x OR z OR 1" [("x", 0), ("z", 0)])
        = some (false, false)
      ∧ EvaluateLogicalExpression "x OR z OR 1" [("x", 1), ("z", 0)] = .returned (true, none))
    ∧ (verdict (EvaluateLogicalExpression s m1)).map Prod.fst
        = (verdict (EvaluateLogicalExpression s m2)).map Prod.fst
    ∧ (IsLogicalExpressionValid s = .returned true →
        ∃ b, EvaluateLogicalExpression s m1 = .returned (b, none)) := by
  refine ⟨by decide, ?_, ?_⟩
  · rcases verdict_of_bound s e m1 hw hid hb1 with ⟨hin, h1⟩ | ⟨hin, h1⟩
    · rcases verdict_of_bound s e m2 hw hid hb2 with ⟨_, h2⟩ | ⟨hin2, _⟩
      · rw [h1, h2]
      · exact absurd hin hin2
    · rcases verdict_of_bound s e m2 hw hid hb2 with ⟨hin2, _⟩ | ⟨_, h2⟩
      · exact absurd hin2 hin
      · rw [h1, h2]
        rfl
  · intro hvalid
    rcases verdict_of_bound s e m1 hw hid hb1 with ⟨hin, _⟩ | ⟨_, h1⟩
    · exfalso
      obtain ⟨err, h⟩ := EvaluateLogicalExpression_of_in s e
        ((GetLogicalExpressionParameters s).map (fun key => (key, (0 : Int)))) hw hid hin
      unfold IsLogicalExpressionValid at hvalid
      simp only [h] at hvalid
      simp at hvalid
    · exact ⟨_, h1⟩

/-- C16 at the expression "z AND y" with the maps z = 1, y = 1 and z = 0,
y = 0: both calls succeed. -/
theorem C16_witness :
    (verdict (EvaluateLogicalExpression "z AND y" [("z", 1), ("y", 1)])).map Prod.fst
      = (verdict (EvaluateLogicalExpression "z AND y" [("z", 0), ("y", 0)])).map Prod.fst
    ∧ verdict (EvaluateLogicalExpression "z AND y" [("z", 1), ("y", 1)]) = some (true, true) :=
  ⟨(C16_validity_depends_on_the_values "z AND y" (Sentence.conj ['z'] ['y'])
    [("z", 1), ("y", 1)] [("z", 0), ("y", 0)] (isWrittenAs_conj ['z'] ['y'])
    (by
      intro name hn
      simp only [Sentence.conj, Sentence.idents, List.cons_append, List.nil_append,
        List.mem_cons, List.mem_singleton, List.not_mem_nil, or_false] at hn
      rcases hn with rfl | rfl <;> decide)
    (by decide) (by decide)).2.1, by decide⟩

/-! ## C25 -/

theorem EvaluateLogicalExpression_error_false (s : String) (parameters : Parameters) (b : Bool)
    (err : EvalError) (h : EvaluateLogicalExpression s parameters = .returned (b, some err)) :
    b = false := by
  unfold EvaluateLogicalExpression at h
  cases h1 : NewEvaluableExpression (ReplaceAll (ReplaceAll s "AND" "&&") "OR" "||") with
  | error e =>
    simp only [h1, Outcome.returned.injEq, Prod.mk.injEq] at h
    exact h.1.symm
  | ok exp =>
    cases h2 : exp.Evaluate (paramsToEvaluate parameters) with
    | error e =>
      simp only [h1, h2, Outcome.returned.injEq, Prod.mk.injEq] at h
      exact h.1.symm
    | ok v => cases v <;> simp [h1, h2] at h

theorem EvaluateExpression_error_false {σ : Type} (expressionRepository : ExpressionRepository σ)
    (store st : σ) (range : RangeOrder) (ID : Int) (parameters : Parameters) (b : Bool)
    (err : ServiceError)
    (h : EvaluateExpression expressionRepository store range ID parameters
      = .returned ((b, some err), st)) :
    b = false := by
  unfold EvaluateExpression at h
  cases h1 : expressionRepository.GetExpressionByID store ID with
  | mk r store1 =>
    cases r with
    | error e =>
      cases e <;>
        (simp only [h1, Outcome.returned.injEq, Prod.mk.injEq] at h; exact h.1.1.symm)
    | ok exp =>
      simp only [h1] at h
      cases h2 : firstMissing parameters
          (range.order (GetLogicalExpressionParameters exp.Value)) with
      | some key =>
        simp only [h2, Outcome.returned.injEq, Prod.mk.injEq] at h
        exact h.1.1.symm
      | none =>
        simp only [h2] at h
        cases h3 : EvaluateLogicalExpression exp.Value parameters with
        | panicked => simp [h3] at h
        | returned r =>
          obtain ⟨res, e⟩ := r
          cases e with
          | none => simp [h3] at h
          | some e =>
            simp only [h3, Outcome.returned.injEq, Prod.mk.injEq] at h
            exact h.1.1.symm

/-- C25: whenever `EvaluateLogicalExpression` returns a non-nil error, the
boolean it returns is false, and so for the service's `EvaluateExpression`;
the boolean is true only together with a nil error. -/
theorem C25_an_error_comes_with_false {σ : Type} (s : String) (parameters : Parameters)
    (b : Bool) (err : EvalError)
    (expressionRepository : ExpressionRepository σ) (store : σ) (range : RangeOrder) (ID : Int)
    (h : EvaluateLogicalExpression s parameters = .returned (b, some err)) :
    b = false
    ∧ (∀ anyErr, EvaluateLogicalExpression s parameters = .returned (true, anyErr) →
        anyErr = none)
    ∧ (∀ res serviceErr st,
        EvaluateExpression expressionRepository store range ID parameters
          = .returned ((res, some serviceErr), st) → res = false)
    ∧ (∀ anyErr st,
        EvaluateExpression expressionRepository store range ID parameters
          = .returned ((true, anyErr), st) → anyErr = none) := by
  refine ⟨EvaluateLogicalExpression_error_false s parameters b err h, ?_, ?_, ?_⟩
  · intro anyErr h1
    cases anyErr with
    | none => rfl
    | some e => exact absurd (EvaluateLogicalExpression_error_false s parameters true e h1) (by simp)
  · intro res serviceErr st h1
    exact EvaluateExpression_error_false expressionRepository store st range ID parameters res
      serviceErr h1
  · intro anyErr st h1
    cases anyErr with
    | none => rfl
    | some e =>
      exact absurd (EvaluateExpression_error_false expressionRepository store st range ID
        parameters true e h1) (by simp)

/-- C25 at "x AND" with x = 1, an error case of the tests: the call returns an
error and false, and it returns true with no error only. -/
theorem C25_witness :
    EvaluateLogicalExpression "x AND" [("x", 1)]
      = .returned (false, some (.creating (.message "Unexpected end of expression")))
    ∧ (∀ anyErr, EvaluateLogicalExpression "x AND" [("x", 1)] = .returned (true, anyErr) →
        anyErr = none) :=
  ⟨by decide,
    (C25_an_error_comes_with_false "x AND" [("x", 1)] false
      (.creating (.message "Unexpected end of expression")) (singleRepository "x AND") ()
      listOrder 1 (by decide)).2.1⟩

/-! ## Lemmas on the collector -/

theorem findAllFrom_lower (rest : List Char) : ∀ (name cur : List Char),
    (∀ c ∈ name, isLowerAZ c = true) →
    findAllFrom cur (name ++ rest) = findAllFrom (cur ++ name) rest
  | [], cur, _ => by simp
  | c :: cs, cur, h => by
    have hc := h c (List.mem_cons_self _ _)
    rw [List.cons_append, findAllFrom]
    simp only [hc, if_true]
    rw [findAllFrom_lower rest cs (cur ++ [c]) (fun d hd => h d (List.mem_cons_of_mem _ hd))]
    simp

theorem findAllFrom_sep (c : Char) (r : List Char) (hc : isLowerAZ c = false) :
    ∀ (l cur : List Char),
      findAllFrom cur (l ++ c :: r) = findAllFrom cur l ++ findAllFrom [] r
  | [], cur => by
    rw [List.nil_append, findAllFrom, findAllFrom]
    simp only [hc, Bool.false_eq_true, if_false]
    split <;> simp
  | d :: ds, cur => by
    rw [List.cons_append, findAllFrom, findAllFrom]
    by_cases hd : isLowerAZ d = true
    · simp only [hd, if_true]
      exact findAllFrom_sep c r hc ds _
    · have hd2 : isLowerAZ d = false := by simpa using hd
      simp only [hd2, Bool.false_eq_true, if_false]
      rw [findAllFrom_sep c r hc ds []]
      cases cur <;> rfl

theorem findAllFrom_skip (r : List Char) : ∀ (sep : List Char),
    (∀ c ∈ sep, isLowerAZ c = false) → findAllFrom [] (sep ++ r) = findAllFrom [] r
  | [], _ => rfl
  | c :: cs, h => by
    rw [List.cons_append, findAllFrom]
    simp only [h c (List.mem_cons_self _ _), Bool.false_eq_true, if_false, List.isEmpty_nil,
      if_true]
    exact findAllFrom_skip r cs (fun d hd => h d (List.mem_cons_of_mem _ hd))

theorem findAllFrom_eq_nil_iff : ∀ (l cur : List Char),
    findAllFrom cur l = [] ↔ cur = [] ∧ ∀ c ∈ l, isLowerAZ c = false
  | [], cur => by
    rw [findAllFrom]
    cases cur <;> simp
  | d :: ds, cur => by
    rw [findAllFrom]
    by_cases hd : isLowerAZ d = true
    · simp only [hd, if_true]
      rw [findAllFrom_eq_nil_iff ds (cur ++ [d])]
      simp [hd]
    · have hd2 : isLowerAZ d = false := by simpa using hd
      simp only [hd2, Bool.false_eq_true, if_false]
      cases cur with
      | nil =>
        simp only [List.isEmpty_nil, if_true]
        rw [findAllFrom_eq_nil_iff ds []]
        simp [hd2]
      | cons x xs => simp

theorem foldl_setInsert_ne_nil : ∀ (l acc : List String), acc ≠ [] →
    l.foldl setInsert acc ≠ []
  | [], acc, h => h
  | x :: xs, acc, h => by
    rw [List.foldl_cons]
    apply foldl_setInsert_ne_nil xs
    unfold setInsert
    split
    · exact h
    · simp

theorem GetLogicalExpressionParameters_eq_nil_iff (s : String) :
    GetLogicalExpressionParameters s = [] ↔ ∀ c ∈ s.data, isLowerAZ c = false := by
  have hiff : findAllFrom [] s.data = [] ↔ ∀ c ∈ s.data, isLowerAZ c = false := by
    rw [findAllFrom_eq_nil_iff]
    simp
  unfold GetLogicalExpressionParameters FindAllString
  rw [← hiff]
  cases findAllFrom [] s.data with
  | nil => simp
  | cons x xs =>
    simp only [List.map_cons, List.foldl_cons, reduceCtorEq, iff_false]
    apply foldl_setInsert_ne_nil
    simp [setInsert]

/-! ## C26 -/

/-- C26: for every string `s`, every name of `GetLogicalExpressionParameters s`
is non-empty and made of the letters `a`-`z` only; the keywords "AND" and "OR"
are never collected; and the result is empty if and only if `s` holds no
lowercase letter. -/
theorem C26_names_are_lowercase_words (s : String) :
    (∀ name ∈ GetLogicalExpressionParameters s,
      name ≠ "" ∧ ∀ c ∈ name.data, isLowerAZ c = true)
    ∧ "AND" ∉ GetLogicalExpressionParameters s
    ∧ "OR" ∉ GetLogicalExpressionParameters s
    ∧ (GetLogicalExpressionParameters s = [] ↔ ∀ c ∈ s.data, isLowerAZ c = false) := by
  have hname : ∀ name ∈ GetLogicalExpressionParameters s,
      name ≠ "" ∧ ∀ c ∈ name.data, isLowerAZ c = true := by
    intro name hn
    obtain ⟨hne, hlow, _⟩ := (mem_GetLogicalExpressionParameters s name).mp hn
    refine ⟨?_, hlow⟩
    rintro rfl
    exact hne rfl
  refine ⟨hname, ?_, ?_, GetLogicalExpressionParameters_eq_nil_iff s⟩
  · intro h
    have := (hname "AND" h).2 'A' (by decide)
    revert this
    decide
  · intro h
    have := (hname "OR" h).2 'O' (by decide)
    revert this
    decide

/-! ## C27 -/

theorem FindAllString_separated (s t : String) (sep : List Char) (hsep : sep ≠ [])
    (hlow : ∀ c ∈ sep, isLowerAZ c = false) :
    FindAllString (s ++ String.mk sep ++ t) = FindAllString s ++ FindAllString t := by
  unfold FindAllString
  cases sep with
  | nil => exact absurd rfl hsep
  | cons c cs =>
    simp only [String.data_append, List.append_assoc, List.cons_append]
    rw [findAllFrom_sep c _ (hlow c (List.mem_cons_self _ _)) s.data [],
      findAllFrom_skip t.data cs (fun d hd => hlow d (List.mem_cons_of_mem _ hd)),
      List.map_append]

theorem mem_parameters_separated (s t : String) (sep : List Char) (hsep : sep ≠ [])
    (hlow : ∀ c ∈ sep, isLowerAZ c = false) (w : String) :
    w ∈ GetLogicalExpressionParameters (s ++ String.mk sep ++ t)
      ↔ w ∈ GetLogicalExpressionParameters s ∨ w ∈ GetLogicalExpressionParameters t := by
  unfold GetLogicalExpressionParameters
  rw [FindAllString_separated s t sep hsep hlow]
  simp only [mem_foldl_setInsert, List.not_mem_nil, false_or, List.mem_append]

theorem parameters_wrapped (s : String) :
    GetLogicalExpressionParameters ("(" ++ s ++ ")") = GetLogicalExpressionParameters s := by
  unfold GetLogicalExpressionParameters FindAllString
  have h : ("(" ++ s ++ ")").data = '(' :: (s.data ++ [')']) := by
    simp only [String.data_append]
    rfl
  rw [h, ← List.nil_append ('(' :: (s.data ++ [')'])),
    findAllFrom_sep '(' _ (by decide) [] [], findAllFrom_sep ')' [] (by decide) s.data []]
  simp [findAllFrom]

/-- C27: the parameters of a compound expression are the union of the
parameters of its parts. For all strings `s`, `t` and each of the separators
" AND " and " OR ", a name is collected from `s ++ separator ++ t` if and only
if it is collected from `s` or from `t`; the matches of the regular expression
are those of `s` followed by those of `t`; and wrapping `s` in parentheses
leaves its parameter set unchanged. -/
theorem C27_parameters_of_a_compound (s t : String) :
    (∀ w, w ∈ GetLogicalExpressionParameters (s ++ " AND " ++ t)
      ↔ w ∈ GetLogicalExpressionParameters s ∨ w ∈ GetLogicalExpressionParameters t)
    ∧ (∀ w, w ∈ GetLogicalExpressionParameters (s ++ " OR " ++ t)
      ↔ w ∈ GetLogicalExpressionParameters s ∨ w ∈ GetLogicalExpressionParameters t)
    ∧ FindAllString (s ++ " AND " ++ t) = FindAllString s ++ FindAllString t
    ∧ FindAllString (s ++ " OR " ++ t) = FindAllString s ++ FindAllString t
    ∧ GetLogicalExpressionParameters ("(" ++ s ++ ")") = GetLogicalExpressionParameters s :=
  ⟨mem_parameters_separated s t [' ', 'A', 'N', 'D', ' '] (by simp) (by decide),
    mem_parameters_separated s t [' ', 'O', 'R', ' '] (by simp) (by decide),
    FindAllString_separated s t [' ', 'A', 'N', 'D', ' '] (by simp) (by decide),
    FindAllString_separated s t [' ', 'O', 'R', ' '] (by simp) (by decide),
    parameters_wrapped s⟩

/-! ## Lemmas on `strings.ReplaceAll` -/

theorem replaceAllFrom_drop (old new rest : List Char) : ∀ (pre : List Char),
    replaceAllFrom old new pre.length (pre ++ rest) = replaceAllFrom old new 0 rest
  | [] => rfl
  | c :: cs => by
    rw [List.length_cons, List.cons_append, replaceAllFrom]
    exact replaceAllFrom_drop old new rest cs

theorem isPrefixOf_eq_true_iff (p l : List Char) :
    p.isPrefixOf l = true ↔ ∃ rest, l = p ++ rest := by
  induction p generalizing l with
  | nil => simp
  | cons a as ih =>
    cases l with
    | nil => simp [List.isPrefixOf]
    | cons b bs =>
      simp only [List.isPrefixOf, Bool.and_eq_true, beq_iff_eq, ih, List.cons_append,
        List.cons.injEq]
      constructor
      · rintro ⟨rfl, rest, rfl⟩
        exact ⟨rest, rfl, rfl⟩
      · rintro ⟨rest, rfl, rfl⟩
        exact ⟨rfl, rest, rfl⟩

theorem replaceAllFrom_match (old new rest : List Char) (hold : old ≠ []) :
    replaceAllFrom old new 0 (old ++ rest) = new ++ replaceAllFrom old new 0 rest := by
  cases old with
  | nil => exact absurd rfl hold
  | cons a as =>
    have hp : (a :: as).isPrefixOf (a :: (as ++ rest)) = true := by
      rw [isPrefixOf_eq_true_iff]
      exact ⟨rest, rfl⟩
    rw [List.cons_append, replaceAllFrom]
    simp only [hp, if_true, List.length_cons, Nat.add_sub_cancel]
    rw [replaceAllFrom_drop]

theorem replaceAllFrom_keep (old new : List Char) (c : Char) (cs : List Char)
    (h : old.isPrefixOf (c :: cs) = false) :
    replaceAllFrom old new 0 (c :: cs) = c :: replaceAllFrom old new 0 cs := by
  rw [replaceAllFrom]
  simp only [h, Bool.false_eq_true, if_false]

/-- Induction along the scan of `strings.ReplaceAll`: the text is empty, or
starts with an occurrence of `old`, or starts with a character that is kept. -/
theorem replace_induction (old : List Char) (hold : old ≠ []) (P : List Char → Prop)
    (h0 : P [])
    (hm : ∀ rest, P rest → P (old ++ rest))
    (hk : ∀ c cs, old.isPrefixOf (c :: cs) = false → P cs → P (c :: cs)) :
    ∀ l, P l := by
  have hall : ∀ n l, l.length ≤ n → P l := by
    intro n
    induction n with
    | zero =>
      intro l hl
      have : l = [] := List.length_eq_zero.mp (Nat.le_zero.mp hl)
      subst this
      exact h0
    | succ n ih =>
      intro l hl
      cases l with
      | nil => exact h0
      | cons c cs =>
        cases hp : old.isPrefixOf (c :: cs) with
        | false => exact hk c cs hp (ih cs (by simpa using hl))
        | true =>
          obtain ⟨rest, hrest⟩ := (isPrefixOf_eq_true_iff old (c :: cs)).mp hp
          rw [hrest]
          apply hm
          cases old with
          | nil => exact absurd rfl hold
          | cons a as =>
            apply ih
            have := congrArg List.length hrest
            simp only [List.length_cons, List.length_append] at this hl
            omega
  intro l
  exact hall l.length l (Nat.le_refl _)

theorem findAllFrom_block (r : List Char) (blk : List Char) (hne : blk ≠ [])
    (hlow : ∀ c ∈ blk, isLowerAZ c = false) (cur : List Char) :
    findAllFrom cur (blk ++ r) = findAllFrom cur [] ++ findAllFrom [] r := by
  cases blk with
  | nil => exact absurd rfl hne
  | cons c cs =>
    have h := findAllFrom_sep c (cs ++ r) (hlow c (List.mem_cons_self _ _)) [] cur
    rw [List.nil_append] at h
    rw [List.cons_append, h,
      findAllFrom_skip r cs (fun d hd => hlow d (List.mem_cons_of_mem _ hd))]

/-- Replacing a word without lowercase letters by another such word keeps the
matches of `[a-z]+`. -/
theorem findAllFrom_replaceAllFrom (old new : List Char) (hold : old ≠ []) (hnew : new ≠ [])
    (holdlow : ∀ c ∈ old, isLowerAZ c = false) (hnewlow : ∀ c ∈ new, isLowerAZ c = false) :
    ∀ l cur, findAllFrom cur (replaceAllFrom old new 0 l) = findAllFrom cur l := by
  apply replace_induction old hold
  · intro cur
    rfl
  · intro rest ih cur
    rw [replaceAllFrom_match old new rest hold, findAllFrom_block _ new hnew hnewlow,
      findAllFrom_block _ old hold holdlow, ih]
  · intro c cs hp ih cur
    rw [replaceAllFrom_keep old new c cs hp, findAllFrom, findAllFrom]
    simp only [ih]

/-! ## C28 -/

/-- C28: the parameter collector and the keyword substitution agree on the
variables. For every string `s`, `GetLogicalExpressionParameters` applied to
`s` after replacing every "AND" by "&&" and then every "OR" by "||" equals
`GetLogicalExpressionParameters s`, and so do the matches of the regular
expression. -/
theorem C28_substitution_keeps_the_parameters (s : String) :
    GetLogicalExpressionParameters (ReplaceAll (ReplaceAll s "AND" "&&") "OR" "||")
      = GetLogicalExpressionParameters s
    ∧ FindAllString (ReplaceAll (ReplaceAll s "AND" "&&") "OR" "||") = FindAllString s := by
  have h : FindAllString (ReplaceAll (ReplaceAll s "AND" "&&") "OR" "||") = FindAllString s := by
    unfold FindAllString ReplaceAll
    have h1 : ("AND" : String).data = ['A', 'N', 'D'] := rfl
    have h2 : ("&&" : String).data = ['&', '&'] := rfl
    have h3 : ("OR" : String).data = ['O', 'R'] := rfl
    have h4 : ("||" : String).data = ['|', '|'] := rfl
    simp only [h1, h2, h3, h4]
    rw [findAllFrom_replaceAllFrom ['O', 'R'] ['|', '|'] (by simp) (by simp) (by decide)
        (by decide),
      findAllFrom_replaceAllFrom ['A', 'N', 'D'] ['&', '&'] (by simp) (by simp) (by decide)
        (by decide)]
  refine ⟨?_, h⟩
  unfold GetLogicalExpressionParameters
  rw [h]

/-! ## C30 -/

theorem containsFrom_cons (p : List Char) (c : Char) (cs : List Char) :
    containsFrom p (c :: cs) = false
      ↔ p.isPrefixOf (c :: cs) = false ∧ containsFrom p cs = false := by
  rw [containsFrom, Bool.or_eq_false_iff]

theorem containsFrom_nil (p : List Char) (hp : p ≠ []) : containsFrom p [] = false := by
  cases p with
  | nil => exact absurd rfl hp
  | cons a as => rfl

/-- A prefix of the replaced text that holds no character of `new` is a prefix
of the text. -/
theorem isPrefixOf_replaceAllFrom (old new : List Char) (hold : old ≠ []) (hnew : new ≠ []) :
    ∀ (l q : List Char), (∀ c ∈ q, c ∉ new) →
      q.isPrefixOf (replaceAllFrom old new 0 l) = true →
      q.isPrefixOf l = true := by
  apply replace_induction old hold
  · intro q _ h
    exact h
  · intro rest _ q hq h
    rw [replaceAllFrom_match old new rest hold] at h
    cases q with
    | nil => simp
    | cons a as =>
      cases new with
      | nil => exact absurd rfl hnew
      | cons n ns =>
        simp only [List.cons_append, List.isPrefixOf, Bool.and_eq_true, beq_iff_eq] at h
        exact absurd (h.1 ▸ List.mem_cons_self _ _) (hq a (List.mem_cons_self _ _))
  · intro c cs hp ih q hq h
    rw [replaceAllFrom_keep old new c cs hp] at h
    cases q with
    | nil => simp
    | cons a as =>
      simp only [List.isPrefixOf, Bool.and_eq_true, beq_iff_eq] at h ⊢
      exact ⟨h.1, ih as (fun d hd => hq d (List.mem_cons_of_mem _ hd)) h.2⟩

/-- A block of characters that are not the first character of `p`, put before a
text without `p`, gives a text without `p`. -/
theorem containsFrom_block (a : Char) (ps X : List Char) (hX : containsFrom (a :: ps) X = false) :
    ∀ blk : List Char, (∀ c ∈ blk, c ≠ a) → containsFrom (a :: ps) (blk ++ X) = false
  | [], _ => hX
  | c :: cs, h => by
    rw [List.cons_append, containsFrom_cons]
    refine ⟨?_, containsFrom_block a ps X hX cs (fun d hd => h d (List.mem_cons_of_mem _ hd))⟩
    have hc : (a == c) = false := by
      simpa using fun h1 => h c (List.mem_cons_self _ _) h1.symm
    simp only [List.isPrefixOf, hc, Bool.false_and]

theorem containsFrom_suffix (p : List Char) (r : List Char) : ∀ l : List Char,
    containsFrom p (l ++ r) = false → containsFrom p r = false
  | [], h => h
  | c :: cs, h => by
    rw [List.cons_append, containsFrom_cons] at h
    exact containsFrom_suffix p r cs h.2

/-- Replacing `old` by `new` keeps a text free of the word `p`, when `new` holds
no character of `p`. -/
theorem containsFrom_replaceAllFrom (old new p : List Char) (hold : old ≠ []) (hnew : new ≠ [])
    (hp : p ≠ []) (hdisj : ∀ c ∈ p, c ∉ new) :
    ∀ l, containsFrom p l = false → containsFrom p (replaceAllFrom old new 0 l) = false := by
  cases p with
  | nil => exact absurd rfl hp
  | cons a ps =>
    apply replace_induction old hold
    · intro h
      exact h
    · intro rest ih h
      rw [replaceAllFrom_match old new rest hold]
      apply containsFrom_block a ps _ (ih (containsFrom_suffix _ rest old h))
      intro c hc hca
      exact hdisj a (List.mem_cons_self _ _) (hca ▸ hc)
    · intro c cs hk ih h
      rw [containsFrom_cons] at h
      rw [replaceAllFrom_keep old new c cs hk, containsFrom_cons]
      refine ⟨?_, ih h.2⟩
      cases hpre : (a :: ps).isPrefixOf (c :: replaceAllFrom old new 0 cs) with
      | false => rfl
      | true =>
        exfalso
        simp only [List.isPrefixOf, Bool.and_eq_true, beq_iff_eq] at hpre
        have h2 := isPrefixOf_replaceAllFrom old new hold hnew cs ps
          (fun d hd => hdisj d (List.mem_cons_of_mem _ hd)) hpre.2
        have h3 : (a :: ps).isPrefixOf (c :: cs) = true := by
          simp only [List.isPrefixOf, Bool.and_eq_true, beq_iff_eq]
          exact ⟨hpre.1, h2⟩
        rw [h3] at h
        exact absurd h.1 (by simp)

/-- The replaced text is free of `old`, when `new` holds no character of
`old`. -/
theorem containsFrom_replaceAllFrom_self (old new : List Char) (hold : old ≠ [])
    (hnew : new ≠ []) (hdisj : ∀ c ∈ old, c ∉ new) :
    ∀ l, containsFrom old (replaceAllFrom old new 0 l) = false := by
  cases hold0 : old with
  | nil => exact absurd hold0 hold
  | cons a ps =>
    rw [hold0] at hold hdisj
    apply replace_induction (a :: ps) hold
    · rfl
    · intro rest ih
      rw [replaceAllFrom_match (a :: ps) new rest hold]
      apply containsFrom_block a ps _ ih
      intro c hc hca
      exact hdisj a (List.mem_cons_self _ _) (hca ▸ hc)
    · intro c cs hk ih
      rw [replaceAllFrom_keep (a :: ps) new c cs hk, containsFrom_cons]
      refine ⟨?_, ih⟩
      cases hpre : (a :: ps).isPrefixOf (c :: replaceAllFrom (a :: ps) new 0 cs) with
      | false => rfl
      | true =>
        exfalso
        simp only [List.isPrefixOf, Bool.and_eq_true, beq_iff_eq] at hpre
        have h2 := isPrefixOf_replaceAllFrom (a :: ps) new hold hnew cs ps
          (fun d hd => hdisj d (List.mem_cons_of_mem _ hd)) hpre.2
        have h3 : (a :: ps).isPrefixOf (c :: cs) = true := by
          simp only [List.isPrefixOf, Bool.and_eq_true, beq_iff_eq]
          exact ⟨hpre.1, h2⟩
        rw [h3] at hk
        exact absurd hk (by simp)

/-- A text free of `old` is left as it is. -/
theorem replaceAllFrom_free (old new : List Char) : ∀ l : List Char,
    containsFrom old l = false → replaceAllFrom old new 0 l = l
  | [], _ => rfl
  | c :: cs, h => by
    rw [containsFrom_cons] at h
    rw [replaceAllFrom_keep old new c cs h.1, replaceAllFrom_free old new cs h.2]

/-- C30: after the two substitutions of `EvaluateLogicalExpression` the text
handed to the evaluator holds neither the substring "AND" nor the substring
"OR", for every input string; and an input that holds neither substring is
handed over unchanged. -/
theorem C30_no_keyword_is_left (s : String) :
    Contains (ReplaceAll (ReplaceAll s "AND" "&&") "OR" "||") "AND" = false
    ∧ Contains (ReplaceAll (ReplaceAll s "AND" "&&") "OR" "||") "OR" = false
    ∧ (Contains s "AND" = false → Contains s "OR" = false →
        ReplaceAll (ReplaceAll s "AND" "&&") "OR" "||" = s) := by
  have h1 : ("AND" : String).data = ['A', 'N', 'D'] := rfl
  have h2 : ("&&" : String).data = ['&', '&'] := rfl
  have h3 : ("OR" : String).data = ['O', 'R'] := rfl
  have h4 : ("||" : String).data = ['|', '|'] := rfl
  unfold Contains ReplaceAll
  simp only [h1, h2, h3, h4]
  refine ⟨?_, ?_, ?_⟩
  · apply containsFrom_replaceAllFrom ['O', 'R'] ['|', '|'] ['A', 'N', 'D'] (by simp) (by simp)
      (by simp) (by decide)
    exact containsFrom_replaceAllFrom_self ['A', 'N', 'D'] ['&', '&'] (by simp) (by simp)
      (by decide) _
  · exact containsFrom_replaceAllFrom_self ['O', 'R'] ['|', '|'] (by simp) (by simp)
      (by decide) _
  · intro ha ho
    rw [replaceAllFrom_free ['A', 'N', 'D'] ['&', '&'] s.data ha,
      replaceAllFrom_free ['O', 'R'] ['|', '|'] s.data ho]

/-! ## C29 -/

theorem Sentence.value_mono (env1 env2 : List Char → Bool) : ∀ {l : Level} (x : Sentence l),
    (∀ name ∈ x.idents, env1 name = true → env2 name = true) →
    x.value env1 = true → x.value env2 = true
  | _, .ident name, h, hv => h name (by simp [Sentence.idents]) hv
  | _, .paren e, h, hv =>
    Sentence.value_mono env1 env2 e (fun n hn => h n (by simpa [Sentence.idents] using hn)) hv
  | _, .factor f, h, hv =>
    Sentence.value_mono env1 env2 f (fun n hn => h n (by simpa [Sentence.idents] using hn)) hv
  | _, .and f t, h, hv => by
    simp only [Sentence.value, Bool.and_eq_true] at hv ⊢
    exact ⟨Sentence.value_mono env1 env2 f (fun n hn => h n (by simp [Sentence.idents, hn])) hv.1,
      Sentence.value_mono env1 env2 t (fun n hn => h n (by simp [Sentence.idents, hn])) hv.2⟩
  | _, .term t, h, hv =>
    Sentence.value_mono env1 env2 t (fun n hn => h n (by simpa [Sentence.idents] using hn)) hv
  | _, .or t e, h, hv => by
    simp only [Sentence.value, Bool.or_eq_true] at hv ⊢
    rcases hv with hv | hv
    · exact Or.inl
        (Sentence.value_mono env1 env2 t (fun n hn => h n (by simp [Sentence.idents, hn])) hv)
    · exact Or.inr
        (Sentence.value_mono env1 env2 e (fun n hn => h n (by simp [Sentence.idents, hn])) hv)

theorem Sentence.value_const (b : Bool) : ∀ {l : Level} (x : Sentence l),
    x.value (fun _ => b) = b
  | _, .ident _ => rfl
  | _, .paren e => Sentence.value_const b e
  | _, .factor f => Sentence.value_const b f
  | _, .and f t => by
    simp only [Sentence.value, Sentence.value_const b f, Sentence.value_const b t, Bool.and_self]
  | _, .term t => Sentence.value_const b t
  | _, .or t e => by
    simp only [Sentence.value, Sentence.value_const b t, Sentence.value_const b e, Bool.or_self]

/-- C29 as stated fails at the expression `true` with the map true = 0: every
parameter is 0 and the expression is true. It fails too at `false` with the map
false = 1: every parameter is positive and the expression is false. -/
theorem C29_counterexample :
    IsWrittenAs "true" (Sentence.single ['t', 'r', 'u', 'e'])
    ∧ EvaluateLogicalExpression "true" [("true", 0)] = .returned (true, none)
    ∧ IsWrittenAs "false" (Sentence.single ['f', 'a', 'l', 's', 'e'])
    ∧ EvaluateLogicalExpression "false" [("false", 1)] = .returned (false, none) :=
  ⟨⟨[], [(.ident ['t', 'r', 'u', 'e'], [])], by decide, by decide, rfl, rfl⟩, by decide,
    ⟨[], [(.ident ['f', 'a', 'l', 's', 'e'], [])], by decide, by decide, rfl, rfl⟩, by decide⟩

/-- C29, amended: evaluation is monotone in the bindings. For every expression
`e` of the AND/OR grammar, written out as the text `s`, and any two parameters
maps that bind every identifier of `e`, with `m1[k] > 0` implying `m2[k] > 0`
for each identifier `k`, if `EvaluateLogicalExpression` is true under `m1` then
it is true under `m2`. When no identifier of `e` is `true`, `false` or `in`,
`e` is false when every parameter is 0 or less and true when every parameter is
positive. -/
theorem C29_evaluation_is_monotone (s : String) (e : Sentence .expression)
    (m1 m2 : Parameters) (hw : IsWrittenAs s e) (hid : ∀ name ∈ e.idents, IsIdentifier name)
    (hb1 : ∀ name ∈ e.idents, m1.get? (String.mk name) ≠ none)
    (hb2 : ∀ name ∈ e.idents, m2.get? (String.mk name) ≠ none)
    (hmono : ∀ name ∈ e.idents, reading m1 name = true → reading m2 name = true) :
    (EvaluateLogicalExpression s m1 = .returned (true, none) →
      EvaluateLogicalExpression s m2 = .returned (true, none))
    ∧ ((∀ name ∈ e.idents, name ∉ reservedWords) →
        (∀ name ∈ e.idents, reading m1 name = false) →
        EvaluateLogicalExpression s m1 = .returned (false, none))
    ∧ ((∀ name ∈ e.idents, name ∉ reservedWords) →
        (∀ name ∈ e.idents, reading m1 name = true) →
        EvaluateLogicalExpression s m1 = .returned (true, none)) := by
  refine ⟨?_, ?_, ?_⟩
  · intro h1
    by_cases hin : ['i', 'n'] ∈ e.idents
    · obtain ⟨err, herr⟩ := EvaluateLogicalExpression_of_in s e m1 hw hid hin
      rw [herr] at h1
      simp at h1
    · have e1 := EvaluateLogicalExpression_sentence s e m1 hw hid hin (fun n hn _ => hb1 n hn)
      have e2 := EvaluateLogicalExpression_sentence s e m2 hw hid hin (fun n hn _ => hb2 n hn)
      rw [e1] at h1
      simp only [Outcome.returned.injEq, Prod.mk.injEq, and_true] at h1
      rw [e2, Sentence.value_mono (libReading m1) (libReading m2) e ?_ h1]
      intro name hn
      unfold libReading
      split
      · exact id
      · split
        · exact id
        · exact hmono name hn
  · intro hres hzero
    rw [EvaluateLogicalExpression_plain_sentence s e m1 hw hid hres hb1,
      Sentence.value_congr (reading m1) (fun _ => false) e hzero, Sentence.value_const]
  · intro hres hpos
    rw [EvaluateLogicalExpression_plain_sentence s e m1 hw hid hres hb1,
      Sentence.value_congr (reading m1) (fun _ => true) e hpos, Sentence.value_const]

/-- C29 at "z AND y": true with z = 1, y = 1, hence true with z = 2, y = 5. -/
theorem C29_witness :
    EvaluateLogicalExpression "z AND y" [("z", 1), ("y", 1)] = .returned (true, none)
    ∧ EvaluateLogicalExpression "z AND y" [("z", 2), ("y", 5)] = .returned (true, none) :=
  ⟨by decide,
    (C29_evaluation_is_monotone "z AND y" (Sentence.conj ['z'] ['y'])
      [("z", 1), ("y", 1)] [("z", 2), ("y", 5)] (isWrittenAs_conj ['z'] ['y'])
      (by
        intro name hn
        simp only [Sentence.conj, Sentence.idents, List.cons_append, List.nil_append,
          List.mem_cons, List.mem_singleton, List.not_mem_nil, or_false] at hn
        rcases hn with rfl | rfl <;> decide)
      (by
        intro name hn
        simp only [Sentence.conj, Sentence.idents, List.cons_append, List.nil_append,
          List.mem_cons, List.mem_singleton, List.not_mem_nil, or_false] at hn
        rcases hn with rfl | rfl <;> decide)
      (by
        intro name hn
        simp only [Sentence.conj, Sentence.idents, List.cons_append, List.nil_append,
          List.mem_cons, List.mem_singleton, List.not_mem_nil, or_false] at hn
        rcases hn with rfl | rfl <;> decide)
      (by
        intro name hn
        simp only [Sentence.conj, Sentence.idents, List.cons_append, List.nil_append,
          List.mem_cons, List.mem_singleton, List.not_mem_nil, or_false] at hn
        rcases hn with rfl | rfl <;> decide)).1 (by decide)⟩

/-! ## Maps as lists of entries -/

theorem get?_cons (x : String × Int) (l : Parameters) (key : String) :
    Parameters.get? (x :: l) key = if x.1 = key then some x.2 else Parameters.get? l key := by
  unfold Parameters.get?
  by_cases h : x.1 = key
  · simp [List.find?_cons, h]
  · have h2 : (x.1 == key) = false := by simpa using h
    simp [List.find?_cons, h, h2]

/-- Two lists of the same entries with distinct keys are the same map. -/
theorem get?_perm {p1 p2 : Parameters} (h : p1.Perm p2) :
    (p1.map Prod.fst).Nodup → ∀ key, Parameters.get? p1 key = Parameters.get? p2 key := by
  induction h with
  | nil => intro _ _; rfl
  | cons x _ ih =>
    intro hn key
    have hn2 : (x.1 :: _).Nodup := hn
    rw [get?_cons, get?_cons, ih (List.nodup_cons.mp hn2).2]
  | swap x y l =>
    intro hn key
    rw [get?_cons, get?_cons, get?_cons, get?_cons]
    have hne : x.1 ≠ y.1 := by
      intro h
      simp only [List.map_cons, List.nodup_cons, List.mem_cons, not_or] at hn
      exact hn.1.1 h.symm
    by_cases hx : x.1 = key
    · have hy : ¬ y.1 = key := fun hy => hne (hx.trans hy.symm)
      simp [hx, hy]
    · simp [hx]
  | trans h1 _ ih1 ih2 =>
    intro hn key
    rw [ih1 hn, ih2 ((h1.map Prod.fst).nodup_iff.mp hn)]

theorem insertEntry_perm (kv : String × Int) : ∀ l : List (String × Int),
    (insertEntry kv l).Perm (kv :: l)
  | [] => List.Perm.refl _
  | x :: xs => by
    unfold insertEntry
    split
    · exact List.Perm.refl _
    · exact ((insertEntry_perm kv xs).cons x).trans (List.Perm.swap kv x xs)

theorem insertEntry_sorted (kv : String × Int) : ∀ l : List (String × Int),
    l.Sorted keyBefore → (∀ x ∈ l, x.1 ≠ kv.1) → (insertEntry kv l).Sorted keyBefore
  | [], _, _ => by simp [insertEntry]
  | x :: xs, hs, hne => by
    unfold insertEntry
    have hx := List.sorted_cons.mp hs
    split
    · rename_i hlt
      refine List.sorted_cons.mpr ⟨?_, hs⟩
      intro b hb
      rcases List.mem_cons.mp hb with rfl | hb
      · exact hlt
      · exact lt_trans hlt (hx.1 b hb)
    · rename_i hlt
      have hxk : x.1.data < kv.1.data := by
        have hd : x.1.data ≠ kv.1.data := fun h =>
          hne x (List.mem_cons_self _ _) (String.ext h)
        rcases lt_or_gt_of_ne hd with h | h
        · exact h
        · exact absurd h hlt
      refine List.sorted_cons.mpr ⟨?_, insertEntry_sorted kv xs hx.2
        (fun y hy => hne y (List.mem_cons_of_mem _ hy))⟩
      intro b hb
      rcases List.mem_cons.mp ((insertEntry_perm kv xs).mem_iff.mp hb) with rfl | hb
      · exact hxk
      · exact hx.1 b hb

theorem sortEntries_spec : ∀ l : List (String × Int), (l.map Prod.fst).Nodup →
    (l.foldr insertEntry []).Perm l ∧ (l.foldr insertEntry []).Sorted keyBefore
  | [], _ => ⟨List.Perm.refl _, List.sorted_nil⟩
  | x :: xs, hn => by
    have hn1 : (x.1 :: xs.map Prod.fst).Nodup := hn
    have hn2 := List.nodup_cons.mp hn1
    obtain ⟨hp, hs⟩ := sortEntries_spec xs hn2.2
    rw [List.foldr_cons]
    refine ⟨(insertEntry_perm x _).trans (hp.cons x), insertEntry_sorted x _ hs ?_⟩
    intro y hy h
    apply hn2.1
    rw [← h]
    exact List.mem_map_of_mem _ (hp.mem_iff.mp hy)

/-- The verb `%v` prints two lists of the same entries alike. -/
theorem formatMap_perm {p1 p2 : Parameters} (h : p1.Perm p2) (hn : (p1.map Prod.fst).Nodup) :
    formatMap p1 = formatMap p2 := by
  have hn2 : (p2.map Prod.fst).Nodup := (h.map Prod.fst).nodup_iff.mp hn
  obtain ⟨hp1, hs1⟩ := sortEntries_spec p1 hn
  obtain ⟨hp2, hs2⟩ := sortEntries_spec p2 hn2
  have hanti : IsAntisymm (String × Int) keyBefore :=
    ⟨fun a b h1 h2 => absurd h2 (lt_asymm h1)⟩
  have heq : p1.foldr insertEntry [] = p2.foldr insertEntry [] :=
    List.eq_of_perm_of_sorted ((hp1.trans h).trans hp2.symm) hs1 hs2
  unfold formatMap
  rw [heq]

/-! ## C23 -/

theorem observed_perm (printable : Char → Bool) (s : String) {p1 p2 : Parameters}
    (h : p1.Perm p2) (hn : (p1.map Prod.fst).Nodup) :
    observed printable (EvaluateLogicalExpression s p1)
      = observed printable (EvaluateLogicalExpression s p2) := by
  have hparams : paramsToEvaluate p1 = paramsToEvaluate p2 := by
    funext key
    unfold paramsToEvaluate
    rw [get?_perm h hn key]
  unfold EvaluateLogicalExpression
  rw [hparams]
  cases h1 : NewEvaluableExpression (ReplaceAll (ReplaceAll s "AND" "&&") "OR" "||") with
  | error e => simp only [h1, observed]
  | ok exp =>
    cases h2 : exp.Evaluate (paramsToEvaluate p2) with
    | error e =>
      simp only [h1, h2, observed, Option.map_some', EvalError.Error, formatMap_perm h hn]
    | ok v => cases v <;> simp only [h1, h2]

theorem firstMissing_congr {p1 p2 : Parameters}
    (h : ∀ key, Parameters.get? p1 key = Parameters.get? p2 key) :
    ∀ keys, firstMissing p1 keys = firstMissing p2 keys
  | [] => rfl
  | k :: ks => by
    rw [firstMissing, firstMissing, h k, firstMissing_congr h ks]

theorem firstMissing_of_one (parameters : Parameters) {keys1 keys2 : List String}
    (hperm : keys1.Perm keys2)
    (hone : ∀ k1 ∈ keys1, ∀ k2 ∈ keys1, parameters.get? k1 = none → parameters.get? k2 = none →
      k1 = k2) :
    firstMissing parameters keys1 = firstMissing parameters keys2 := by
  cases h1 : firstMissing parameters keys1 with
  | none =>
    symm
    rw [firstMissing_eq_none_iff] at h1 ⊢
    intro key hkey
    exact h1 key (hperm.mem_iff.mpr hkey)
  | some k =>
    cases h2 : firstMissing parameters keys2 with
    | none =>
      exact absurd (firstMissing_some h1).2
        (firstMissing_none h2 k (hperm.mem_iff.mp (firstMissing_some h1).1))
    | some k2 =>
      rw [hone k (firstMissing_some h1).1 k2 (hperm.mem_iff.mpr (firstMissing_some h2).1)
        (firstMissing_some h1).2 (firstMissing_some h2).2]

theorem firstMissing_isSome_perm (parameters : Parameters) {keys1 keys2 : List String}
    (hperm : keys1.Perm keys2) :
    (firstMissing parameters keys1).isSome = (firstMissing parameters keys2).isSome := by
  cases h1 : firstMissing parameters keys1 with
  | none =>
    have : firstMissing parameters keys2 = none := by
      rw [firstMissing_eq_none_iff] at h1 ⊢
      intro key hkey
      exact h1 key (hperm.mem_iff.mpr hkey)
    rw [this]
  | some k =>
    cases h2 : firstMissing parameters keys2 with
    | none =>
      exact absurd (firstMissing_some h1).2
        (firstMissing_none h2 k (hperm.mem_iff.mp (firstMissing_some h1).1))
    | some k2 => rfl

theorem serviceObserved_evaluated {σ : Type} (printable : Char → Bool) (value : String)
    (store1 : σ) {p1 p2 : Parameters}
    (h : observed printable (EvaluateLogicalExpression value p1)
      = observed printable (EvaluateLogicalExpression value p2)) :
    serviceObserved printable
        (match EvaluateLogicalExpression value p1 with
          | .panicked => .panicked
          | .returned (_, some err) => .returned ((false, some (.evaluating value err)), store1)
          | .returned (res, none) => .returned ((res, none), store1))
      = serviceObserved printable
        (match EvaluateLogicalExpression value p2 with
          | .panicked => .panicked
          | .returned (_, some err) => .returned ((false, some (.evaluating value err)), store1)
          | .returned (res, none) => .returned ((res, none), store1)) := by
  cases h1 : EvaluateLogicalExpression value p1 with
  | panicked =>
    cases h2 : EvaluateLogicalExpression value p2 with
    | panicked => rfl
    | returned r2 => rw [h1, h2] at h; simp [observed] at h
  | returned r1 =>
    cases h2 : EvaluateLogicalExpression value p2 with
    | panicked => rw [h1, h2] at h; simp [observed] at h
    | returned r2 =>
      obtain ⟨b1, e1⟩ := r1
      obtain ⟨b2, e2⟩ := r2
      rw [h1, h2] at h
      simp only [observed, Option.some.injEq, Prod.mk.injEq] at h
      cases e1 with
      | none =>
        cases e2 with
        | none => simp only [serviceObserved, h.1]
        | some e2 => simp at h
      | some e1 =>
        cases e2 with
        | none => simp at h
        | some e2 =>
          simp only [Option.map_some', Option.some.injEq] at h
          simp only [serviceObserved, Option.map_some', ServiceError.Error, h.2]

/-- C23 as stated fails when two parameters are missing: for the stored
expression "x AND y" and the empty map, one call names `x` and another call,
whose loop visits the keys of the Go map in another order, names `y`; the two
error texts differ. -/
theorem C23_counterexample :
    serviceObserved (fun _ => true)
        (EvaluateExpression (singleRepository "x AND y") () listOrder 1 [])
      = some ((false,
          some "missing parameter \"x\" for the logical expression \"x AND y\""), ())
    ∧ serviceObserved (fun _ => true)
        (EvaluateExpression (singleRepository "x AND y") () reverseOrder 1 [])
      = some ((false,
          some "missing parameter \"y\" for the logical expression \"x AND y\""), ()) := by
  decide

/-- C23, amended: two calls of `EvaluateLogicalExpression` with the same
expression text and the same parameters map (the same entries, in whatever
order the map holds them) return the same boolean and the same error text.
Two calls of the service's `EvaluateExpression` on the same store return the
same boolean and leave the same store, whatever the order in which each call
ranges over the collected parameters; they return the same error text when at
most one collected parameter is missing. When more than one is missing the
parameter the error names depends on that order. -/
theorem C23_calls_agree_but_for_the_named_parameter {σ : Type} (printable : Char → Bool)
    (s : String) (p1 p2 : Parameters) (expressionRepository : ExpressionRepository σ)
    (store : σ) (range1 range2 : RangeOrder) (ID : Int)
    (hperm : p1.Perm p2) (hnodup : (p1.map Prod.fst).Nodup) :
    observed printable (EvaluateLogicalExpression s p1)
      = observed printable (EvaluateLogicalExpression s p2)
    ∧ (serviceObserved printable
          (EvaluateExpression expressionRepository store range1 ID p1)).map
        (fun r => (r.1.1, r.2))
      = (serviceObserved printable
          (EvaluateExpression expressionRepository store range2 ID p2)).map
        (fun r => (r.1.1, r.2))
    ∧ ((∀ exp st, expressionRepository.GetExpressionByID store ID = (.ok exp, st) →
          ∀ k1 ∈ GetLogicalExpressionParameters exp.Value,
          ∀ k2 ∈ GetLogicalExpressionParameters exp.Value,
            p1.get? k1 = none → p1.get? k2 = none → k1 = k2) →
        serviceObserved printable (EvaluateExpression expressionRepository store range1 ID p1)
          = serviceObserved printable
              (EvaluateExpression expressionRepository store range2 ID p2)) := by
  have hobs := fun value => observed_perm printable value hperm hnodup
  have hget := get?_perm hperm hnodup
  refine ⟨hobs s, ?_, ?_⟩
  · unfold EvaluateExpression
    cases hrepo : expressionRepository.GetExpressionByID store ID with
    | mk r store1 =>
      cases r with
      | error e => cases e <;> rfl
      | ok exp =>
        simp only
        have hsome := firstMissing_isSome_perm p1
          (((range1.perm (GetLogicalExpressionParameters exp.Value)).trans
            (range2.perm (GetLogicalExpressionParameters exp.Value)).symm))
        rw [firstMissing_congr hget (range2.order _)] at hsome
        cases h1 : firstMissing p1 (range1.order (GetLogicalExpressionParameters exp.Value)) with
        | some k1 =>
          cases h2 : firstMissing p2
              (range2.order (GetLogicalExpressionParameters exp.Value)) with
          | some k2 => rfl
          | none => rw [h1, h2] at hsome; simp at hsome
        | none =>
          cases h2 : firstMissing p2
              (range2.order (GetLogicalExpressionParameters exp.Value)) with
          | some k2 => rw [h1, h2] at hsome; simp at hsome
          | none =>
            simp only
            rw [serviceObserved_evaluated printable exp.Value store1 (hobs exp.Value)]
  · intro hone
    unfold EvaluateExpression
    cases hrepo : expressionRepository.GetExpressionByID store ID with
    | mk r store1 =>
      cases r with
      | error e => cases e <;> rfl
      | ok exp =>
        simp only
        have hfirst := firstMissing_of_one p1
          (((range1.perm (GetLogicalExpressionParameters exp.Value)).trans
            (range2.perm (GetLogicalExpressionParameters exp.Value)).symm))
          (by
            intro k1 hk1 k2 hk2
            exact hone exp store1 hrepo k1 ((range1.perm _).mem_iff.mp hk1) k2
              ((range1.perm _).mem_iff.mp hk2))
        rw [firstMissing_congr hget (range2.order _)] at hfirst
        rw [hfirst]
        cases firstMissing p2 (range2.order (GetLogicalExpressionParameters exp.Value)) with
        | some k => rfl
        | none =>
          simp only
          exact serviceObserved_evaluated printable exp.Value store1 (hobs exp.Value)

/-- C23 at the expression "z AND y" with the map z = 1 held in two orders, the
second call lacking nothing but `y`: the error text of
`EvaluateLogicalExpression` is the same for the two orders of the map. -/
theorem C23_witness :
    observed (fun _ => true) (EvaluateLogicalExpression "z AND y" [("z", 1), ("a", 0)])
      = observed (fun _ => true) (EvaluateLogicalExpression "z AND y" [("a", 0), ("z", 1)])
    ∧ observed (fun _ => true) (EvaluateLogicalExpression "z AND y" [("a", 0), ("z", 1)])
      = some (false, some ("error evaluating expression \"z && y\" with parameters "
          ++ "map[a:0 z:1]: No parameter \'y\' found.")) :=
  ⟨(C23_calls_agree_but_for_the_named_parameter (fun _ => true) "z AND y"
      [("z", 1), ("a", 0)] [("a", 0), ("z", 1)] (singleRepository "z AND y") () listOrder
      reverseOrder 1 (List.Perm.swap _ _ _) (by decide)).1, by decide⟩

/-! ## C22 -/

end LogicExp
